import Mathlib

/-!
# OTA storage (core/vm/ota_storage.go)

A shallow embedding of the one-time-address ledger and of the decoy sampler
`GetOTASet`, followed by the properties established about them.

Conventions of the embedding

* A Go `[]byte` is a `List (Fin 256)`; a nil slice and an empty slice are both `[]`
  (the source only ever tests `len(..) == 0`, and `x != nil && len(x) != 0`
  is the same test).  Slices that the source returns as a literal `nil` next to
  an error are `Option` values.
* A `*big.Int` is an `Option Int` (`none` is the nil pointer).
* An `error` is an `Option OTAError` (`none` is the nil error).
* The state database is a value; functions that write to it return the new one.
* Go `int` counters are unbounded here: `loopTimes`, `i` and `mptEleCount` grow by one
  per callback invocation and cannot reach 2^63 in any run that finishes.
-/

namespace OTAStorage

/-! ## Bytes, hashes, addresses -/

abbrev Bytes := List (Fin 256)

/-- The 32-byte key type `common.Hash`, kept as its byte sequence. -/
abbrev Hash := Bytes

/-- The 20-byte account address type `common.Address`, kept as its byte sequence. -/
abbrev Address := Bytes

/-- Modelled from the spec: `common.HashLength` is declared outside ota_storage.go;
the Identifier (AX) is a fixed-length 32-byte value. -/
def HashLength : Nat := 32

/-- Modelled from the spec: `common.AddressLength` is declared outside ota_storage.go;
a bucket identifier has a fixed width, 20 bytes (40 hexadecimal digits in the
doc comment of `OTABalance2ContractAddr`). -/
def AddressLength : Nat := 20

/-- Modelled from the spec: `common.WAddressLength` is declared outside ota_storage.go;
the Full Address is a fixed-length byte sequence embedding the Identifier at
offset 1; its published length is 66 (two 33-byte compressed public keys). -/
def WAddressLength : Nat := 66

def zeroByte : Fin 256 := ⟨0, by decide⟩

/-- Crop a byte sequence from the left to `n` bytes, or left-pad it with zeros:
the `SetBytes` of the fixed-width array types of package common. -/
def leftPadCrop (n : Nat) (b : Bytes) : Bytes :=
  if b.length > n then b.drop (b.length - n)
  else List.replicate (n - b.length) zeroByte ++ b

/-- Modelled from the spec: `common.BytesToHash` is declared outside ota_storage.go.
It yields the fixed 32-byte Identifier width: a longer slice keeps its last 32
bytes, a shorter one is left-padded with zeros, a 32-byte slice is unchanged. -/
def BytesToHash (b : Bytes) : Hash := leftPadCrop HashLength b

/-- Modelled from the spec: `common.BytesToAddress` is declared outside ota_storage.go.
It yields the fixed 20-byte bucket-identifier width in the same way. -/
def BytesToAddress (b : Bytes) : Address := leftPadCrop AddressLength b

/-- The zero value `common.Address{}`. -/
def zeroAddress : Address := List.replicate AddressLength zeroByte

/-! ## math/big -/

/-- Little-endian base-256 digits of `n`, no trailing zero; `fuel ≥ n` is enough. -/
def natBytesLE : Nat → Nat → Bytes
  | 0, _ => []
  | fuel + 1, n =>
    if n = 0 then [] else ⟨n % 256, Nat.mod_lt _ (by decide)⟩ :: natBytesLE fuel (n / 256)

/-- The method `(*big.Int).Bytes`: big-endian bytes of the absolute value. -/
def bigBytes (x : Int) : Bytes := (natBytesLE x.natAbs x.natAbs).reverse

/-- Value of a big-endian byte sequence. -/
def beValue (b : Bytes) : Nat := b.foldl (fun acc c => acc * 256 + c.val) 0

/-- The method `(*big.Int).SetBytes`: the unsigned big-endian value. -/
def bigSetBytes (b : Bytes) : Int := (beValue b : Nat)

/-- Little-endian decimal digits of `n`, no trailing zero; `fuel ≥ n` is enough. -/
def decDigitsLE : Nat → Nat → List Nat
  | 0, _ => []
  | fuel + 1, n => if n = 0 then [] else (n % 10) :: decDigitsLE fuel (n / 10)

/-- The method `(*big.Int).String`: the decimal rendering, as a list of characters. -/
def bigString (x : Int) : List Char :=
  let ds := if x.natAbs = 0 then ['0']
            else (decDigitsLE x.natAbs x.natAbs).reverse.map Nat.digitChar
  if x < 0 then '-' :: ds else ds

/-! ## Hexadecimal decoding (package common) -/

/-- Value of one hexadecimal digit, `none` for any other character. -/
def fromHexChar (c : Char) : Option Nat :=
  if '0' ≤ c ∧ c ≤ '9' then some (c.toNat - '0'.toNat)
  else if 'a' ≤ c ∧ c ≤ 'f' then some (c.toNat - 'a'.toNat + 10)
  else if 'A' ≤ c ∧ c ≤ 'F' then some (c.toNat - 'A'.toNat + 10)
  else none

/-- Modelled from the spec: `common.Hex2Bytes` is declared outside ota_storage.go.
It decodes pairs of hexadecimal digits and drops the decoding error; decoding
stops at the first pair that is not hexadecimal. -/
def Hex2Bytes : List Char → Bytes
  | a :: b :: rest =>
    match fromHexChar a, fromHexChar b with
    | some x, some y => ⟨(16 * x + y) % 256, Nat.mod_lt _ (by decide)⟩ :: Hex2Bytes rest
    | _, _ => []
  | _ => []

/-- Modelled from the spec: `common.FromHex` is declared outside ota_storage.go, and the
specification gives no decoding rule for it; the definition follows package common of
go-ethereum 1.7, from which the repository derives.  A string of at most one character
decodes to nil; a longer one loses an optional `0x` prefix, is left-padded with one `0`
when its length is odd, and its hexadecimal digits are decoded. -/
def FromHex (s : List Char) : Bytes :=
  if s.length > 1 then
    let s1 := match s with
      | '0' :: 'x' :: t => t
      | '0' :: 'X' :: t => t
      | _ => s
    let s2 := if s1.length % 2 = 1 then '0' :: s1 else s1
    Hex2Bytes s2
  else []

/-- Modelled from the spec: `common.HexToAddress` is declared outside ota_storage.go.
The bucket identifier of fixed width read from a hexadecimal string. -/
def HexToAddress (s : List Char) : Address := BytesToAddress (FromHex s)

/-! ## The key-value state port -/

/-- Modelled from the spec: the `StateDB` interface is declared outside ota_storage.go.
The Key-Value State Port is scoped byte-array storage keyed by
(bucket identifier, item key); an absent entry reads as the empty slice. -/
structure StateDB where
  storage : Address → Hash → Bytes

/-- Modelled from the spec: `getBytes(bucket, key)` of the State Port. -/
def StateDB.GetStateByteArray (db : StateDB) (addr : Address) (key : Hash) : Bytes :=
  db.storage addr key

/-- Modelled from the spec: `setBytes(bucket, key, bytes)` of the State Port, an
unconditional upsert. -/
def StateDB.SetStateByteArray (db : StateDB) (addr : Address) (key : Hash) (value : Bytes) :
    StateDB :=
  ⟨fun a k => if a = addr ∧ k = key then value else db.storage a k⟩

/-- The database without any entry. -/
def StateDB.empty : StateDB := ⟨fun _ _ => []⟩

/-! ## Errors of ota_storage.go -/

inductive OTAError where
  /-- The error "invalid input param!". -/
  | invalidInputParam
  /-- The error "invalid input ota AX!". -/
  | invalidInputOtaAX
  /-- The error "ota balance is 0! ota:" followed by the identifier. -/
  | balanceIsZeroOta (ota : Bytes)
  /-- The error "otas have different balances! ota:" followed by the identifier. -/
  | differentBalances (ota : Bytes)
  /-- The error of the second loop of BatCheckOTAExit (no bucket entry), with the identifier. -/
  | otaDoesntExit (ota : Bytes)
  /-- The error "ota exit already!". -/
  | otaExitAlready
  /-- The error "ota balance is 0!". -/
  | balanceIsZero
  /-- The error "cant find ota address balance!". -/
  | cantFindBalance
  /-- The error "invalid OTA address! balance:.., ota:..". -/
  | invalidOTAAddress (balance : Int) (value : Bytes)
  /-- The error "no ota address exit! balance:..". -/
  | noOtaAddressExit (balance : Int)
  deriving DecidableEq, Repr

/-! ## The ledger operations -/

/-- OTABalance2ContractAddr convert ota balance to ota storage address. -/
def OTABalance2ContractAddr (balance : Option Int) : Address :=
  match balance with
  | none => zeroAddress
  | some b => HexToAddress (bigString b)

/-- GetAXFromWanAddr retrieve ota AX from ota WanAddr. -/
def GetAXFromWanAddr (otaWanAddr : Bytes) : Bytes × Option OTAError :=
  if otaWanAddr.length ≠ WAddressLength then ([], some .invalidInputParam)
  else ((otaWanAddr.drop 1).take HashLength, none)

/-- GetOtaBalanceFromAX retrieve ota balance from ota AX. -/
def GetOtaBalanceFromAX (otaBalanceStorageAddr : Address) (statedb : Option StateDB)
    (otaAX : Bytes) : Option Int × Option OTAError :=
  match statedb with
  | none => (none, some .invalidInputParam)
  | some db =>
    if otaAX.length ≠ HashLength then (none, some .invalidInputParam)
    else
      let balance := db.GetStateByteArray otaBalanceStorageAddr (BytesToHash otaAX)
      if balance.length = 0 then (some 0, none)
      else (some (bigSetBytes balance), none)

/-- SetOtaBalanceToAX set ota balance as 'balance'. Overwrite if ota balance exit already. -/
def SetOtaBalanceToAX (otaBalanceStorageAddr : Address) (statedb : Option StateDB)
    (otaAX : Bytes) (balance : Option Int) : Option StateDB × Option OTAError :=
  match statedb, balance with
  | some db, some b =>
    if otaAX.length ≠ HashLength then (statedb, some .invalidInputParam)
    else (some (db.SetStateByteArray otaBalanceStorageAddr (BytesToHash otaAX) (bigBytes b)), none)
  | _, _ => (statedb, some .invalidInputParam)

/-- GetOtaBalanceFromWanAddr retrieve ota balance from ota WanAddr. -/
def GetOtaBalanceFromWanAddr (otaBalanceStorageAddr : Address) (statedb : Option StateDB)
    (otaWanAddr : Bytes) : Option Int × Option OTAError :=
  match statedb with
  | none => (none, some .invalidInputParam)
  | some db =>
    if otaWanAddr.length ≠ WAddressLength then (none, some .invalidInputParam)
    else
      let otaAX := (GetAXFromWanAddr otaWanAddr).1
      let balance := db.GetStateByteArray otaBalanceStorageAddr (BytesToHash otaAX)
      if balance.length = 0 then (some 0, none)
      else (some (bigSetBytes balance), none)

/-- ChechOTAExit checks the OTA exit or not. -/
def CheckOTAExit (otaBalanceStorageAddr : Address) (statedb : Option StateDB)
    (otaAX : Bytes) : Bool × Option Int × Option OTAError :=
  match statedb with
  | none => (false, none, some .invalidInputParam)
  | some db =>
    if otaAX.length < HashLength then (false, none, some .invalidInputParam)
    else
      let otaAddrKey := BytesToHash otaAX
      match GetOtaBalanceFromAX otaBalanceStorageAddr statedb otaAddrKey with
      | (_, some err) => (false, none, some err)
      | (balance, none) =>
        if balance = some 0 then (false, none, none)
        else
          let mptAddr := OTABalance2ContractAddr balance
          let otaValue := db.GetStateByteArray mptAddr otaAddrKey
          if otaValue.length ≠ 0 then (true, balance, none)
          else (false, none, none)

/-- Result of `BatCheckOTAExit`: (exit, balance, unexitOta, err). -/
abbrev BatResult := Bool × Option Int × Option Bytes × Option OTAError

/-- The first loop of `BatCheckOTAExit`: every identifier must resolve to one and the
same non-zero balance.  `Except.error` is an early return of the function,
`Except.ok` the value of `balance` when the loop runs to its end. -/
def batBalanceLoop (otaBalanceStorageAddr : Address) (statedb : Option StateDB) :
    List Bytes → Option Int → Except BatResult (Option Int)
  | [], balance => .ok balance
  | otaAX :: rest, balance =>
    if otaAX.length < HashLength then
      .error (false, none, some otaAX, some .invalidInputOtaAX)
    else
      match GetOtaBalanceFromAX otaBalanceStorageAddr statedb (otaAX.take HashLength) with
      | (_, some err) => .error (false, none, some otaAX, some err)
      | (balanceTmp, none) =>
        if balanceTmp = some 0 then
          .error (false, none, some otaAX, some (.balanceIsZeroOta otaAX))
        else if balance = none then
          batBalanceLoop otaBalanceStorageAddr statedb rest balanceTmp
        else if balance ≠ balanceTmp then
          .error (false, none, some otaAX, some (.differentBalances otaAX))
        else
          batBalanceLoop otaBalanceStorageAddr statedb rest balance

/-- The second loop of `BatCheckOTAExit`: the first identifier without a bucket entry. -/
def batExistLoop (db : StateDB) (mptAddr : Address) : List Bytes → Option Bytes
  | [] => none
  | otaAX :: rest =>
    let otaAddrKey := BytesToHash otaAX
    let otaValue := db.GetStateByteArray mptAddr otaAddrKey
    if otaValue.length = 0 then some otaAX else batExistLoop db mptAddr rest

/-- BatCheckOTAExit batch check the OTAs exit or not.
Return true means all OTAs exit and their have same balance. -/
def BatCheckOTAExit (otaBalanceStorageAddr : Address) (statedb : Option StateDB)
    (otaAXs : List Bytes) : BatResult :=
  match statedb with
  | none => (false, none, none, some .invalidInputParam)
  | some db =>
    if otaAXs.length = 0 then (false, none, none, some .invalidInputParam)
    else
      match batBalanceLoop otaBalanceStorageAddr statedb otaAXs none with
      | .error r => r
      | .ok balance =>
        let mptAddr := OTABalance2ContractAddr balance
        match batExistLoop db mptAddr otaAXs with
        | some otaAX => (false, none, some otaAX, some (.otaDoesntExit otaAX))
        | none => (true, balance, none, none)

/-- The function setOTA storage ota info, include balance and WanAddr. Overwrite if ota
exit already. -/
def setOTA (otaBalanceStorageAddr : Address) (statedb : Option StateDB)
    (balance : Option Int) (otaWanAddr : Bytes) : Option StateDB × Option OTAError :=
  match statedb, balance with
  | some db, some _ =>
    if otaWanAddr.length ≠ WAddressLength then (statedb, some .invalidInputParam)
    else
      let otaAX := (GetAXFromWanAddr otaWanAddr).1
      let mptAddr := OTABalance2ContractAddr balance
      let db1 := db.SetStateByteArray mptAddr (BytesToHash otaAX) otaWanAddr
      SetOtaBalanceToAX otaBalanceStorageAddr (some db1) otaAX balance
  | _, _ => (statedb, some .invalidInputParam)

/-- AddOTAIfNotExit storage ota info if doesn't exit already. -/
def AddOTAIfNotExit (otaBalanceStorageAddr : Address) (statedb : Option StateDB)
    (balance : Option Int) (otaWanAddr : Bytes) : Option StateDB × Bool × Option OTAError :=
  match statedb, balance with
  | some _, some _ =>
    if otaWanAddr.length ≠ WAddressLength then (statedb, false, some .invalidInputParam)
    else
      let otaAX := (GetAXFromWanAddr otaWanAddr).1
      let otaAddrKey := BytesToHash otaAX
      match CheckOTAExit otaBalanceStorageAddr statedb otaAddrKey with
      | (_, _, some err) => (statedb, false, some err)
      | (exit, _, none) =>
        if exit then (statedb, false, some .otaExitAlready)
        else
          match setOTA otaBalanceStorageAddr statedb balance otaWanAddr with
          | (db1, some err) => (db1, false, some err)
          | (db1, none) => (db1, true, none)
  | _, _ => (statedb, false, some .invalidInputParam)

/-- GetOTAInfoFromAX retrieve ota info, include balance and WanAddr. -/
def GetOTAInfoFromAX (otaBalanceStorageAddr : Address) (statedb : Option StateDB)
    (otaAX : Bytes) : Option Bytes × Option Int × Option OTAError :=
  match statedb with
  | none => (none, none, some .invalidInputParam)
  | some db =>
    if otaAX.length < HashLength then (none, none, some .invalidInputParam)
    else
      let otaAddrKey := BytesToHash otaAX
      match GetOtaBalanceFromAX otaBalanceStorageAddr statedb otaAddrKey with
      | (_, some err) => (none, none, some err)
      | (balance, none) =>
        if balance = none ∨ balance = some 0 then (none, none, some .balanceIsZero)
        else
          let mptAddr := OTABalance2ContractAddr balance
          let otaValue := db.GetStateByteArray mptAddr otaAddrKey
          if otaValue.length ≠ 0 then (some otaValue, balance, none)
          else (none, balance, none)

/-- OTAInSet checks ota in set or not. -/
def OTAInSet : List Bytes → Bytes → Bool
  | [], _ => false
  | exit :: rest, ota => if exit = ota then true else OTAInSet rest ota

/-! ## The decoy sampler -/

/-- The local variables of `GetOTASet` that its closures read and write.
The field `draws` counts the calls made to `rand.Intn` so far. -/
structure SamplerState where
  otaWanAddrs : List Bytes
  rnd : Nat
  draws : Nat
  i : Nat
  loopTimes : Nat
  mptEleCount : Nat
  err : Option OTAError
  deriving DecidableEq, Repr

/-- The closure `randomSel` of `GetOTASet`.  The sequence `rand` holds the successive
results of `rand.Intn(100)`. -/
def randomSel (rand : Nat → Nat) (setNum : Int) (st : SamplerState) (value : Bytes) :
    SamplerState × Bool :=
  let st1 := { st with loopTimes := st.loopTimes + 1 }
  if st1.loopTimes % st1.rnd = 0 then
    let st2 := { st1 with
      otaWanAddrs := st1.otaWanAddrs ++ [value]
      i := st1.i + 1
      rnd := rand st1.draws + 1
      draws := st1.draws + 1 }
    (st2, decide ((st2.i : Int) < setNum))
  else
    (st1, true)

/-- The closure `isSelf` of `GetOTASet`. -/
def isSelf (otaAX : Bytes) (value : Bytes) : Bool :=
  let findAX := (GetAXFromWanAddr value).1
  decide (findAX = otaAX)

/-- The callback that `GetOTASet` hands to `ForEachStorageByteArray`, in pass `passNum`.
The returned flag tells the enumeration to go on. -/
def visit (rand : Nat → Nat) (otaAX : Bytes) (setNum : Int) (balance : Int) (passNum : Nat)
    (st : SamplerState) (_key : Hash) (value : Bytes) : SamplerState × Bool :=
  if value.length ≠ WAddressLength then
    ({ st with err := some (.invalidOTAAddress balance value) }, false)
  else if passNum = 0 then
    let st1 := { st with mptEleCount := st.mptEleCount + 1 }
    if isSelf otaAX value then (st1, true)
    else randomSel rand setNum st1 value
  else if passNum = 1 then
    if setNum ≥ (st.mptEleCount : Int) then
      if !OTAInSet st.otaWanAddrs value then
        let st1 := { st with otaWanAddrs := st.otaWanAddrs ++ [value], i := st.i + 1 }
        (st1, decide ((st1.i : Int) < setNum))
      else (st, true)
    else if !OTAInSet st.otaWanAddrs value then
      if isSelf otaAX value then (st, true)
      else randomSel rand setNum st value
    else (st, true)
  else
    if setNum ≥ (st.mptEleCount : Int) then
      randomSel rand setNum st value
    else if !OTAInSet st.otaWanAddrs value then
      if isSelf otaAX value then (st, true)
      else randomSel rand setNum st value
    else (st, true)

/-- Modelled from the spec: `ForEachStorageByteArray` is declared outside ota_storage.go.
The enumeration primitive `forEachInBucket` visits the entries it is given in
order and stops early when the callback returns false. -/
def ForEachStorageByteArray {σ : Type} (cb : σ → Hash → Bytes → σ × Bool) :
    List (Hash × Bytes) → σ → σ
  | [], st => st
  | (key, value) :: rest, st =>
    match cb st key value with
    | (st1, true) => ForEachStorageByteArray cb rest st1
    | (st1, false) => st1

/-- Result of `GetOTASet`: (otaWanAddrs, balance, err). -/
abbrev SetResult := Option (List Bytes) × Option Int × Option OTAError

/-- The pass loop `for { ... passNum++ }` of `GetOTASet`, cut after `fuel` passes
(`none` when the fuel runs out).  `entries p` is what the enumeration of the
bucket yields on pass `p`. -/
def passLoop (rand : Nat → Nat) (entries : Nat → List (Hash × Bytes)) (otaAX : Bytes)
    (setNum : Int) (balance : Int) : Nat → Nat → SamplerState → Option SetResult
  | 0, _, _ => none
  | fuel + 1, passNum, st =>
    let st1 := ForEachStorageByteArray (visit rand otaAX setNum balance passNum)
      (entries passNum) st
    if st1.err ≠ none then some (none, none, st1.err)
    else if st1.mptEleCount = 0 then some (none, some balance, some (.noOtaAddressExit balance))
    else if (st1.i : Int) ≥ setNum then some (some st1.otaWanAddrs, some balance, none)
    else passLoop rand entries otaAX setNum balance fuel (passNum + 1) st1

/-- The values of the locals of `GetOTASet` when the pass loop is entered. -/
def initialState (rand : Nat → Nat) : SamplerState :=
  { otaWanAddrs := [], rnd := rand 0 + 1, draws := 1, i := 0, loopTimes := 0,
    mptEleCount := 0, err := none }

/-- GetOTASet retrieve the setNum of same balance OTA address of the input OTA setting by
otaAX.  As far as possible return the OTA set does not contain duplicate items and
input otaAX self.

`rand k` is the result of the `k`-th call of `rand.Intn(100)`, `entries addr p` what
the `p`-th enumeration of bucket `addr` yields, `fuel` the number of passes allowed. -/
def GetOTASet (fuel : Nat) (otaBalanceStorageAddr : Address) (rand : Nat → Nat)
    (entries : Address → Nat → List (Hash × Bytes)) (statedb : Option StateDB)
    (otaAX : Bytes) (setNum : Int) : Option SetResult :=
  match statedb with
  | none => some (none, none, some .invalidInputParam)
  | some _ =>
    if otaAX.length ≠ HashLength then some (none, none, some .invalidInputParam)
    else
      match GetOtaBalanceFromAX otaBalanceStorageAddr statedb otaAX with
      | (_, some err) => some (none, none, some err)
      | (none, none) => some (none, none, some .cantFindBalance)
      | (some balance, none) =>
        if balance = 0 then some (none, none, some .cantFindBalance)
        else
          let mptAddr := OTABalance2ContractAddr (some balance)
          passLoop rand (entries mptAddr) otaAX setNum balance fuel 0 (initialState rand)

/-! ## The image registry -/

/-- CheckOTAImageExit checks ota image key exit already or not.  The hash
`crypto.Keccak256Hash` is a parameter. -/
def CheckOTAImageExit (Keccak256Hash : Bytes → Hash) (otaImageStorageAddr : Address)
    (statedb : Option StateDB) (otaImage : Bytes) : Bool × Option Bytes × Option OTAError :=
  match statedb with
  | none => (false, none, some .invalidInputParam)
  | some db =>
    if otaImage.length = 0 then (false, none, some .invalidInputParam)
    else
      let otaImageKey := Keccak256Hash otaImage
      let otaImageValue := db.GetStateByteArray otaImageStorageAddr otaImageKey
      if otaImageValue.length ≠ 0 then (true, some otaImageValue, none)
      else (false, none, none)

/-- AddOTAImage storage ota image key. Overwrite if exit already. -/
def AddOTAImage (Keccak256Hash : Bytes → Hash) (otaImageStorageAddr : Address)
    (statedb : Option StateDB) (otaImage : Bytes) (value : Bytes) :
    Option StateDB × Option OTAError :=
  match statedb with
  | none => (none, some .invalidInputParam)
  | some db =>
    if otaImage.length = 0 ∨ value.length = 0 then (statedb, some .invalidInputParam)
    else
      let otaImageKey := Keccak256Hash otaImage
      (some (db.SetStateByteArray otaImageStorageAddr otaImageKey value), none)

/-! ## Auxiliary definitions of the development -/

/-- Value of a little-endian byte sequence. -/
def leValue : Bytes → Nat
  | [] => 0
  | c :: rest => c.val + 256 * leValue rest

/-- The identifier embedded in a full address: bytes 1..32. -/
def axOf (A : Bytes) : Bytes := (A.drop 1).take HashLength

/-- What `batBalanceLoop` returns once `balance` is set to `b`: an early return at the
first identifier whose balance differs from `b`, else `b`. -/
def batLoopSpec (obsa : Address) (db : StateDB) (b : Option Int) (l : List Bytes) :
    Except BatResult (Option Int) :=
  match l.find? (fun x => decide ((GetOtaBalanceFromAX obsa (some db) x).1 ≠ b)) with
  | some y => .error (false, none, some y, some (.differentBalances y))
  | none => .ok b

/-- Identifier `k` is recorded under denomination `D`: the index entry reads `D` and
the bucket of `D` holds a non-empty entry. -/
def Recorded (obsa : Address) (D : Int) (db : StateDB) (k : Hash) : Prop :=
  bigSetBytes (db.GetStateByteArray obsa k) = D ∧
    (db.GetStateByteArray (OTABalance2ContractAddr (some D)) k).length ≠ 0

/-- The values of an enumeration. -/
def vals (l : List (Hash × Bytes)) : List Bytes := l.map Prod.snd

/-- Work left for the skip-sampling passes: 100 draws for every selection still to be
made after the next one, plus the distance of `loopTimes` to the next multiple of `rnd`. -/
def phi (n : Nat) (s : SamplerState) : Nat :=
  100 * (n - s.i - 1) + (s.rnd - s.loopTimes % s.rnd)

/-- The facts about the sampler state that hold while fewer than `setNum` entries of a
bucket larger than `setNum` are selected. -/
structure Safe (otaAX : Bytes) (values : List Bytes) (s : SamplerState) : Prop where
  err : s.err = none
  len : s.i = s.otaWanAddrs.length
  rndPos : 1 ≤ s.rnd
  rndLe : s.rnd ≤ 100
  nodup : s.otaWanAddrs.Nodup
  mem : ∀ a ∈ s.otaWanAddrs, isSelf otaAX a = false ∧ a ∈ values

/-- The bucket at `mptAddr` is well formed: the enumeration yields stored entries,
each a full address of the fixed width stored under its own identifier, no key
twice, and every pass enumerates the same entries in some order. -/
structure WellFormedBucket (db : StateDB) (mptAddr : Address)
    (ents : Nat → List (Hash × Bytes)) : Prop where
  stored : ∀ p, ∀ e ∈ ents p, db.GetStateByteArray mptAddr e.1 = e.2
  width : ∀ e ∈ ents 0, e.2.length = WAddressLength
  ownKey : ∀ e ∈ ents 0, e.1 = (GetAXFromWanAddr e.2).1
  nodupKeys : ((ents 0).map Prod.fst).Nodup
  perm : ∀ p, (ents p).Perm (ents 0)

/-- The facts about the sampler state that hold in every pass: no error so far and a
skip-distance in 1..100. -/
def Base (s : SamplerState) : Prop := s.err = none ∧ 1 ≤ s.rnd ∧ s.rnd ≤ 100

/-! ## Concrete data for the scenarios of the specification -/

/-- A full address whose identifier starts with byte `k` and whose byte 0 is `t`. -/
def exAddrTagged (t k : Fin 256) : Bytes := [t, k] ++ List.replicate 64 zeroByte

/-- The full address `A_k` of the scenarios. -/
def exAddr (k : Fin 256) : Bytes := exAddrTagged zeroByte k

/-- The identifier of `A_k`. -/
def exAX (k : Fin 256) : Bytes := (GetAXFromWanAddr (exAddr k)).1

/-- An index-store address for the scenarios,
`common.BytesToAddress(big.NewInt(300).Bytes())`. -/
def exBalanceStorageAddr : Address := BytesToAddress (bigBytes 300)

/-- One coin, the denomination 10^18 of the scenarios. -/
def oneCoin : Int := 1000000000000000000

/-- The bucket of one coin. -/
def exBucket : Address := OTABalance2ContractAddr (some oneCoin)

/-- The database behind a non-nil handle. -/
def stateOf (statedb : Option StateDB) : StateDB := statedb.getD StateDB.empty

/-- The handle after `setOTA(balance, A)` for each `A` of a list, in order. -/
def setOTAs (otaBalanceStorageAddr : Address) (statedb : Option StateDB) (balance : Option Int)
    (As : List Bytes) : Option StateDB :=
  As.foldl (fun s A => (setOTA otaBalanceStorageAddr s balance A).1) statedb

/-- The state after adding `A1`, `A2`, `A3` under one coin to the empty database. -/
def exDB3 : StateDB :=
  stateOf (setOTAs exBalanceStorageAddr (some StateDB.empty) (some oneCoin)
    [exAddr 1, exAddr 2, exAddr 3])

/-- The entries of the bucket of one coin in `exDB3`. -/
def exList3 : List (Hash × Bytes) :=
  [(exAX 1, exAddr 1), (exAX 2, exAddr 2), (exAX 3, exAddr 3)]

/-- An enumeration of `exDB3`: the same order on every pass. -/
def exEntries3 : Address → Nat → List (Hash × Bytes) :=
  fun addr _ => if addr = exBucket then exList3 else []

/-- The draw sequence in which `rand.Intn(100)` always returns 0 (skip-distance 1). -/
def randZero : Nat → Nat := fun _ => 0

/-- The state after adding `A1` under one coin and `A4` under two coins. -/
def exDBMixed : StateDB :=
  stateOf (setOTA exBalanceStorageAddr
    (setOTA exBalanceStorageAddr (some StateDB.empty) (some oneCoin) (exAddr 1)).1
    (some (2 * oneCoin)) (exAddr 4)).1

/-- A 33-byte identifier: one byte followed by the identifier of `A1`. -/
def exLongAX : Bytes := (⟨9, by decide⟩ : Fin 256) :: exAX 1

/-- The state after adding `A1` under one coin. -/
def exDB1 : StateDB :=
  stateOf (setOTA exBalanceStorageAddr (some StateDB.empty) (some oneCoin) (exAddr 1)).1

/-- The state after setting the balance of the first 32 bytes of `exLongAX` to one coin,
adding `A1` under one coin, and then setting the balance of the identifier of `A1`
to two coins. -/
def exDBSkew : StateDB :=
  stateOf (SetOtaBalanceToAX exBalanceStorageAddr
    (setOTA exBalanceStorageAddr
      (SetOtaBalanceToAX exBalanceStorageAddr (some StateDB.empty)
        (exLongAX.take HashLength) (some oneCoin)).1
      (some oneCoin) (exAddr 1)).1
    (exAX 1) (some (2 * oneCoin))).1

/-- The address `A1` with another leading byte: a second full address that carries the
identifier of `A1`. -/
def exAddrTwin : Bytes := exAddrTagged ⟨7, by decide⟩ 1

/-- The database `exDB1` with two more entries written into the bucket of one coin: the
twin of `A1` under the foreign key `id(A9)`, and `A2` under its own identifier. -/
def exDBTwin : StateDB :=
  (exDB1.SetStateByteArray exBucket (exAX 9) exAddrTwin).SetStateByteArray exBucket (exAX 2)
    (exAddr 2)

/-- The entries of the bucket of one coin in `exDBTwin`. -/
def exListTwin : List (Hash × Bytes) :=
  [(exAX 1, exAddr 1), (exAX 9, exAddrTwin), (exAX 2, exAddr 2)]

/-- An enumeration of `exDBTwin`: the same order on every pass. -/
def exEntriesTwin : Address → Nat → List (Hash × Bytes) :=
  fun addr _ => if addr = exBucket then exListTwin else []

/-- The sampler state after pass 0 over `exListTwin` for target `A1`, count 2 and
skip-distance 1: `A2` is selected, three entries are counted. -/
def exStateTwin : SamplerState :=
  { otaWanAddrs := [exAddr 2], rnd := 1, draws := 2, i := 1, loopTimes := 1,
    mptEleCount := 3, err := none }

/-! ## Definitions for the registry scenario -/

/-- A stand-in for `crypto.Keccak256Hash` in the scenarios: any function into 32-byte keys
serves, the registry only needs the same key for the same image. -/
def exHash (b : Bytes) : Hash := BytesToHash b

/-- An address for the image registry in the scenarios,
`common.BytesToAddress(big.NewInt(301).Bytes())`. -/
def exImageStorageAddr : Address := BytesToAddress (bigBytes 301)

/-- The error of the sampler state, if any, is the one the callback raises for an entry
of the wrong width. -/
def ErrIsInvalid (s : SamplerState) : Prop :=
  s.err = none ∨ ∃ b v, s.err = some (.invalidOTAAddress b v)

/-- An entry has been counted, or the callback has raised its error. -/
def Counted (s : SamplerState) : Prop :=
  ErrIsInvalid s ∧ (1 ≤ s.mptEleCount ∨ s.err ≠ none)

/-- The entries on which `ForEachStorageByteArray` invokes the callback: the walk goes
on after an entry exactly when the callback returns true. -/
def visited {σ : Type} (cb : σ → Hash → Bytes → σ × Bool) :
    List (Hash × Bytes) → σ → List (Hash × Bytes)
  | [], _ => []
  | (key, value) :: rest, st =>
    match cb st key value with
    | (st1, true) => (key, value) :: visited cb rest st1
    | (_, false) => [(key, value)]

/-- The database `exDB1` with a 3-byte entry written into the bucket of one coin. -/
def exDBShort : StateDB := exDB1.SetStateByteArray exBucket (exAX 9) [1, 2, 3]

/-- The entries of the bucket of one coin in `exDBShort`. -/
def exListShort : List (Hash × Bytes) := [(exAX 1, exAddr 1), (exAX 9, [1, 2, 3])]

/-- An enumeration of `exDBShort`: the same order on every pass. -/
def exEntriesShort : Address → Nat → List (Hash × Bytes) :=
  fun addr _ => if addr = exBucket then exListShort else []

/-- An enumeration that yields nothing. -/
def exEntriesNone : Address → Nat → List (Hash × Bytes) := fun _ _ => []

/-- The state in which only the index entry of `A1` is written (one coin), no bucket
entry: a half-written record. -/
def exDBHalf : StateDB :=
  stateOf (SetOtaBalanceToAX exBalanceStorageAddr (some StateDB.empty) (exAX 1)
    (some oneCoin)).1

/-- Invariant I1 of the two stores: whenever a denomination bucket holds a non-empty
entry under a (32-byte) identifier `k`, the index entry of `k` is a non-zero denomination
whose bucket is that bucket.  The index store itself is not counted among the denomination
buckets. -/
def I1 (otaBalanceStorageAddr : Address) (db : StateDB) : Prop :=
  ∀ (D : Int) (k : Hash), k.length = HashLength →
    OTABalance2ContractAddr (some D) ≠ otaBalanceStorageAddr →
    (db.GetStateByteArray (OTABalance2ContractAddr (some D)) k).length ≠ 0 →
    ∃ D1 : Int, (GetOtaBalanceFromAX otaBalanceStorageAddr (some db) k).1 = some D1 ∧ D1 ≠ 0 ∧
      OTABalance2ContractAddr (some D1) = OTABalance2ContractAddr (some D)

/-! ## Definitions for the denomination codec -/

/-- The lower-case hexadecimal rendering of a byte sequence, two digits per byte, without
the `0x` prefix. -/
def hexRender : Bytes → List Char
  | [] => []
  | b :: rest => Nat.digitChar (b.val / 16) :: Nat.digitChar (b.val % 16) :: hexRender rest

/-- The bytes packed from a list of hexadecimal digit values, two digits per byte. -/
def packHex : List Nat → Bytes
  | a :: b :: rest => ⟨(16 * a + b) % 256, Nat.mod_lt _ (by decide)⟩ :: packHex rest
  | _ => []

/-- The decimal digits of a natural number, most significant first; `[0]` for 0. -/
def decDigits (n : Nat) : List Nat :=
  if n = 0 then [0] else (decDigitsLE n n).reverse

/-- Value of a list of decimal digits, least significant first. -/
def decLE : List Nat → Nat
  | [] => 0
  | d :: rest => d + 10 * decLE rest

/-- The number a string of decimal digits stands for. -/
def decValue (s : List Char) : Nat :=
  s.foldl (fun acc c => acc * 10 + (c.toNat - '0'.toNat)) 0

/-! ## Definitions for the skip-sampling policy of pass 0 -/

/-- The non-target members of an enumeration, in enumeration order. -/
def nonTarget (otaAX : Bytes) (l : List (Hash × Bytes)) : List Bytes :=
  (l.map Prod.snd).filter (fun v => !isSelf otaAX v)

/-- The least multiple of `d` above `t`. -/
def nextPos (t d : Nat) : Nat := (t / d + 1) * d

/-- Counter-resetting skip-sampling, as the specification words it: with the current
skip-distance `d`, the member `d` places further on is selected, the counter starts again
from zero and the next distance `rand j + 1` is drawn; at most `n` selections.  The list
holds the members not yet visited. -/
def pickReset (rand : Nat → Nat) : Nat → Nat → Nat → List Bytes → List Bytes
  | 0, _, _, _ => []
  | n + 1, d, j, l =>
    match l.drop (d - 1) with
    | [] => []
    | v :: rest => v :: pickReset rand n (rand j + 1) (j + 1) rest

/-- Skip-sampling on multiples: with `t` members visited so far and the current
skip-distance `d`, the member at the least multiple of `d` above `t` is selected (the
counter goes on from there) and the next distance `rand j + 1` is drawn; at most `n`
selections.  The list holds the members not yet visited. -/
def pickMultiples (rand : Nat → Nat) : Nat → Nat → Nat → Nat → List Bytes → List Bytes
  | 0, _, _, _, _ => []
  | n + 1, t, d, j, l =>
    match l.drop (nextPos t d - t - 1) with
    | [] => []
    | v :: rest => v :: pickMultiples rand n (nextPos t d) (rand j + 1) (j + 1) rest

/-- The draws 2, 4, 4, ...: skip-distances 3, 5, 5, ... -/
def randThreeFive : Nat → Nat := fun k => if k = 0 then 2 else 4

/-- An enumeration of nine full addresses `A1, ..., A9`, each under its identifier. -/
def exList9 : List (Hash × Bytes) :=
  [(exAX 1, exAddr 1), (exAX 2, exAddr 2), (exAX 3, exAddr 3), (exAX 4, exAddr 4),
   (exAX 5, exAddr 5), (exAX 6, exAddr 6), (exAX 7, exAddr 7), (exAX 8, exAddr 8),
   (exAX 9, exAddr 9)]

/-- The handle after a sequence of `setOTA(balance, address)` calls, in order. -/
def setOTAEach (otaBalanceStorageAddr : Address) (statedb : Option StateDB)
    (ops : List (Option Int × Bytes)) : Option StateDB :=
  ops.foldl (fun s op => (setOTA otaBalanceStorageAddr s op.1 op.2).1) statedb

/-! ## Auxiliary lemmas -/

theorem BytesToHash_of_length {b : Bytes} (h : b.length = HashLength) : BytesToHash b = b := by
  simp [BytesToHash, leftPadCrop, h]

theorem GetAXFromWanAddr_of_length {A : Bytes} (h : A.length = WAddressLength) :
    GetAXFromWanAddr A = ((A.drop 1).take HashLength, none) := by
  simp [GetAXFromWanAddr, h]

theorem GetAXFromWanAddr_length {A : Bytes} (h : A.length = WAddressLength) :
    (GetAXFromWanAddr A).1.length = HashLength := by
  rw [GetAXFromWanAddr_of_length h]
  simp [h, WAddressLength, HashLength]

theorem beValue_foldl (b : Bytes) (acc : Nat) :
    b.foldl (fun acc c => acc * 256 + c.val) acc = acc * 256 ^ b.length + beValue b := by
  induction b generalizing acc with
  | nil => simp [beValue]
  | cons c rest ih =>
    simp only [List.foldl_cons, beValue, List.length_cons]
    rw [ih, ih (0 * 256 + c.val)]
    ring

theorem beValue_reverse (b : Bytes) : beValue b.reverse = leValue b := by
  induction b with
  | nil => simp [beValue, leValue]
  | cons c rest ih =>
    simp only [List.reverse_cons, leValue]
    unfold beValue
    rw [List.foldl_append]
    simp only [List.foldl_cons, List.foldl_nil]
    have := ih
    unfold beValue at this
    rw [this]
    ring

theorem leValue_natBytesLE (fuel n : Nat) (h : n ≤ fuel) : leValue (natBytesLE fuel n) = n := by
  induction fuel generalizing n with
  | zero =>
    have : n = 0 := by omega
    subst this
    simp [natBytesLE, leValue]
  | succ fuel ih =>
    unfold natBytesLE
    split
    · next h0 => simp [leValue, h0]
    · next h0 =>
      simp only [leValue]
      rw [ih (n / 256) (by omega)]
      omega

theorem bigSetBytes_bigBytes (x : Int) : bigSetBytes (bigBytes x) = (x.natAbs : Int) := by
  simp [bigSetBytes, bigBytes, beValue_reverse, leValue_natBytesLE]

theorem bigBytes_length_pos {x : Int} (h : x ≠ 0) : (bigBytes x).length ≠ 0 := by
  have hx : x.natAbs ≠ 0 := by simpa using h
  unfold bigBytes
  cases hn : x.natAbs with
  | zero => exact absurd hn hx
  | succ m => simp [natBytesLE]

theorem axOf_length {A : Bytes} (h : A.length = WAddressLength) : (axOf A).length = HashLength := by
  simp [axOf, h, WAddressLength, HashLength]

theorem GetAXFromWanAddr_fst {A : Bytes} (h : A.length = WAddressLength) :
    (GetAXFromWanAddr A).1 = axOf A := by
  simp [GetAXFromWanAddr, h, axOf]

theorem get_set (db : StateDB) (addr : Address) (key : Hash) (v : Bytes) (a : Address) (k : Hash) :
    (db.SetStateByteArray addr key v).GetStateByteArray a k =
      if a = addr ∧ k = key then v else db.GetStateByteArray a k := rfl

theorem setOTA_eq (obsa : Address) (db : StateDB) (D : Int) {A : Bytes}
    (hA : A.length = WAddressLength) :
    setOTA obsa (some db) (some D) A =
      (some ((db.SetStateByteArray (OTABalance2ContractAddr (some D)) (axOf A) A).SetStateByteArray
        obsa (axOf A) (bigBytes D)), none) := by
  have h32 := axOf_length hA
  simp [setOTA, hA, SetOtaBalanceToAX, GetAXFromWanAddr_fst hA, h32, BytesToHash_of_length h32]

theorem GetOtaBalanceFromAX_eq (obsa : Address) (db : StateDB) {ax : Bytes}
    (h : ax.length = HashLength) :
    GetOtaBalanceFromAX obsa (some db) ax =
      (some (bigSetBytes (db.GetStateByteArray obsa ax)), none) := by
  simp only [GetOtaBalanceFromAX, h, BytesToHash_of_length h]
  by_cases h0 : (db.GetStateByteArray obsa ax).length = 0
  · have : db.GetStateByteArray obsa ax = [] := List.length_eq_zero.mp h0
    simp [this, bigSetBytes, beValue]
  · simp [h0]

theorem CheckOTAExit_eq (obsa : Address) (db : StateDB) {ax : Bytes}
    (h : ax.length = HashLength) :
    CheckOTAExit obsa (some db) ax =
      if bigSetBytes (db.GetStateByteArray obsa ax) = 0 then (false, none, none)
      else if (db.GetStateByteArray
          (OTABalance2ContractAddr (some (bigSetBytes (db.GetStateByteArray obsa ax)))) ax).length ≠ 0
        then (true, some (bigSetBytes (db.GetStateByteArray obsa ax)), none)
        else (false, none, none) := by
  simp only [CheckOTAExit]
  rw [if_neg (by rw [h]; exact lt_irrefl _), BytesToHash_of_length h,
    GetOtaBalanceFromAX_eq obsa _ h]
  simp

theorem batBalanceLoop_some (obsa : Address) (db : StateDB) (b : Int) (l : List Bytes)
    (hlen : ∀ x ∈ l, x.length = HashLength)
    (hnz : ∀ x ∈ l, (GetOtaBalanceFromAX obsa (some db) x).1 ≠ some 0) :
    batBalanceLoop obsa (some db) l (some b) = batLoopSpec obsa db (some b) l := by
  induction l with
  | nil => simp [batBalanceLoop, batLoopSpec]
  | cons x rest ih =>
    have hx : x.length = HashLength := hlen x (List.mem_cons_self _ _)
    have hxnz := hnz x (List.mem_cons_self _ _)
    have ih1 := ih (fun y hy => hlen y (List.mem_cons_of_mem _ hy))
      (fun y hy => hnz y (List.mem_cons_of_mem _ hy))
    have htake : x.take HashLength = x := by
      rw [← hx]; exact List.take_length x
    rw [GetOtaBalanceFromAX_eq obsa db hx] at hxnz
    simp only [batBalanceLoop]
    rw [if_neg (by rw [hx]; exact lt_irrefl _), htake, GetOtaBalanceFromAX_eq obsa db hx]
    simp only [batLoopSpec, List.find?_cons, GetOtaBalanceFromAX_eq obsa db hx]
    simp only at hxnz
    rw [if_neg hxnz]
    by_cases hb : some b = some (bigSetBytes (db.GetStateByteArray obsa x))
    · have hb' : ¬ (some (bigSetBytes (db.GetStateByteArray obsa x)) ≠ some b) := by
        simp [← hb]
      simp only [reduceCtorEq, if_false, ne_eq, hb, not_true_eq_false, decide_False]
      rw [← hb, ih1]
      simp [batLoopSpec]
    · have hb' : (some (bigSetBytes (db.GetStateByteArray obsa x)) ≠ some b) := by
        intro h; exact hb h.symm
      simp [hb, hb']

theorem batBalanceLoop_none (obsa : Address) (db : StateDB) (x : Bytes) (l : List Bytes)
    (hx : x.length = HashLength)
    (hxnz : (GetOtaBalanceFromAX obsa (some db) x).1 ≠ some 0) :
    batBalanceLoop obsa (some db) (x :: l) none =
      batBalanceLoop obsa (some db) l (GetOtaBalanceFromAX obsa (some db) x).1 := by
  have htake : x.take HashLength = x := by
    rw [← hx]; exact List.take_length x
  rw [GetOtaBalanceFromAX_eq obsa db hx] at hxnz
  simp only at hxnz
  simp only [batBalanceLoop]
  rw [if_neg (by rw [hx]; exact lt_irrefl _), htake, GetOtaBalanceFromAX_eq obsa db hx]
  simp [hxnz]

theorem setOTA_recorded (obsa : Address) (db : StateDB) (D : Int) (A : Bytes) (hD : 0 < D)
    (hA : A.length = WAddressLength) :
    ∃ db1, (setOTA obsa (some db) (some D) A).1 = some db1 ∧
      Recorded obsa D db1 (axOf A) ∧ ∀ k, Recorded obsa D db k → Recorded obsa D db1 k := by
  have habs : (D.natAbs : Int) = D := Int.natAbs_of_nonneg hD.le
  have hD0 : D ≠ 0 := ne_of_gt hD
  have hb : (bigBytes D).length ≠ 0 := bigBytes_length_pos hD0
  have hAlen : A.length ≠ 0 := by rw [hA]; decide
  rw [setOTA_eq obsa db D hA]
  refine ⟨_, rfl, ?_, ?_⟩
  · constructor
    · simp [get_set, bigSetBytes_bigBytes, habs]
    · simp only [get_set, and_true]
      by_cases hne : OTABalance2ContractAddr (some D) = obsa
      · simp [hne, hb]
      · simp [hne, hAlen]
  · intro k hk
    by_cases hka : k = axOf A
    · subst hka
      constructor
      · simp [get_set, bigSetBytes_bigBytes, habs]
      · simp only [get_set, and_true]
        by_cases hne : OTABalance2ContractAddr (some D) = obsa
        · simp [hne, hb]
        · simp [hne, hAlen]
    · obtain ⟨h1, h2⟩ := hk
      constructor
      · simpa [get_set, hka] using h1
      · simpa [get_set, hka] using h2

theorem foldl_setOTA_recorded (obsa : Address) (D : Int) (hD : 0 < D) (As : List Bytes)
    (hAs : ∀ A ∈ As, A.length = WAddressLength) (db : StateDB) :
    ∃ db1, As.foldl (fun s A => (setOTA obsa s (some D) A).1) (some db) = some db1 ∧
      (∀ A ∈ As, Recorded obsa D db1 (axOf A)) ∧
      ∀ k, Recorded obsa D db k → Recorded obsa D db1 k := by
  induction As generalizing db with
  | nil => exact ⟨db, rfl, by simp, fun _ h => h⟩
  | cons A rest ih =>
    obtain ⟨db1, h1, hrec, hkeep⟩ :=
      setOTA_recorded obsa db D A hD (hAs A (List.mem_cons_self _ _))
    obtain ⟨db2, h2, hrec2, hkeep2⟩ := ih (fun B hB => hAs B (List.mem_cons_of_mem _ hB)) db1
    refine ⟨db2, ?_, ?_, fun k hk => hkeep2 k (hkeep k hk)⟩
    · rw [List.foldl_cons, h1, h2]
    · intro B hB
      rcases List.mem_cons.mp hB with rfl | hB
      · exact hkeep2 _ hrec
      · exact hrec2 B hB

theorem batExistLoop_none (db : StateDB) (mptAddr : Address) (l : List Bytes)
    (hlen : ∀ x ∈ l, x.length = HashLength)
    (h : ∀ x ∈ l, (db.GetStateByteArray mptAddr x).length ≠ 0) :
    batExistLoop db mptAddr l = none := by
  induction l with
  | nil => rfl
  | cons x rest ih =>
    simp only [batExistLoop]
    rw [BytesToHash_of_length (hlen x (List.mem_cons_self _ _)),
      if_neg (h x (List.mem_cons_self _ _))]
    exact ih (fun y hy => hlen y (List.mem_cons_of_mem _ hy))
      (fun y hy => h y (List.mem_cons_of_mem _ hy))

theorem BatCheckOTAExit_recorded (obsa : Address) (db : StateDB) (D : Int) (hD : D ≠ 0)
    (l : List Bytes) (hne : l ≠ [])
    (hlen : ∀ x ∈ l, x.length = HashLength) (h : ∀ x ∈ l, Recorded obsa D db x) :
    BatCheckOTAExit obsa (some db) l = (true, some D, none, none) := by
  have hbal : ∀ x ∈ l, (GetOtaBalanceFromAX obsa (some db) x).1 = some D := by
    intro x hx
    rw [GetOtaBalanceFromAX_eq obsa db (hlen x hx), (h x hx).1]
  cases l with
  | nil => exact absurd rfl hne
  | cons first rest =>
    have hfirst := hbal first (List.mem_cons_self _ _)
    simp only [BatCheckOTAExit, List.length_cons, Nat.add_one_ne_zero, if_false]
    rw [batBalanceLoop_none obsa db first rest (hlen first (List.mem_cons_self _ _))
      (by rw [hfirst]; simpa using hD), hfirst,
      batBalanceLoop_some obsa db D rest (fun y hy => hlen y (List.mem_cons_of_mem _ hy))
        (fun y hy => by rw [hbal y (List.mem_cons_of_mem _ hy)]; simpa using hD)]
    have hnone : rest.find? (fun x => decide ((GetOtaBalanceFromAX obsa (some db) x).1 ≠
        some D)) = none := by
      rw [List.find?_eq_none]
      intro y hy
      simp [hbal y (List.mem_cons_of_mem _ hy)]
    simp only [batLoopSpec, hnone]
    rw [batExistLoop_none db _ (first :: rest) hlen (fun x hx => (h x hx).2)]

theorem OTAInSet_iff (l : List Bytes) (x : Bytes) : OTAInSet l x = true ↔ x ∈ l := by
  induction l with
  | nil => simp [OTAInSet]
  | cons y rest ih =>
    simp only [OTAInSet, List.mem_cons]
    by_cases h : y = x
    · simp [h]
    · have h' : ¬ x = y := fun e => h e.symm
      simp [h, h', ih]

theorem succ_mod_of_ne_zero (a m : Nat) (hm : 1 ≤ m) (h : (a + 1) % m ≠ 0) :
    (a + 1) % m = a % m + 1 := by
  have hr : a % m < m := Nat.mod_lt _ hm
  have ha : a = m * (a / m) + a % m := (Nat.div_add_mod a m).symm
  by_cases hlt : a % m + 1 < m
  · have : a + 1 = m * (a / m) + (a % m + 1) := by omega
    rw [this, Nat.mul_add_mod, Nat.mod_eq_of_lt hlt]
  · exfalso
    apply h
    have : a + 1 = m * (a / m + 1) := by
      rw [Nat.mul_add, Nat.mul_one]; omega
    rw [this, Nat.mul_mod_right]

theorem randomSel_cases (rand : Nat → Nat) (N : Int) (s : SamplerState) (v : Bytes) :
    ((s.loopTimes + 1) % s.rnd ≠ 0 ∧
      randomSel rand N s v = ({ s with loopTimes := s.loopTimes + 1 }, true)) ∨
    ((s.loopTimes + 1) % s.rnd = 0 ∧
      randomSel rand N s v =
        ({ otaWanAddrs := s.otaWanAddrs ++ [v], rnd := rand s.draws + 1, draws := s.draws + 1,
           i := s.i + 1, loopTimes := s.loopTimes + 1, mptEleCount := s.mptEleCount,
           err := s.err },
         decide ((((s.i + 1 : Nat)) : Int) < N))) := by
  by_cases h : (s.loopTimes + 1) % s.rnd = 0
  · right
    exact ⟨h, by simp [randomSel, h]⟩
  · left
    exact ⟨h, by simp [randomSel, h]⟩

theorem randomSel_progress (rand : Nat → Nat) (hrand : ∀ k, rand k < 100) (otaAX : Bytes)
    (values : List Bytes) (n : Nat) (s : SamplerState) (v : Bytes)
    (hs : Safe otaAX values s) (hi : s.i < n) (hv : v ∉ s.otaWanAddrs)
    (hself : isSelf otaAX v = false) (hmem : v ∈ values) :
    Safe otaAX values (randomSel rand (n : Int) s v).1 ∧
    (randomSel rand (n : Int) s v).1.mptEleCount = s.mptEleCount ∧
    (((randomSel rand (n : Int) s v).2 = true ∧ (randomSel rand (n : Int) s v).1.i < n ∧
        phi n (randomSel rand (n : Int) s v).1 < phi n s) ∨
     ((randomSel rand (n : Int) s v).2 = false ∧ (randomSel rand (n : Int) s v).1.i = n)) := by
  have hmod : s.loopTimes % s.rnd < s.rnd := Nat.mod_lt _ hs.rndPos
  rcases randomSel_cases rand n s v with ⟨hne, heq⟩ | ⟨hz, heq⟩
  · rw [heq]
    refine ⟨⟨hs.err, hs.len, hs.rndPos, hs.rndLe, hs.nodup, hs.mem⟩, rfl, Or.inl ⟨rfl, hi, ?_⟩⟩
    have := succ_mod_of_ne_zero s.loopTimes s.rnd hs.rndPos hne
    simp only [phi]
    omega
  · rw [heq]
    refine ⟨⟨hs.err, ?_, ?_, ?_, ?_, ?_⟩, rfl, ?_⟩
    · simp [hs.len]
    · simp
    · have := hrand s.draws
      show rand s.draws + 1 ≤ 100
      omega
    · show (s.otaWanAddrs ++ [v]).Nodup
      rw [List.nodup_append]
      refine ⟨hs.nodup, List.nodup_singleton v, ?_⟩
      intro a ha hb
      rw [List.mem_singleton] at hb
      subst hb
      exact hv ha
    · intro a ha
      change a ∈ s.otaWanAddrs ++ [v] at ha
      rcases List.mem_append.mp ha with ha | ha
      · exact hs.mem a ha
      · rw [List.mem_singleton] at ha
        subst ha
        exact ⟨hself, hmem⟩
    · by_cases hlt : s.i + 1 < n
      · left
        refine ⟨by simp only [decide_eq_true_eq]; exact_mod_cast hlt, hlt, ?_⟩
        have h1 := hrand s.draws
        have h2 : (s.loopTimes + 1) % (rand s.draws + 1) < rand s.draws + 1 :=
          Nat.mod_lt _ (Nat.succ_pos _)
        simp only [phi]
        omega
      · right
        refine ⟨by simp only [decide_eq_false_iff_not]; exact_mod_cast hlt, ?_⟩
        show s.i + 1 = n
        omega

theorem forEach_rem {σ : Type} (cb : σ → Hash → Bytes → σ × Bool)
    (P : List (Hash × Bytes) → σ → Prop) (S : σ → Prop)
    (hcont : ∀ k v rest s, P ((k, v) :: rest) s → (cb s k v).2 = true → P rest (cb s k v).1)
    (hstop : ∀ k v rest s, P ((k, v) :: rest) s → (cb s k v).2 = false → S (cb s k v).1)
    (l : List (Hash × Bytes)) (s : σ) (h : P l s) :
    P [] (ForEachStorageByteArray cb l s) ∨ S (ForEachStorageByteArray cb l s) := by
  induction l generalizing s with
  | nil => exact Or.inl h
  | cons e rest ih =>
    obtain ⟨k, v⟩ := e
    have hc := hcont k v rest s h
    have hs := hstop k v rest s h
    unfold ForEachStorageByteArray
    rcases hcb : cb s k v with ⟨s1, c⟩
    rw [hcb] at hc hs
    cases c with
    | true => exact ih s1 (hc rfl)
    | false => exact Or.inr (hs rfl)

theorem visit_later (rand : Nat → Nat) (otaAX : Bytes) (n : Nat) (balance : Int) (p : Nat)
    (s : SamplerState) (k : Hash) (v : Bytes) (hp : p ≠ 0) (hm : n < s.mptEleCount)
    (hv : v.length = WAddressLength) :
    visit rand otaAX (n : Int) balance p s k v =
      if OTAInSet s.otaWanAddrs v = true ∨ isSelf otaAX v = true then (s, true)
      else randomSel rand (n : Int) s v := by
  have hge : ¬ ((n : Int) ≥ (s.mptEleCount : Int)) := by
    have : (n : Int) < (s.mptEleCount : Int) := by exact_mod_cast hm
    omega
  unfold visit
  rw [if_neg (by simp [hv]), if_neg hp]
  by_cases h1 : p = 1
  · rw [if_pos h1, if_neg hge]
    by_cases hin : OTAInSet s.otaWanAddrs v = true
    · simp [hin]
    · by_cases hs : isSelf otaAX v = true
      · simp [hin, hs]
      · simp [hin, hs]
  · rw [if_neg h1, if_neg hge]
    by_cases hin : OTAInSet s.otaWanAddrs v = true
    · simp [hin]
    · by_cases hs : isSelf otaAX v = true
      · simp [hin, hs]
      · simp [hin, hs]

theorem pass_later (rand : Nat → Nat) (hrand : ∀ k, rand k < 100) (otaAX : Bytes)
    (values : List Bytes) (n : Nat) (balance : Int) (p : Nat) (hp : p ≠ 0)
    (l : List (Hash × Bytes)) (s0 : SamplerState)
    (hs0 : Safe otaAX values s0) (hi : s0.i < n) (hm : n < s0.mptEleCount)
    (hl : ∀ e ∈ l, e.2.length = WAddressLength ∧ e.2 ∈ values)
    (he : ∃ e ∈ l, e.2 ∉ s0.otaWanAddrs ∧ isSelf otaAX e.2 = false) :
    Safe otaAX values (ForEachStorageByteArray (visit rand otaAX (n : Int) balance p) l s0) ∧
    (ForEachStorageByteArray (visit rand otaAX (n : Int) balance p) l s0).mptEleCount =
      s0.mptEleCount ∧
    (((ForEachStorageByteArray (visit rand otaAX (n : Int) balance p) l s0).i < n ∧
      phi n (ForEachStorageByteArray (visit rand otaAX (n : Int) balance p) l s0) < phi n s0) ∨
     (ForEachStorageByteArray (visit rand otaAX (n : Int) balance p) l s0).i = n) := by
  have key := forEach_rem (visit rand otaAX (n : Int) balance p)
    (fun rest s => Safe otaAX values s ∧ s.mptEleCount = s0.mptEleCount ∧ s.i < n ∧
      (∀ e ∈ rest, e.2.length = WAddressLength ∧ e.2 ∈ values) ∧
      (phi n s < phi n s0 ∨
        (s = s0 ∧ ∃ e ∈ rest, e.2 ∉ s0.otaWanAddrs ∧ isSelf otaAX e.2 = false)))
    (fun s => Safe otaAX values s ∧ s.mptEleCount = s0.mptEleCount ∧ s.i = n)
    ?_ ?_ l s0 ⟨hs0, rfl, hi, hl, Or.inr ⟨rfl, he⟩⟩
  · rcases key with ⟨h1, h2, h3, _, h5⟩ | ⟨h1, h2, h3⟩
    · refine ⟨h1, h2, Or.inl ⟨h3, ?_⟩⟩
      rcases h5 with h5 | ⟨_, e, he, _⟩
      · exact h5
      · simp at he
    · exact ⟨h1, h2, Or.inr h3⟩
  · -- the callback asks to continue
    intro k v rest s ⟨hs, hcnt, hlt, hrest, hprog⟩ hc
    have hv := hrest (k, v) (List.mem_cons_self _ _)
    have hrest' : ∀ e ∈ rest, e.2.length = WAddressLength ∧ e.2 ∈ values :=
      fun e he => hrest e (List.mem_cons_of_mem _ he)
    rw [visit_later rand otaAX n balance p s k v hp (by rw [hcnt]; exact hm) hv.1] at hc ⊢
    by_cases hskip : OTAInSet s.otaWanAddrs v = true ∨ isSelf otaAX v = true
    · rw [if_pos hskip]
      refine ⟨hs, hcnt, hlt, hrest', ?_⟩
      rcases hprog with hprog | ⟨rfl, e, he, hne, hnself⟩
      · exact Or.inl hprog
      · refine Or.inr ⟨rfl, e, ?_, hne, hnself⟩
        rcases List.mem_cons.mp he with rfl | he
        · exfalso
          rcases hskip with hin | hself
          · exact hne ((OTAInSet_iff _ _).mp hin)
          · simp only at hnself hself
            rw [hnself] at hself
            exact Bool.false_ne_true hself
        · exact he
    · rw [if_neg hskip] at hc ⊢
      have hnin : v ∉ s.otaWanAddrs := fun h => hskip (Or.inl ((OTAInSet_iff _ _).mpr h))
      have hnself : isSelf otaAX v = false := by
        cases hb : isSelf otaAX v with
        | true => exact absurd (Or.inr hb) hskip
        | false => rfl
      obtain ⟨g1, g2, g3⟩ := randomSel_progress rand hrand otaAX values n s v hs hlt hnin
        hnself hv.2
      rcases g3 with ⟨_, g4, g5⟩ | ⟨g4, _⟩
      · refine ⟨g1, g2.trans hcnt, g4, hrest', Or.inl ?_⟩
        rcases hprog with hprog | ⟨rfl, _⟩
        · exact lt_trans g5 hprog
        · exact g5
      · rw [hc] at g4
        exact absurd g4 (by decide)
  · -- the callback asks to stop
    intro k v rest s ⟨hs, hcnt, hlt, hrest, _⟩ hc
    have hv := hrest (k, v) (List.mem_cons_self _ _)
    rw [visit_later rand otaAX n balance p s k v hp (by rw [hcnt]; exact hm) hv.1] at hc ⊢
    by_cases hskip : OTAInSet s.otaWanAddrs v = true ∨ isSelf otaAX v = true
    · rw [if_pos hskip] at hc
      exact absurd hc (by simp)
    · rw [if_neg hskip] at hc ⊢
      have hnin : v ∉ s.otaWanAddrs := fun h => hskip (Or.inl ((OTAInSet_iff _ _).mpr h))
      have hnself : isSelf otaAX v = false := by
        cases hb : isSelf otaAX v with
        | true => exact absurd (Or.inr hb) hskip
        | false => rfl
      obtain ⟨g1, g2, g3⟩ := randomSel_progress rand hrand otaAX values n s v hs hlt hnin
        hnself hv.2
      rcases g3 with ⟨g4, _, _⟩ | ⟨_, g5⟩
      · rw [hc] at g4
        exact absurd g4 (by decide)
      · exact ⟨g1, g2.trans hcnt, g5⟩

theorem randomSel_addrs (rand : Nat → Nat) (N : Int) (s : SamplerState) (v : Bytes) :
    (randomSel rand N s v).1.otaWanAddrs = s.otaWanAddrs ∨
    (randomSel rand N s v).1.otaWanAddrs = s.otaWanAddrs ++ [v] := by
  rcases randomSel_cases rand N s v with ⟨_, heq⟩ | ⟨_, heq⟩
  · left; rw [heq]
  · right; rw [heq]

theorem passLoop_later (rand : Nat → Nat) (hrand : ∀ k, rand k < 100) (otaAX : Bytes)
    (values : List Bytes) (n : Nat) (balance : Int) (ents : Nat → List (Hash × Bytes))
    (hents : ∀ q, ∀ e ∈ ents q, e.2.length = WAddressLength ∧ e.2 ∈ values)
    (helig : ∀ q s, Safe otaAX values s → s.i < n →
      ∃ e ∈ ents q, e.2 ∉ s.otaWanAddrs ∧ isSelf otaAX e.2 = false) :
    ∀ (fuel p : Nat) (s : SamplerState), p ≠ 0 → Safe otaAX values s → s.i < n →
      n < s.mptEleCount → phi n s < fuel →
      ∃ addrs, passLoop rand ents otaAX (n : Int) balance fuel p s =
          some (some addrs, some balance, none) ∧
        addrs.length = n ∧ addrs.Nodup ∧ ∀ a ∈ addrs, isSelf otaAX a = false ∧ a ∈ values := by
  intro fuel
  induction fuel with
  | zero => intro p s _ _ _ _ h; exact absurd h (Nat.not_lt_zero _)
  | succ fuel ih =>
    intro p s hp hs hi hm hphi
    obtain ⟨g1, g2, g3⟩ := pass_later rand hrand otaAX values n balance p hp (ents p) s hs hi hm
      (hents p) (helig p s hs hi)
    rw [passLoop]
    rw [if_neg (by simp [g1.err]), if_neg (by rw [g2]; omega)]
    rcases g3 with ⟨g4, g5⟩ | g4
    · rw [if_neg (by
        have : ((ForEachStorageByteArray (visit rand otaAX (n : Int) balance p) (ents p) s).i
          : Int) < (n : Int) := by exact_mod_cast g4
        omega)]
      exact ih (p + 1) _ (Nat.succ_ne_zero p) g1 g4 (by rw [g2]; exact hm) (by omega)
    · rw [if_pos (by rw [g4])]
      exact ⟨_, rfl, by rw [← g1.len, g4], g1.nodup, g1.mem⟩

theorem visit_zero (rand : Nat → Nat) (otaAX : Bytes) (N : Int) (balance : Int)
    (s : SamplerState) (k : Hash) (v : Bytes) (hv : v.length = WAddressLength) :
    visit rand otaAX N balance 0 s k v =
      if isSelf otaAX v = true then ({ s with mptEleCount := s.mptEleCount + 1 }, true)
      else randomSel rand N { s with mptEleCount := s.mptEleCount + 1 } v := by
  unfold visit
  rw [if_neg (by simp [hv])]
  simp

theorem pass_zero (rand : Nat → Nat) (hrand : ∀ k, rand k < 100) (otaAX : Bytes)
    (n : Nat) (hn : 1 ≤ n) (balance : Int) (l : List (Hash × Bytes))
    (hl : ∀ e ∈ l, e.2.length = WAddressLength) (hnd : (vals l).Nodup) :
    Safe otaAX (vals l)
      (ForEachStorageByteArray (visit rand otaAX (n : Int) balance 0) l (initialState rand)) ∧
    (((ForEachStorageByteArray (visit rand otaAX (n : Int) balance 0) l (initialState rand)).i < n ∧
      (ForEachStorageByteArray (visit rand otaAX (n : Int) balance 0) l
        (initialState rand)).mptEleCount = l.length) ∨
     ((ForEachStorageByteArray (visit rand otaAX (n : Int) balance 0) l (initialState rand)).i = n ∧
      1 ≤ (ForEachStorageByteArray (visit rand otaAX (n : Int) balance 0) l
        (initialState rand)).mptEleCount)) := by
  have hinit : Safe otaAX (vals l) (initialState rand) := by
    refine ⟨rfl, rfl, ?_, ?_, List.nodup_nil, ?_⟩
    · show 1 ≤ rand 0 + 1
      omega
    · have := hrand 0
      show rand 0 + 1 ≤ 100
      omega
    · intro a ha
      simp [initialState] at ha
  have key := forEach_rem (visit rand otaAX (n : Int) balance 0)
    (fun rest s => Safe otaAX (vals l) s ∧ s.i < n ∧ s.mptEleCount + rest.length = l.length ∧
      (vals rest).Nodup ∧ (∀ e ∈ rest, e.2.length = WAddressLength ∧ e.2 ∈ vals l) ∧
      (∀ a ∈ s.otaWanAddrs, a ∉ vals rest))
    (fun s => Safe otaAX (vals l) s ∧ s.i = n ∧ 1 ≤ s.mptEleCount)
    ?_ ?_ l (initialState rand)
    ⟨hinit, hn, by simp [initialState], hnd,
      fun e he => ⟨hl e he, List.mem_map_of_mem _ he⟩, by simp [initialState]⟩
  · rcases key with ⟨h1, h2, h3, _⟩ | ⟨h1, h2, h3⟩
    · exact ⟨h1, Or.inl ⟨h2, by simpa using h3⟩⟩
    · exact ⟨h1, Or.inr ⟨h2, h3⟩⟩
  · intro k v rest s ⟨hs, hlt, hcnt, hnodup, hrest, hdisj⟩ hc
    have hv := hrest (k, v) (List.mem_cons_self _ _)
    have hrest' : ∀ e ∈ rest, e.2.length = WAddressLength ∧ e.2 ∈ vals l :=
      fun e he => hrest e (List.mem_cons_of_mem _ he)
    have hnodup' : (vals rest).Nodup := (List.nodup_cons.mp hnodup).2
    have hvrest : v ∉ vals rest := (List.nodup_cons.mp hnodup).1
    have hs1 : Safe otaAX (vals l) { s with mptEleCount := s.mptEleCount + 1 } :=
      ⟨hs.err, hs.len, hs.rndPos, hs.rndLe, hs.nodup, hs.mem⟩
    have hdisj' : ∀ a ∈ s.otaWanAddrs, a ∉ vals rest := by
      intro a ha hmem
      exact hdisj a ha (List.mem_cons_of_mem _ hmem)
    rw [visit_zero rand otaAX n balance s k v hv.1] at hc ⊢
    by_cases hself : isSelf otaAX v = true
    · rw [if_pos hself]
      refine ⟨hs1, hlt, ?_, hnodup', hrest', hdisj'⟩
      simp only [List.length_cons] at hcnt
      show s.mptEleCount + 1 + rest.length = l.length
      omega
    · rw [if_neg hself] at hc ⊢
      have hnself : isSelf otaAX v = false := by
        cases hb : isSelf otaAX v with
        | true => exact absurd hb hself
        | false => rfl
      have hnin : v ∉ s.otaWanAddrs := fun h => hdisj v h (List.mem_cons_self _ _)
      obtain ⟨g1, g2, g3⟩ := randomSel_progress rand hrand otaAX (vals l) n
        { s with mptEleCount := s.mptEleCount + 1 } v hs1 hlt hnin hnself hv.2
      rcases g3 with ⟨_, g4, _⟩ | ⟨g4, _⟩
      · refine ⟨g1, g4, ?_, hnodup', hrest', ?_⟩
        · rw [g2]
          simp only [List.length_cons] at hcnt
          show s.mptEleCount + 1 + rest.length = l.length
          omega
        · intro a ha
          rcases randomSel_addrs rand n { s with mptEleCount := s.mptEleCount + 1 } v
            with h | h
          · rw [h] at ha
            exact hdisj' a ha
          · rw [h] at ha
            rcases List.mem_append.mp ha with ha | ha
            · exact hdisj' a ha
            · rw [List.mem_singleton] at ha
              subst ha
              exact hvrest
      · rw [hc] at g4
        exact absurd g4 (by decide)
  · intro k v rest s ⟨hs, hlt, _, _, hrest, hdisj⟩ hc
    have hv := hrest (k, v) (List.mem_cons_self _ _)
    have hs1 : Safe otaAX (vals l) { s with mptEleCount := s.mptEleCount + 1 } :=
      ⟨hs.err, hs.len, hs.rndPos, hs.rndLe, hs.nodup, hs.mem⟩
    rw [visit_zero rand otaAX n balance s k v hv.1] at hc ⊢
    by_cases hself : isSelf otaAX v = true
    · rw [if_pos hself] at hc
      exact absurd hc (by simp)
    · rw [if_neg hself] at hc ⊢
      have hnself : isSelf otaAX v = false := by
        cases hb : isSelf otaAX v with
        | true => exact absurd hb hself
        | false => rfl
      have hnin : v ∉ s.otaWanAddrs := fun h => hdisj v h (List.mem_cons_self _ _)
      obtain ⟨g1, g2, g3⟩ := randomSel_progress rand hrand otaAX (vals l) n
        { s with mptEleCount := s.mptEleCount + 1 } v hs1 hlt hnin hnself hv.2
      rcases g3 with ⟨g4, _, _⟩ | ⟨_, g5⟩
      · rw [hc] at g4
        exact absurd g4 (by decide)
      · refine ⟨g1, g5, ?_⟩
        rw [g2]
        show 1 ≤ s.mptEleCount + 1
        omega

theorem keys_eq_map_vals (l : List (Hash × Bytes))
    (h : ∀ e ∈ l, e.1 = (GetAXFromWanAddr e.2).1) :
    l.map Prod.fst = (vals l).map (fun v => (GetAXFromWanAddr v).1) := by
  unfold vals
  rw [List.map_map]
  exact List.map_congr_left (fun e he => h e he)

theorem vals_nodup (l : List (Hash × Bytes))
    (h : ∀ e ∈ l, e.1 = (GetAXFromWanAddr e.2).1) (hnd : (l.map Prod.fst).Nodup) :
    (vals l).Nodup := by
  rw [keys_eq_map_vals l h] at hnd
  exact List.Nodup.of_map _ hnd

theorem self_le_one (otaAX : Bytes) (l : List (Hash × Bytes))
    (h : ∀ e ∈ l, e.1 = (GetAXFromWanAddr e.2).1) (hnd : (l.map Prod.fst).Nodup) :
    ((vals l).filter (fun v => isSelf otaAX v)).length ≤ 1 := by
  rw [keys_eq_map_vals l h] at hnd
  have hsub : List.Sublist
      (((vals l).filter (fun v => isSelf otaAX v)).map (fun v => (GetAXFromWanAddr v).1))
      ((vals l).map (fun v => (GetAXFromWanAddr v).1)) :=
    List.Sublist.map _ (List.filter_sublist _)
  have hnd2 := List.Nodup.sublist hsub hnd
  have hrep : ((vals l).filter (fun v => isSelf otaAX v)).map (fun v => (GetAXFromWanAddr v).1)
      = List.replicate ((vals l).filter (fun v => isSelf otaAX v)).length otaAX := by
    rw [List.eq_replicate_iff]
    refine ⟨by simp, ?_⟩
    intro b hb
    obtain ⟨v, hv, rfl⟩ := List.mem_map.mp hb
    have := (List.mem_filter.mp hv).2
    simpa [isSelf] using this
  rw [hrep, List.nodup_replicate] at hnd2
  exact hnd2

theorem nonself_length (otaAX : Bytes) (l : List (Hash × Bytes))
    (h : ∀ e ∈ l, e.1 = (GetAXFromWanAddr e.2).1) (hnd : (l.map Prod.fst).Nodup) :
    l.length ≤ ((vals l).filter (fun v => !isSelf otaAX v)).length + 1 := by
  have h1 := self_le_one otaAX l h hnd
  have h2 := List.length_eq_length_filter_add (l := vals l) (fun v => isSelf otaAX v)
  have h3 : (vals l).length = l.length := by simp [vals]
  omega

theorem exists_eligible (otaAX : Bytes) (values : List Bytes) (hnd : values.Nodup) (n : Nat)
    (hn : n ≤ (values.filter (fun v => !isSelf otaAX v)).length)
    (s : SamplerState) (hs : Safe otaAX values s) (hi : s.i < n) :
    ∃ v ∈ values, v ∉ s.otaWanAddrs ∧ isSelf otaAX v = false := by
  by_contra hcon
  push_neg at hcon
  have hsub : values.filter (fun v => !isSelf otaAX v) ⊆ s.otaWanAddrs := by
    intro v hv
    obtain ⟨hv1, hv2⟩ := List.mem_filter.mp hv
    by_contra hnin
    have := hcon v hv1 hnin
    simp [this] at hv2
  have hle := (List.subperm_of_subset (hnd.filter _) hsub).length_le
  have := hs.len
  omega

theorem GetOtaBalanceFromAX_length (obsa : Address) (db : StateDB) (otaAX : Bytes)
    (b : Option Int) (h : GetOtaBalanceFromAX obsa (some db) otaAX = (b, none)) :
    otaAX.length = HashLength := by
  by_contra hne
  simp [GetOtaBalanceFromAX, hne] at h

theorem GetOTASet_eq_passLoop (fuel : Nat) (obsa : Address) (rand : Nat → Nat)
    (entries : Address → Nat → List (Hash × Bytes)) (db : StateDB) (otaAX : Bytes)
    (setNum : Int) (D : Int)
    (hbal : GetOtaBalanceFromAX obsa (some db) otaAX = (some D, none)) (hD : D ≠ 0) :
    GetOTASet fuel obsa rand entries (some db) otaAX setNum =
      passLoop rand (entries (OTABalance2ContractAddr (some D))) otaAX setNum D fuel 0
        (initialState rand) := by
  have hax := GetOtaBalanceFromAX_length obsa db otaAX _ hbal
  simp [GetOTASet, hax, hbal, hD]

theorem passLoop_succeeds (rand : Nat → Nat) (hrand : ∀ k, rand k < 100) (otaAX : Bytes)
    (n : Nat) (balance : Int) (ents : Nat → List (Hash × Bytes))
    (hwidth : ∀ e ∈ ents 0, e.2.length = WAddressLength)
    (hown : ∀ e ∈ ents 0, e.1 = (GetAXFromWanAddr e.2).1)
    (hkeys : ((ents 0).map Prod.fst).Nodup)
    (hperm : ∀ p, (ents p).Perm (ents 0))
    (hn1 : 1 ≤ n) (hnM : n < (ents 0).length) (fuel : Nat) (hfuel : 100 * n + 2 ≤ fuel) :
    ∃ addrs, passLoop rand ents otaAX (n : Int) balance fuel 0 (initialState rand) =
        some (some addrs, some balance, none) ∧
      addrs.length = n ∧ addrs.Nodup ∧
      ∀ a ∈ addrs, isSelf otaAX a = false ∧ a ∈ vals (ents 0) := by
  obtain ⟨f, rfl⟩ : ∃ f, fuel = f + 1 := ⟨fuel - 1, by omega⟩
  have hnd := vals_nodup (ents 0) hown hkeys
  obtain ⟨g1, g2⟩ := pass_zero rand hrand otaAX n hn1 balance (ents 0) hwidth hnd
  rw [passLoop]
  rw [if_neg (by simp [g1.err])]
  rcases g2 with ⟨g3, g4⟩ | ⟨g3, g4⟩
  · rw [if_neg (by rw [g4]; omega), if_neg (by
      have : ((ForEachStorageByteArray (visit rand otaAX (n : Int) balance 0) (ents 0)
        (initialState rand)).i : Int) < (n : Int) := by exact_mod_cast g3
      omega)]
    have hents : ∀ q, ∀ e ∈ ents q, e.2.length = WAddressLength ∧ e.2 ∈ vals (ents 0) := by
      intro q e he
      have he0 : e ∈ ents 0 := (hperm q).mem_iff.mp he
      exact ⟨hwidth e he0, List.mem_map_of_mem _ he0⟩
    have hcount : n ≤ ((vals (ents 0)).filter (fun v => !isSelf otaAX v)).length := by
      have := nonself_length otaAX (ents 0) hown hkeys
      omega
    have helig : ∀ q s, Safe otaAX (vals (ents 0)) s → s.i < n →
        ∃ e ∈ ents q, e.2 ∉ s.otaWanAddrs ∧ isSelf otaAX e.2 = false := by
      intro q s hs hi
      obtain ⟨v, hv, hv1, hv2⟩ := exists_eligible otaAX (vals (ents 0)) hnd n hcount s hs hi
      obtain ⟨e, he, rfl⟩ := List.mem_map.mp hv
      exact ⟨e, (hperm q).mem_iff.mpr he, hv1, hv2⟩
    refine passLoop_later rand hrand otaAX (vals (ents 0)) n balance ents hents helig f 1 _
      (by decide) g1 g3 (by rw [g4]; exact hnM) ?_
    have := g1.rndLe
    simp only [phi]
    have h1 : 100 * (n - (ForEachStorageByteArray (visit rand otaAX (n : Int) balance 0) (ents 0)
        (initialState rand)).i - 1) ≤ 100 * (n - 1) := by
      apply Nat.mul_le_mul_left
      omega
    omega
  · rw [if_neg (by omega), if_pos (by rw [g3])]
    exact ⟨_, rfl, by rw [← g1.len, g3], g1.nodup, g1.mem⟩

theorem passLoop_mono (rand : Nat → Nat) (ents : Nat → List (Hash × Bytes)) (otaAX : Bytes)
    (setNum : Int) (balance : Int) (r : SetResult) :
    ∀ (fuel extra p : Nat) (s : SamplerState),
      passLoop rand ents otaAX setNum balance fuel p s = some r →
      passLoop rand ents otaAX setNum balance (fuel + extra) p s = some r := by
  intro fuel
  induction fuel with
  | zero => intro extra p s h; simp [passLoop] at h
  | succ fuel ih =>
    intro extra p s h
    rw [show fuel + 1 + extra = (fuel + extra) + 1 by omega]
    rw [passLoop] at h ⊢
    split
    · rw [if_pos (by assumption)] at h; exact h
    · rw [if_neg (by assumption)] at h
      split
      · rw [if_pos (by assumption)] at h; exact h
      · rw [if_neg (by assumption)] at h
        split
        · rw [if_pos (by assumption)] at h; exact h
        · rw [if_neg (by assumption)] at h
          exact ih extra _ _ h

theorem forEach_inv {σ : Type} (cb : σ → Hash → Bytes → σ × Bool) (P : σ → Prop)
    (l : List (Hash × Bytes)) (hstep : ∀ s k v, (k, v) ∈ l → P s → P (cb s k v).1)
    (s : σ) (h : P s) : P (ForEachStorageByteArray cb l s) := by
  induction l generalizing s with
  | nil => exact h
  | cons e rest ih =>
    obtain ⟨k, v⟩ := e
    have h1 := hstep s k v (List.mem_cons_self _ _) h
    unfold ForEachStorageByteArray
    rcases hcb : cb s k v with ⟨s1, c⟩
    rw [hcb] at h1
    cases c with
    | true => exact ih (fun s k v hm hp => hstep s k v (List.mem_cons_of_mem _ hm) hp) s1 h1
    | false => exact h1

theorem visit_addrs (rand : Nat → Nat) (otaAX : Bytes) (N : Int) (balance : Int) (p : Nat)
    (s : SamplerState) (k : Hash) (v : Bytes) :
    (visit rand otaAX N balance p s k v).1.otaWanAddrs = s.otaWanAddrs ∨
    (v.length = WAddressLength ∧
      (visit rand otaAX N balance p s k v).1.otaWanAddrs = s.otaWanAddrs ++ [v]) := by
  unfold visit
  by_cases hv : v.length = WAddressLength
  · rw [if_neg (by simp [hv])]
    have hr := fun s' => randomSel_addrs rand N s' v
    split
    · simp only
      split
      · left; rfl
      · rcases hr { s with mptEleCount := s.mptEleCount + 1 } with h | h
        · left; exact h
        · right; exact ⟨hv, h⟩
    · split
      · split
        · split
          · right; exact ⟨hv, rfl⟩
          · left; rfl
        · split
          · split
            · left; rfl
            · rcases hr s with h | h
              · left; exact h
              · right; exact ⟨hv, h⟩
          · left; rfl
      · split
        · rcases hr s with h | h
          · left; exact h
          · right; exact ⟨hv, h⟩
        · split
          · split
            · left; rfl
            · rcases hr s with h | h
              · left; exact h
              · right; exact ⟨hv, h⟩
          · left; rfl
  · rw [if_pos (by simp [hv])]
    left; rfl

theorem passLoop_members (rand : Nat → Nat) (ents : Nat → List (Hash × Bytes)) (otaAX : Bytes)
    (setNum : Int) (balance : Int) (addrs : List Bytes) (b : Option Int) :
    ∀ (fuel p : Nat) (s : SamplerState),
      (∀ a ∈ s.otaWanAddrs, a.length = WAddressLength ∧ ∃ q k, (k, a) ∈ ents q) →
      passLoop rand ents otaAX setNum balance fuel p s = some (some addrs, b, none) →
      b = some balance ∧ ∀ a ∈ addrs, a.length = WAddressLength ∧ ∃ q k, (k, a) ∈ ents q := by
  intro fuel
  induction fuel with
  | zero => intro p s _ h; simp [passLoop] at h
  | succ fuel ih =>
    intro p s hs h
    have hinv := forEach_inv (visit rand otaAX setNum balance p)
      (fun s => ∀ a ∈ s.otaWanAddrs, a.length = WAddressLength ∧ ∃ q k, (k, a) ∈ ents q)
      (ents p) (by
        intro s k v hmem hP a ha
        rcases visit_addrs rand otaAX setNum balance p s k v with h | ⟨hv, h⟩
        · rw [h] at ha; exact hP a ha
        · rw [h] at ha
          rcases List.mem_append.mp ha with ha | ha
          · exact hP a ha
          · rw [List.mem_singleton] at ha
            subst ha
            exact ⟨hv, p, k, hmem⟩) s hs
    rw [passLoop] at h
    split at h
    · simp at h
    · split at h
      · simp at h
      · split at h
        · simp only [Option.some.injEq, Prod.mk.injEq, and_true] at h
          obtain ⟨h1, h2⟩ := h
          subst h1
          exact ⟨h2.symm, hinv⟩
        · exact ih _ _ hinv h

theorem isSelf_eq_false_iff (otaAX v : Bytes) :
    isSelf otaAX v = false ↔ (GetAXFromWanAddr v).1 ≠ otaAX := by
  simp [isSelf]

theorem GetOTASet_succeeds (obsa : Address) (rand : Nat → Nat)
    (entries : Address → Nat → List (Hash × Bytes)) (db : StateDB) (otaAX : Bytes) (D : Int)
    (n : Nat) (fuel : Nat) (hrand : ∀ k, rand k < 100)
    (hbal : GetOtaBalanceFromAX obsa (some db) otaAX = (some D, none)) (hD : D ≠ 0)
    (hwf : WellFormedBucket db (OTABalance2ContractAddr (some D))
      (entries (OTABalance2ContractAddr (some D))))
    (hn1 : 1 ≤ n) (hnM : n < (entries (OTABalance2ContractAddr (some D)) 0).length)
    (hfuel : 100 * n + 2 ≤ fuel) :
    ∃ addrs, GetOTASet fuel obsa rand entries (some db) otaAX (n : Int) =
        some (some addrs, some D, none) ∧
      addrs.length = n ∧ addrs.Nodup ∧
      ∀ a ∈ addrs, isSelf otaAX a = false ∧
        a ∈ vals (entries (OTABalance2ContractAddr (some D)) 0) := by
  rw [GetOTASet_eq_passLoop fuel obsa rand entries db otaAX n D hbal hD]
  exact passLoop_succeeds rand hrand otaAX n D _ hwf.width hwf.ownKey hwf.nodupKeys hwf.perm
    hn1 hnM fuel hfuel

theorem GetOTASet_mono (fuel extra : Nat) (obsa : Address) (rand : Nat → Nat)
    (entries : Address → Nat → List (Hash × Bytes)) (statedb : Option StateDB) (otaAX : Bytes)
    (setNum : Int) (r : SetResult)
    (h : GetOTASet fuel obsa rand entries statedb otaAX setNum = some r) :
    GetOTASet (fuel + extra) obsa rand entries statedb otaAX setNum = some r := by
  cases statedb with
  | none => simpa [GetOTASet] using h
  | some db =>
    by_cases hax : otaAX.length = HashLength
    · have hbal := GetOtaBalanceFromAX_eq obsa db hax
      by_cases hD : bigSetBytes (db.GetStateByteArray obsa otaAX) = 0
      · simpa [GetOTASet, hax, hbal, hD] using h
      · rw [GetOTASet_eq_passLoop _ obsa rand entries db otaAX setNum _ hbal hD] at h ⊢
        exact passLoop_mono rand _ otaAX setNum _ r fuel extra 0 _ h
    · simpa [GetOTASet, hax] using h

theorem Safe.base {otaAX : Bytes} {values : List Bytes} {s : SamplerState}
    (h : Safe otaAX values s) : Base s := ⟨h.err, h.rndPos, h.rndLe⟩

theorem randomSel_base (rand : Nat → Nat) (hrand : ∀ k, rand k < 100) (n : Nat)
    (s : SamplerState) (v : Bytes) (hs : Base s) (hi : s.i < n) :
    Base (randomSel rand (n : Int) s v).1 ∧
    (randomSel rand (n : Int) s v).1.mptEleCount = s.mptEleCount ∧
    (((randomSel rand (n : Int) s v).2 = true ∧ (randomSel rand (n : Int) s v).1.i < n ∧
        phi n (randomSel rand (n : Int) s v).1 < phi n s) ∨
     ((randomSel rand (n : Int) s v).2 = false ∧ (randomSel rand (n : Int) s v).1.i = n)) := by
  obtain ⟨herr, h1, h100⟩ := hs
  have hmod : s.loopTimes % s.rnd < s.rnd := Nat.mod_lt _ h1
  rcases randomSel_cases rand n s v with ⟨hne, heq⟩ | ⟨hz, heq⟩
  · rw [heq]
    refine ⟨⟨herr, h1, h100⟩, rfl, Or.inl ⟨rfl, hi, ?_⟩⟩
    have := succ_mod_of_ne_zero s.loopTimes s.rnd h1 hne
    simp only [phi]
    omega
  · rw [heq]
    have hr := hrand s.draws
    refine ⟨⟨herr, ?_, ?_⟩, rfl, ?_⟩
    · show 1 ≤ rand s.draws + 1
      omega
    · show rand s.draws + 1 ≤ 100
      omega
    · by_cases hlt : s.i + 1 < n
      · left
        refine ⟨by simp only [decide_eq_true_eq]; exact_mod_cast hlt, hlt, ?_⟩
        have h2 : (s.loopTimes + 1) % (rand s.draws + 1) < rand s.draws + 1 :=
          Nat.mod_lt _ (Nat.succ_pos _)
        simp only [phi]
        omega
      · right
        refine ⟨by simp only [decide_eq_false_iff_not]; exact_mod_cast hlt, ?_⟩
        show s.i + 1 = n
        omega

theorem visit_one_small (rand : Nat → Nat) (otaAX : Bytes) (n : Nat) (balance : Int)
    (s : SamplerState) (k : Hash) (v : Bytes) (hm : s.mptEleCount ≤ n)
    (hv : v.length = WAddressLength) :
    visit rand otaAX (n : Int) balance 1 s k v =
      if OTAInSet s.otaWanAddrs v = true then (s, true)
      else ({ s with otaWanAddrs := s.otaWanAddrs ++ [v], i := s.i + 1 },
        decide (((s.i + 1 : Nat) : Int) < (n : Int))) := by
  have hge : (n : Int) ≥ (s.mptEleCount : Int) := by exact_mod_cast hm
  unfold visit
  rw [if_neg (by simp [hv]), if_neg (by decide), if_pos rfl, if_pos hge]
  by_cases hin : OTAInSet s.otaWanAddrs v = true
  · simp [hin]
  · simp [hin]

theorem visit_later_small (rand : Nat → Nat) (otaAX : Bytes) (n : Nat) (balance : Int)
    (p : Nat) (s : SamplerState) (k : Hash) (v : Bytes) (hp : 2 ≤ p)
    (hm : s.mptEleCount ≤ n) (hv : v.length = WAddressLength) :
    visit rand otaAX (n : Int) balance p s k v = randomSel rand (n : Int) s v := by
  have hge : (n : Int) ≥ (s.mptEleCount : Int) := by exact_mod_cast hm
  unfold visit
  rw [if_neg (by simp [hv]), if_neg (by omega), if_neg (by omega), if_pos hge]

theorem pass_one_small (rand : Nat → Nat) (otaAX : Bytes) (n : Nat) (balance : Int)
    (l : List (Hash × Bytes)) (s0 : SamplerState) (hs0 : Base s0) (hm : s0.mptEleCount ≤ n)
    (hl : ∀ e ∈ l, e.2.length = WAddressLength) :
    Base (ForEachStorageByteArray (visit rand otaAX (n : Int) balance 1) l s0) ∧
    (ForEachStorageByteArray (visit rand otaAX (n : Int) balance 1) l s0).mptEleCount =
      s0.mptEleCount := by
  refine forEach_inv (visit rand otaAX (n : Int) balance 1)
    (fun s => Base s ∧ s.mptEleCount = s0.mptEleCount) l ?_ s0 ⟨hs0, rfl⟩
  intro s k v hmem ⟨hs, hcnt⟩
  rw [visit_one_small rand otaAX n balance s k v (by rw [hcnt]; exact hm) (hl (k, v) hmem)]
  by_cases hin : OTAInSet s.otaWanAddrs v = true
  · rw [if_pos hin]
    exact ⟨hs, hcnt⟩
  · rw [if_neg hin]
    exact ⟨hs, hcnt⟩

theorem pass_later_small (rand : Nat → Nat) (hrand : ∀ k, rand k < 100) (otaAX : Bytes)
    (n : Nat) (balance : Int) (p : Nat) (hp : 2 ≤ p) (l : List (Hash × Bytes))
    (s0 : SamplerState) (hs0 : Base s0) (hi : s0.i < n) (hm : s0.mptEleCount ≤ n)
    (hl : ∀ e ∈ l, e.2.length = WAddressLength) (hne : l ≠ []) :
    Base (ForEachStorageByteArray (visit rand otaAX (n : Int) balance p) l s0) ∧
    (ForEachStorageByteArray (visit rand otaAX (n : Int) balance p) l s0).mptEleCount =
      s0.mptEleCount ∧
    (((ForEachStorageByteArray (visit rand otaAX (n : Int) balance p) l s0).i < n ∧
      phi n (ForEachStorageByteArray (visit rand otaAX (n : Int) balance p) l s0) < phi n s0) ∨
     (ForEachStorageByteArray (visit rand otaAX (n : Int) balance p) l s0).i = n) := by
  have key := forEach_rem (visit rand otaAX (n : Int) balance p)
    (fun rest s => Base s ∧ s.mptEleCount = s0.mptEleCount ∧ s.i < n ∧
      (∀ e ∈ rest, e.2.length = WAddressLength) ∧ (phi n s < phi n s0 ∨ (s = s0 ∧ rest ≠ [])))
    (fun s => Base s ∧ s.mptEleCount = s0.mptEleCount ∧ s.i = n)
    ?_ ?_ l s0 ⟨hs0, rfl, hi, hl, Or.inr ⟨rfl, hne⟩⟩
  · rcases key with ⟨h1, h2, h3, _, h5⟩ | ⟨h1, h2, h3⟩
    · refine ⟨h1, h2, Or.inl ⟨h3, ?_⟩⟩
      rcases h5 with h5 | ⟨_, h6⟩
      · exact h5
      · exact absurd rfl h6
    · exact ⟨h1, h2, Or.inr h3⟩
  · intro k v rest s ⟨hs, hcnt, hlt, hrest, hprog⟩ hc
    have hv := hrest (k, v) (List.mem_cons_self _ _)
    rw [visit_later_small rand otaAX n balance p s k v hp (by rw [hcnt]; exact hm) hv] at hc ⊢
    obtain ⟨g1, g2, g3⟩ := randomSel_base rand hrand n s v hs hlt
    rcases g3 with ⟨_, g4, g5⟩ | ⟨g4, _⟩
    · refine ⟨g1, g2.trans hcnt, g4, fun e he => hrest e (List.mem_cons_of_mem _ he),
        Or.inl ?_⟩
      rcases hprog with hprog | ⟨rfl, _⟩
      · exact lt_trans g5 hprog
      · exact g5
    · rw [hc] at g4
      exact absurd g4 (by decide)
  · intro k v rest s ⟨hs, hcnt, hlt, hrest, _⟩ hc
    have hv := hrest (k, v) (List.mem_cons_self _ _)
    rw [visit_later_small rand otaAX n balance p s k v hp (by rw [hcnt]; exact hm) hv] at hc ⊢
    obtain ⟨g1, g2, g3⟩ := randomSel_base rand hrand n s v hs hlt
    rcases g3 with ⟨g4, _, _⟩ | ⟨_, g5⟩
    · rw [hc] at g4
      exact absurd g4 (by decide)
    · exact ⟨g1, g2.trans hcnt, g5⟩

theorem passLoop_later_small (rand : Nat → Nat) (hrand : ∀ k, rand k < 100) (otaAX : Bytes)
    (n : Nat) (balance : Int) (ents : Nat → List (Hash × Bytes))
    (hents : ∀ q, ∀ e ∈ ents q, e.2.length = WAddressLength) (hne : ∀ q, ents q ≠ []) :
    ∀ (fuel p : Nat) (s : SamplerState), 2 ≤ p → Base s → s.i < n → s.mptEleCount ≤ n →
      phi n s < fuel →
      ∃ r, passLoop rand ents otaAX (n : Int) balance fuel p s = some r := by
  intro fuel
  induction fuel with
  | zero => intro p s _ _ _ _ h; exact absurd h (Nat.not_lt_zero _)
  | succ fuel ih =>
    intro p s hp hs hi hm hphi
    obtain ⟨g1, g2, g3⟩ := pass_later_small rand hrand otaAX n balance p hp (ents p) s hs hi hm
      (hents p) (hne p)
    rw [passLoop]
    split
    · exact ⟨_, rfl⟩
    · split
      · exact ⟨_, rfl⟩
      · split
        · exact ⟨_, rfl⟩
        · next hlt =>
          rcases g3 with ⟨g4, g5⟩ | g4
          · exact ih (p + 1) _ (by omega) g1 g4 (by rw [g2]; exact hm) (by omega)
          · exact absurd (by rw [g4]) hlt

theorem phi_le (n : Nat) (s : SamplerState) (hn : 1 ≤ n) (hs : Base s) : phi n s ≤ 100 * n := by
  obtain ⟨_, _, h100⟩ := hs
  have h1 : 100 * (n - s.i - 1) ≤ 100 * (n - 1) := Nat.mul_le_mul_left _ (by omega)
  simp only [phi]
  omega

theorem passLoop_returns (rand : Nat → Nat) (hrand : ∀ k, rand k < 100) (otaAX : Bytes)
    (setNum : Int) (balance : Int) (ents : Nat → List (Hash × Bytes))
    (hwidth : ∀ e ∈ ents 0, e.2.length = WAddressLength)
    (hown : ∀ e ∈ ents 0, e.1 = (GetAXFromWanAddr e.2).1)
    (hkeys : ((ents 0).map Prod.fst).Nodup)
    (hperm : ∀ p, (ents p).Perm (ents 0))
    (fuel : Nat) (hfuel : 100 * setNum.toNat + 3 ≤ fuel) :
    ∃ r, passLoop rand ents otaAX setNum balance fuel 0 (initialState rand) = some r := by
  obtain ⟨f, rfl⟩ : ∃ f, fuel = f + 1 := ⟨fuel - 1, by omega⟩
  by_cases hN : setNum ≤ 0
  · -- nothing is asked for: the first pass ends the loop
    rw [passLoop]
    split
    · exact ⟨_, rfl⟩
    · split
      · exact ⟨_, rfl⟩
      · split
        · exact ⟨_, rfl⟩
        · next hlt => exact absurd (by omega) hlt
  · have hcast : ((setNum.toNat : Nat) : Int) = setNum := Int.toNat_of_nonneg (by omega)
    have hn1 : 1 ≤ setNum.toNat := by omega
    by_cases hM : setNum.toNat < (ents 0).length
    · obtain ⟨addrs, h, _⟩ := passLoop_succeeds rand hrand otaAX setNum.toNat balance ents
        hwidth hown hkeys hperm hn1 hM (f + 1) (by omega)
      rw [hcast] at h
      exact ⟨_, h⟩
    · -- the bucket is not larger than the request
      rw [← hcast]
      have hnd := vals_nodup (ents 0) hown hkeys
      obtain ⟨g1, g2⟩ := pass_zero rand hrand otaAX setNum.toNat hn1 balance (ents 0) hwidth hnd
      obtain ⟨f1, rfl⟩ : ∃ f1, f = f1 + 1 := ⟨f - 1, by omega⟩
      have hents : ∀ q, ∀ e ∈ ents q, e.2.length = WAddressLength :=
        fun q e he => hwidth e ((hperm q).mem_iff.mp he)
      rw [passLoop]
      split
      · exact ⟨_, rfl⟩
      · split
        · exact ⟨_, rfl⟩
        · split
          · exact ⟨_, rfl⟩
          · next hz hlt =>
            have hi0 : (ForEachStorageByteArray (visit rand otaAX (setNum.toNat : Int) balance 0)
                (ents 0) (initialState rand)).i < setNum.toNat := by omega
            have hcnt : (ForEachStorageByteArray
                (visit rand otaAX (setNum.toNat : Int) balance 0) (ents 0)
                (initialState rand)).mptEleCount = (ents 0).length := by
              rcases g2 with ⟨_, g4⟩ | ⟨g3, _⟩
              · exact g4
              · omega
            have hpos : (ents 0) ≠ [] := by
              intro h0
              have hlen0 : (ents 0).length = 0 := by rw [h0]; rfl
              exact hz (hcnt.trans hlen0)
            have hne : ∀ q, ents q ≠ [] := by
              intro q h0
              have := (hperm q).length_eq
              rw [h0] at this
              exact hpos (List.eq_nil_of_length_eq_zero this.symm)
            obtain ⟨k1, k2⟩ := pass_one_small rand otaAX setNum.toNat balance (ents 1) _
              g1.base (by rw [hcnt]; omega) (hents 1)
            simp only [Nat.zero_add]
            rw [passLoop]
            split
            · exact ⟨_, rfl⟩
            · split
              · exact ⟨_, rfl⟩
              · split
                · exact ⟨_, rfl⟩
                · next hlt1 =>
                  have hphi := phi_le setNum.toNat _ hn1 k1
                  exact passLoop_later_small rand hrand otaAX setNum.toNat balance ents hents
                    hne f1 2 _ (le_refl _) k1 (by omega) (by rw [k2, hcnt]; omega) (by omega)

/-! ## Facts about the scenario data -/

theorem exWellFormed3 : WellFormedBucket exDB3 (OTABalance2ContractAddr (some oneCoin))
    (exEntries3 (OTABalance2ContractAddr (some oneCoin))) where
  stored := fun _ => (by decide : ∀ e ∈ exList3, exDB3.GetStateByteArray exBucket e.1 = e.2)
  width := (by decide : ∀ e ∈ exList3, e.2.length = WAddressLength)
  ownKey := (by decide : ∀ e ∈ exList3, e.1 = (GetAXFromWanAddr e.2).1)
  nodupKeys := (by decide : (exList3.map Prod.fst).Nodup)
  perm := fun _ => List.Perm.refl _

theorem exBalance3 : GetOtaBalanceFromAX exBalanceStorageAddr (some exDB3) (exAX 1) =
    (some oneCoin, none) := by decide

theorem exRand : ∀ k, randZero k < 100 := fun _ => (by decide : (0 : Nat) < 100)

theorem exRun2 : GetOTASet 10 exBalanceStorageAddr randZero exEntries3 (some exDB3) (exAX 1) 2 =
    some (some [exAddr 2, exAddr 3], some oneCoin, none) := by decide

theorem exRun3 : GetOTASet 10 exBalanceStorageAddr randZero exEntries3 (some exDB3) (exAX 1) 3 =
    some (some [exAddr 2, exAddr 3, exAddr 1], some oneCoin, none) := by decide

theorem exRun5 : GetOTASet 10 exBalanceStorageAddr randZero exEntries3 (some exDB3) (exAX 1) 5 =
    some (some [exAddr 2, exAddr 3, exAddr 1, exAddr 1, exAddr 2], some oneCoin, none) := by
  decide

/-! ## The decoy sampler: claims C1, C2, C3, C4, C5 -/

/-- Claim C1, as stated, fails: in the well-formed bucket `{A1, A2, A3}` a request of
`N = 3 = M` decoys for the target `A1` succeeds and returns `[A2, A3, A1]`, which carries
the identifier of the target. -/
theorem GetOTASet_returns_target_counterexample :
    WellFormedBucket exDB3 (OTABalance2ContractAddr (some oneCoin))
      (exEntries3 (OTABalance2ContractAddr (some oneCoin))) ∧
    (∀ k, randZero k < 100) ∧
    ∃ addrs b, GetOTASet 10 exBalanceStorageAddr randZero exEntries3 (some exDB3) (exAX 1) 3 =
        some (some addrs, b, none) ∧
      ¬ (addrs.Nodup ∧ ∀ a ∈ addrs, (GetAXFromWanAddr a).1 ≠ exAX 1) :=
  ⟨exWellFormed3, exRand, [exAddr 2, exAddr 3, exAddr 1], some oneCoin, exRun3, by decide⟩

/-- Claim C1 (amended to counts below the bucket size): in a state whose target bucket is
well formed and holds `M` entries, for every enumeration order, every sequence of
skip-distances in 1..100 and every count `N` with `1 ≤ N < M`, when `GetOTASet(target, N)`
succeeds the returned addresses are pairwise distinct and none of them carries the
identifier of the target. -/
theorem GetOTASet_distinct_without_target (obsa : Address) (rand : Nat → Nat)
    (entries : Address → Nat → List (Hash × Bytes)) (db : StateDB) (otaAX : Bytes) (D : Int)
    (setNum : Int) (fuel : Nat) (addrs : List Bytes) (b : Option Int)
    (hrand : ∀ k, rand k < 100)
    (hbal : GetOtaBalanceFromAX obsa (some db) otaAX = (some D, none)) (hD : D ≠ 0)
    (hwf : WellFormedBucket db (OTABalance2ContractAddr (some D))
      (entries (OTABalance2ContractAddr (some D))))
    (hN : 1 ≤ setNum)
    (hM : setNum < ((entries (OTABalance2ContractAddr (some D)) 0).length : Int))
    (h : GetOTASet fuel obsa rand entries (some db) otaAX setNum = some (some addrs, b, none)) :
    addrs.Nodup ∧ ∀ a ∈ addrs, (GetAXFromWanAddr a).1 ≠ otaAX := by
  have hcast : ((setNum.toNat : Nat) : Int) = setNum := Int.toNat_of_nonneg (by omega)
  obtain ⟨addrs1, h1, _, h3, h4⟩ := GetOTASet_succeeds obsa rand entries db otaAX D
    setNum.toNat (fuel + (100 * setNum.toNat + 2)) hrand hbal hD hwf (by omega) (by omega)
    (by omega)
  rw [hcast] at h1
  have h5 := GetOTASet_mono fuel (100 * setNum.toNat + 2) obsa rand entries (some db) otaAX
    setNum _ h
  rw [h1] at h5
  simp only [Option.some.injEq, Prod.mk.injEq, and_true] at h5
  obtain ⟨h6, _⟩ := h5
  subst h6
  exact ⟨h3, fun a ha => (isSelf_eq_false_iff otaAX a).mp (h4 a ha).1⟩

/-- Witness of C1 (amended): two decoys for `A1` out of the bucket `{A1, A2, A3}`. -/
theorem GetOTASet_distinct_without_target_witness :
    [exAddr 2, exAddr 3].Nodup ∧
    ∀ a ∈ [exAddr 2, exAddr 3], (GetAXFromWanAddr a).1 ≠ exAX 1 :=
  GetOTASet_distinct_without_target exBalanceStorageAddr randZero exEntries3 exDB3 (exAX 1)
    oneCoin 2 10 [exAddr 2, exAddr 3] (some oneCoin) exRand exBalance3 (by decide)
    exWellFormed3 (by decide) (by decide) exRun2

/-- Claim C2, as stated, fails on its own witness: with `A1, A2, A3` under one coin,
`GetOTASet(id(A1), 5)` succeeds and returns five addresses, `A1` and `A2` twice among
them, not the two non-target members `{A2, A3}`. -/
theorem GetOTASet_five_of_three_counterexample :
    WellFormedBucket exDB3 (OTABalance2ContractAddr (some oneCoin))
      (exEntries3 (OTABalance2ContractAddr (some oneCoin))) ∧
    (exEntries3 (OTABalance2ContractAddr (some oneCoin)) 0).length - 1 ≤ 5 ∧
    ∃ addrs b, GetOTASet 10 exBalanceStorageAddr randZero exEntries3 (some exDB3) (exAX 1) 5 =
        some (some addrs, b, none) ∧
      ¬ addrs.Perm (((exEntries3 (OTABalance2ContractAddr (some oneCoin)) 0).map
        Prod.snd).filter (fun v => !isSelf (exAX 1) v)) :=
  ⟨exWellFormed3, by decide, [exAddr 2, exAddr 3, exAddr 1, exAddr 1, exAddr 2], some oneCoin,
    exRun5, fun h => absurd h.length_eq (by decide)⟩

/-- Claim C2 (amended to the count `N = M - 1`): in a state whose target bucket is well
formed and holds `M ≥ 1` entries, the entry of the target among them, for every enumeration
order and every sequence of skip-distances in 1..100, `GetOTASet(target, M - 1)` succeeds
(within `100 * N + 2` passes) and returns exactly the `M - 1` non-target members of the
bucket, each exactly once, in some order. -/
theorem GetOTASet_exhaustive (obsa : Address) (rand : Nat → Nat)
    (entries : Address → Nat → List (Hash × Bytes)) (db : StateDB) (otaAX : Bytes) (D : Int)
    (setNum : Int) (fuel : Nat) (hrand : ∀ k, rand k < 100)
    (hbal : GetOtaBalanceFromAX obsa (some db) otaAX = (some D, none)) (hD : D ≠ 0)
    (hwf : WellFormedBucket db (OTABalance2ContractAddr (some D))
      (entries (OTABalance2ContractAddr (some D))))
    (htarget : ∃ e ∈ entries (OTABalance2ContractAddr (some D)) 0,
      (GetAXFromWanAddr e.2).1 = otaAX)
    (hN : setNum = ((entries (OTABalance2ContractAddr (some D)) 0).length : Int) - 1)
    (hfuel : 100 * setNum.toNat + 2 ≤ fuel) :
    ∃ addrs, GetOTASet fuel obsa rand entries (some db) otaAX setNum =
        some (some addrs, some D, none) ∧
      addrs.Perm (((entries (OTABalance2ContractAddr (some D)) 0).map Prod.snd).filter
        (fun v => !isSelf otaAX v)) := by
  obtain ⟨e, he, hself⟩ := htarget
  have hpos : 1 ≤ (entries (OTABalance2ContractAddr (some D)) 0).length :=
    List.length_pos_of_mem he
  have hcast : ((setNum.toNat : Nat) : Int) = setNum := Int.toNat_of_nonneg (by omega)
  have heself : isSelf otaAX e.2 = true := by simp [isSelf, hself]
  -- exactly one entry is the target
  have hone : ((vals (entries (OTABalance2ContractAddr (some D)) 0)).filter
      (fun v => isSelf otaAX v)).length = 1 := by
    have h1 := self_le_one otaAX _ hwf.ownKey hwf.nodupKeys
    have h2 : e.2 ∈ (vals (entries (OTABalance2ContractAddr (some D)) 0)).filter
        (fun v => isSelf otaAX v) :=
      List.mem_filter.mpr ⟨List.mem_map_of_mem _ he, heself⟩
    have h3 := List.length_pos_of_mem h2
    omega
  have hlen := List.length_eq_length_filter_add
    (l := vals (entries (OTABalance2ContractAddr (some D)) 0)) (fun v => isSelf otaAX v)
  have hvl : (vals (entries (OTABalance2ContractAddr (some D)) 0)).length =
      (entries (OTABalance2ContractAddr (some D)) 0).length := by simp [vals]
  by_cases h0 : setNum = 0
  · -- the bucket holds the target only
    subst h0
    have hl1 : (entries (OTABalance2ContractAddr (some D)) 0).length = 1 := by omega
    have hnil : (vals (entries (OTABalance2ContractAddr (some D)) 0)).filter
        (fun v => !isSelf otaAX v) = [] := by
      apply List.eq_nil_of_length_eq_zero
      omega
    obtain ⟨e1, he1⟩ := List.length_eq_one.mp hl1
    have hee : e = e1 := by
      rw [he1] at he
      simpa using he
    subst hee
    obtain ⟨f, rfl⟩ : ∃ f, fuel = f + 1 := ⟨fuel - 1, by omega⟩
    rw [GetOTASet_eq_passLoop _ obsa rand entries db otaAX 0 D hbal hD, passLoop, he1]
    refine ⟨[], ?_, ?_⟩
    · obtain ⟨k, v⟩ := e
      have hv : v.length = WAddressLength := hwf.width (k, v) he
      simp only at heself
      simp [ForEachStorageByteArray, visit_zero rand otaAX 0 D _ k v hv, heself, initialState]
    · have := hnil
      unfold vals at this
      rw [he1] at this
      rw [this]
  · obtain ⟨addrs, h1, h2, h3, h4⟩ := GetOTASet_succeeds obsa rand entries db otaAX D
      setNum.toNat fuel hrand hbal hD hwf (by omega) (by omega) hfuel
    rw [hcast] at h1
    refine ⟨addrs, h1, ?_⟩
    have hsub : addrs ⊆ (vals (entries (OTABalance2ContractAddr (some D)) 0)).filter
        (fun v => !isSelf otaAX v) := by
      intro a ha
      exact List.mem_filter.mpr ⟨(h4 a ha).2, by simp [(h4 a ha).1]⟩
    exact (List.subperm_of_subset h3 hsub).perm_of_length_le (by omega)

/-- Witness of C2 (amended): `GetOTASet(id(A1), 2)` on the bucket `{A1, A2, A3}`. -/
theorem GetOTASet_exhaustive_witness :
    ∃ addrs, GetOTASet 202 exBalanceStorageAddr randZero exEntries3 (some exDB3) (exAX 1) 2 =
        some (some addrs, some oneCoin, none) ∧
      addrs.Perm (((exEntries3 (OTABalance2ContractAddr (some oneCoin)) 0).map
        Prod.snd).filter (fun v => !isSelf (exAX 1) v)) :=
  GetOTASet_exhaustive exBalanceStorageAddr randZero exEntries3 exDB3 (exAX 1) oneCoin 2 202
    exRand exBalance3 (by decide) exWellFormed3 ⟨(exAX 1, exAddr 1), by decide, by decide⟩
    (by decide) (by decide)

/-- Claim C3: in a state whose target bucket is well formed and holds `M` entries, for
every enumeration order, every sequence of skip-distances in 1..100 and every count
`N ≥ 1` with `M - 1 > N`, `GetOTASet(target, N)` succeeds (every run of at least
`100 * N + 2` passes returns) and returns exactly `N` addresses, pairwise distinct, each a
non-target member of the bucket. -/
theorem GetOTASet_large_bucket (obsa : Address) (rand : Nat → Nat)
    (entries : Address → Nat → List (Hash × Bytes)) (db : StateDB) (otaAX : Bytes) (D : Int)
    (setNum : Int) (fuel : Nat) (hrand : ∀ k, rand k < 100)
    (hbal : GetOtaBalanceFromAX obsa (some db) otaAX = (some D, none)) (hD : D ≠ 0)
    (hwf : WellFormedBucket db (OTABalance2ContractAddr (some D))
      (entries (OTABalance2ContractAddr (some D))))
    (hN : 1 ≤ setNum)
    (hM : ((entries (OTABalance2ContractAddr (some D)) 0).length : Int) - 1 > setNum)
    (hfuel : 100 * setNum.toNat + 2 ≤ fuel) :
    ∃ addrs, GetOTASet fuel obsa rand entries (some db) otaAX setNum =
        some (some addrs, some D, none) ∧
      (addrs.length : Int) = setNum ∧ addrs.Nodup ∧
      ∀ a ∈ addrs, (GetAXFromWanAddr a).1 ≠ otaAX ∧
        a ∈ (entries (OTABalance2ContractAddr (some D)) 0).map Prod.snd := by
  have hcast : ((setNum.toNat : Nat) : Int) = setNum := Int.toNat_of_nonneg (by omega)
  obtain ⟨addrs, h1, h2, h3, h4⟩ := GetOTASet_succeeds obsa rand entries db otaAX D
    setNum.toNat fuel hrand hbal hD hwf (by omega) (by omega) hfuel
  rw [hcast] at h1
  refine ⟨addrs, h1, by rw [h2, hcast], h3, fun a ha => ?_⟩
  exact ⟨(isSelf_eq_false_iff otaAX a).mp (h4 a ha).1, (h4 a ha).2⟩

/-- Witness of C3: one decoy for `A1` out of the bucket `{A1, A2, A3}`. -/
theorem GetOTASet_large_bucket_witness :
    ∃ addrs, GetOTASet 102 exBalanceStorageAddr randZero exEntries3 (some exDB3) (exAX 1) 1 =
        some (some addrs, some oneCoin, none) ∧
      (addrs.length : Int) = 1 ∧ addrs.Nodup ∧
      ∀ a ∈ addrs, (GetAXFromWanAddr a).1 ≠ exAX 1 ∧
        a ∈ (exEntries3 (OTABalance2ContractAddr (some oneCoin)) 0).map Prod.snd :=
  GetOTASet_large_bucket exBalanceStorageAddr randZero exEntries3 exDB3 (exAX 1) oneCoin 1 102
    exRand exBalance3 (by decide) exWellFormed3 (by decide) (by decide) (by decide)

/-- Claim C5: for every state, target, count and sequence of skip-distances, with an
enumeration that yields entries stored in the bucket, when `GetOTASet` succeeds the
returned balance is the index-store denomination of the target, and every returned
address has exactly the Full-Address width and is a value stored in the bucket
`OTABalance2ContractAddr(balance)`. -/
theorem GetOTASet_members_stored (fuel : Nat) (obsa : Address) (rand : Nat → Nat)
    (entries : Address → Nat → List (Hash × Bytes)) (db : StateDB) (otaAX : Bytes)
    (setNum : Int) (addrs : List Bytes) (b : Option Int)
    (hstored : ∀ p, ∀ e ∈ entries
        (OTABalance2ContractAddr (GetOtaBalanceFromAX obsa (some db) otaAX).1) p,
      db.GetStateByteArray
        (OTABalance2ContractAddr (GetOtaBalanceFromAX obsa (some db) otaAX).1) e.1 = e.2)
    (h : GetOTASet fuel obsa rand entries (some db) otaAX setNum = some (some addrs, b, none)) :
    b = (GetOtaBalanceFromAX obsa (some db) otaAX).1 ∧
    ∀ a ∈ addrs, a.length = WAddressLength ∧
      ∃ k, db.GetStateByteArray (OTABalance2ContractAddr b) k = a := by
  have hax : otaAX.length = HashLength := by
    by_contra hne
    simp [GetOTASet, hne] at h
  rw [GetOtaBalanceFromAX_eq obsa db hax] at hstored ⊢
  by_cases hD : bigSetBytes (db.GetStateByteArray obsa otaAX) = 0
  · simp [GetOTASet, hax, GetOtaBalanceFromAX_eq obsa db hax, hD] at h
  · rw [GetOTASet_eq_passLoop fuel obsa rand entries db otaAX setNum _
      (GetOtaBalanceFromAX_eq obsa db hax) hD] at h
    obtain ⟨h1, h2⟩ := passLoop_members rand _ otaAX setNum _ addrs b fuel 0 (initialState rand)
      (by intro a ha; simp [initialState] at ha) h
    refine ⟨h1, ?_⟩
    intro a ha
    obtain ⟨h3, q, k, hk⟩ := h2 a ha
    refine ⟨h3, k, ?_⟩
    rw [h1]
    exact hstored q (k, a) hk

/-- Witness of C5: the five addresses returned for `GetOTASet(id(A1), 5)` on the bucket
`{A1, A2, A3}`. -/
theorem GetOTASet_members_stored_witness :
    some oneCoin = (GetOtaBalanceFromAX exBalanceStorageAddr (some exDB3) (exAX 1)).1 ∧
    ∀ a ∈ [exAddr 2, exAddr 3, exAddr 1, exAddr 1, exAddr 2], a.length = WAddressLength ∧
      ∃ k, exDB3.GetStateByteArray (OTABalance2ContractAddr (some oneCoin)) k = a :=
  GetOTASet_members_stored 10 exBalanceStorageAddr randZero exEntries3 exDB3 (exAX 1) 5
    [exAddr 2, exAddr 3, exAddr 1, exAddr 1, exAddr 2] (some oneCoin)
    (fun _ => (by decide : ∀ e ∈ exList3, exDB3.GetStateByteArray exBucket e.1 = e.2))
    exRun5

theorem forEach_fixed {σ : Type} (cb : σ → Hash → Bytes → σ × Bool) (s : σ)
    (l : List (Hash × Bytes)) (h : ∀ e ∈ l, cb s e.1 e.2 = (s, true)) :
    ForEachStorageByteArray cb l s = s := by
  induction l with
  | nil => rfl
  | cons e rest ih =>
    obtain ⟨k, v⟩ := e
    have h1 := h (k, v) (List.mem_cons_self _ _)
    simp only at h1
    unfold ForEachStorageByteArray
    rw [h1]
    exact ih (fun e he => h e (List.mem_cons_of_mem _ he))

theorem exEntriesTwin_eq (p : Nat) :
    exEntriesTwin (OTABalance2ContractAddr (some oneCoin)) p = exListTwin := by
  unfold exEntriesTwin exBucket
  exact if_pos rfl

theorem exBalanceTwin : GetOtaBalanceFromAX exBalanceStorageAddr (some exDBTwin) (exAX 1) =
    (some oneCoin, none) := by decide

theorem exTwin_pass_zero :
    ForEachStorageByteArray (visit randZero (exAX 1) 2 oneCoin 0) exListTwin
      (initialState randZero) = exStateTwin := by decide

theorem exTwin_visit (p : Nat) (hp : p ≠ 0) (e : Hash × Bytes) (he : e ∈ exListTwin) :
    visit randZero (exAX 1) ((2 : Nat) : Int) oneCoin p exStateTwin e.1 e.2 =
      (exStateTwin, true) := by
  rw [visit_later randZero (exAX 1) 2 oneCoin p exStateTwin e.1 e.2 hp (by decide)
    ((by decide : ∀ e ∈ exListTwin, e.2.length = WAddressLength) e he)]
  exact if_pos ((by decide : ∀ e ∈ exListTwin,
    OTAInSet exStateTwin.otaWanAddrs e.2 = true ∨ isSelf (exAX 1) e.2 = true) e he)

theorem exTwin_passLoop (fuel : Nat) :
    ∀ p, p ≠ 0 → passLoop randZero (exEntriesTwin (OTABalance2ContractAddr (some oneCoin)))
      (exAX 1) 2 oneCoin fuel p exStateTwin = none := by
  induction fuel with
  | zero => intro p _; rfl
  | succ fuel ih =>
    intro p hp
    have hfix : ForEachStorageByteArray (visit randZero (exAX 1) 2 oneCoin p)
        (exEntriesTwin (OTABalance2ContractAddr (some oneCoin)) p) exStateTwin = exStateTwin := by
      rw [exEntriesTwin_eq]
      exact forEach_fixed _ _ _ (exTwin_visit p hp)
    rw [passLoop, hfix]
    rw [if_neg (by decide), if_neg (by decide), if_neg (by decide)]
    exact ih (p + 1) (Nat.succ_ne_zero p)

/-- Claim C4, as stated, fails: in the state `exDBTwin` the bucket of one coin holds three
entries of the Full-Address width, two of them carrying the identifier of `A1`; for the
target `A1`, the count 2 and skip-distance 1 throughout, pass 0 selects `A2` and every later
pass leaves the state unchanged, so the pass loop returns for no number of passes. -/
theorem GetOTASet_loops_counterexample :
    (∀ e ∈ exListTwin, exDBTwin.GetStateByteArray exBucket e.1 = e.2 ∧
      e.2.length = WAddressLength) ∧
    (∀ k, randZero k < 100) ∧
    ¬ ∃ fuel r, GetOTASet fuel exBalanceStorageAddr randZero exEntriesTwin (some exDBTwin)
      (exAX 1) 2 = some r := by
  refine ⟨by decide, exRand, ?_⟩
  rintro ⟨fuel, r, h⟩
  rw [GetOTASet_eq_passLoop fuel exBalanceStorageAddr randZero exEntriesTwin exDBTwin (exAX 1) 2
    oneCoin exBalanceTwin (by decide)] at h
  cases fuel with
  | zero => simp [passLoop] at h
  | succ fuel =>
    rw [passLoop, exEntriesTwin_eq, exTwin_pass_zero] at h
    rw [if_neg (by decide), if_neg (by decide), if_neg (by decide)] at h
    rw [exTwin_passLoop fuel 1 (by decide)] at h
    exact Option.noConfusion h

/-- Claim C4 (amended to well-formed buckets, with the passes counted): for every state,
every target identifier, every count `N` and every sequence of skip-distances each in
1..100, if the bucket of the denomination of the target is well formed (each entry a full
address of the Full-Address width stored under its own identifier, every pass enumerating
the same entries in some order), then `GetOTASet` returns (a result or an error) in every
run that is allowed at least `100 * max(N, 0) + 3` passes. -/
theorem GetOTASet_terminates (obsa : Address) (rand : Nat → Nat)
    (entries : Address → Nat → List (Hash × Bytes)) (db : StateDB) (otaAX : Bytes)
    (setNum : Int) (fuel : Nat) (hrand : ∀ k, rand k < 100)
    (hwf : ∀ D, GetOtaBalanceFromAX obsa (some db) otaAX = (some D, none) → D ≠ 0 →
      WellFormedBucket db (OTABalance2ContractAddr (some D))
        (entries (OTABalance2ContractAddr (some D))))
    (hfuel : 100 * setNum.toNat + 3 ≤ fuel) :
    ∃ r, GetOTASet fuel obsa rand entries (some db) otaAX setNum = some r := by
  by_cases hax : otaAX.length = HashLength
  · have hbal := GetOtaBalanceFromAX_eq obsa db hax
    by_cases hD : bigSetBytes (db.GetStateByteArray obsa otaAX) = 0
    · exact ⟨(none, none, some .cantFindBalance), by simp [GetOTASet, hax, hbal, hD]⟩
    · have hw := hwf _ hbal hD
      rw [GetOTASet_eq_passLoop fuel obsa rand entries db otaAX setNum _ hbal hD]
      exact passLoop_returns rand hrand otaAX setNum _ _ hw.width hw.ownKey hw.nodupKeys
        hw.perm fuel hfuel
  · exact ⟨(none, none, some .invalidInputParam), by simp [GetOTASet, hax]⟩

/-- Witness of C4 (amended): five decoys asked for `A1` out of the bucket `{A1, A2, A3}`. -/
theorem GetOTASet_terminates_witness :
    ∃ r, GetOTASet 503 exBalanceStorageAddr randZero exEntries3 (some exDB3) (exAX 1) 5 =
      some r :=
  GetOTASet_terminates exBalanceStorageAddr randZero exEntries3 exDB3 (exAX 1) 5 503 exRand
    (fun D h _ => by
      rw [exBalance3] at h
      cases h
      exact exWellFormed3)
    (by decide)

/-! ## The ledger: claims C6, C7, C8, C9, C10 -/

/-- Claim C6, as stated, fails for the denomination 0: after `setOTA(0, A1)` the call
`GetOTAInfoFromAX(id(A1))` returns the error "ota balance is 0!", not `(A1, 0)`. -/
theorem setOTA_zero_GetOTAInfoFromAX_counterexample :
    (0 : Int) ≤ 0 ∧ (exAddr 1).length = WAddressLength ∧
    OTABalance2ContractAddr (some 0) ≠ exBalanceStorageAddr ∧
    GetOTAInfoFromAX exBalanceStorageAddr
        (setOTA exBalanceStorageAddr (some StateDB.empty) (some 0) (exAddr 1)).1
        (GetAXFromWanAddr (exAddr 1)).1 = (none, none, some .balanceIsZero) := by
  decide

/-- Claim C6 (amended to positive denominations): for every state, every denomination
`D > 0` and every full address `A` of the Full-Address width, when the bucket address of
`D` differs from the index-store address, `setOTA(D, A)` returns no error and afterwards
`GetOTAInfoFromAX(GetAXFromWanAddr(A))` returns `(A, D)` with no error. -/
theorem setOTA_GetOTAInfoFromAX_roundtrip (obsa : Address) (db : StateDB) (D : Int) (A : Bytes)
    (hD : 0 < D) (hA : A.length = WAddressLength)
    (hne : OTABalance2ContractAddr (some D) ≠ obsa) :
    (setOTA obsa (some db) (some D) A).2 = none ∧
    GetOTAInfoFromAX obsa (setOTA obsa (some db) (some D) A).1 (GetAXFromWanAddr A).1 =
      (some A, some D, none) := by
  have h32 := axOf_length hA
  have hAlen : A.length ≠ 0 := by rw [hA]; decide
  have habs : (D.natAbs : Int) = D := Int.natAbs_of_nonneg hD.le
  rw [setOTA_eq obsa db D hA, GetAXFromWanAddr_fst hA]
  refine ⟨rfl, ?_⟩
  simp only [GetOTAInfoFromAX]
  rw [if_neg (by rw [h32]; exact lt_irrefl _), BytesToHash_of_length h32,
    GetOtaBalanceFromAX_eq obsa _ h32]
  simp only [get_set, and_self, if_true, true_and, bigSetBytes_bigBytes, habs]
  have hD0 : D ≠ 0 := ne_of_gt hD
  simp [hD0, hne, hAlen]

/-- Witness of C6 (amended): `A1` under one coin, added to the empty database. -/
theorem setOTA_GetOTAInfoFromAX_roundtrip_witness :
    (setOTA exBalanceStorageAddr (some StateDB.empty) (some oneCoin) (exAddr 1)).2 = none ∧
    GetOTAInfoFromAX exBalanceStorageAddr
        (setOTA exBalanceStorageAddr (some StateDB.empty) (some oneCoin) (exAddr 1)).1
        (GetAXFromWanAddr (exAddr 1)).1 = (some (exAddr 1), some oneCoin, none) :=
  setOTA_GetOTAInfoFromAX_roundtrip exBalanceStorageAddr StateDB.empty oneCoin (exAddr 1)
    (by decide) (by decide) (by decide)

/-- Claim C7, as stated, fails for the denomination 0: `AddOTAIfNotExit(0, A1)` returns
`(true, nil)` on the empty database, and the same call made again returns `(true, nil)`
once more instead of `(false, error)`. -/
theorem AddOTAIfNotExit_zero_twice_counterexample :
    (AddOTAIfNotExit exBalanceStorageAddr (some StateDB.empty) (some 0) (exAddr 1)).2 =
      (true, none) ∧
    (AddOTAIfNotExit exBalanceStorageAddr
      (AddOTAIfNotExit exBalanceStorageAddr (some StateDB.empty) (some 0) (exAddr 1)).1
      (some 0) (exAddr 1)).2 = (true, none) := by
  decide

/-- Claim C7 (amended to positive denominations): for every state, every denomination
`D > 0` and every full address `A`, if `AddOTAIfNotExit(D, A)` returns `(true, nil)`, then
an immediately following `AddOTAIfNotExit(D1, A1)`, for any denomination `D1` (nil
included) and any address `A1` with the same identifier as `A`, returns `(false, error)`
and leaves the whole store exactly as it was before that second call. -/
theorem AddOTAIfNotExit_exclusive (obsa : Address) (db : StateDB) (D : Int) (A : Bytes)
    (D1 : Option Int) (A1 : Bytes) (s1 : Option StateDB) (hD : 0 < D)
    (h1 : AddOTAIfNotExit obsa (some db) (some D) A = (s1, true, none))
    (hid : GetAXFromWanAddr A1 = GetAXFromWanAddr A) :
    ∃ e, AddOTAIfNotExit obsa s1 D1 A1 = (s1, false, some e) := by
  have hA : A.length = WAddressLength := by
    by_contra hA
    simp [AddOTAIfNotExit, hA] at h1
  have hA1 : A1.length = WAddressLength := by
    by_contra hA1
    rw [GetAXFromWanAddr_of_length hA] at hid
    simp [GetAXFromWanAddr, hA1] at hid
  have hax : axOf A1 = axOf A := by
    have := congrArg Prod.fst hid
    rwa [GetAXFromWanAddr_fst hA, GetAXFromWanAddr_fst hA1] at this
  have h32 := axOf_length hA
  have hs1 : s1 = (setOTA obsa (some db) (some D) A).1 := by
    simp only [AddOTAIfNotExit, hA, ne_eq, not_true_eq_false, if_false] at h1
    rw [setOTA_eq obsa db D hA] at h1 ⊢
    split at h1
    · simp at h1
    · split at h1
      · simp at h1
      · simp only [Prod.mk.injEq, and_true] at h1
        exact h1.symm
  rw [setOTA_eq obsa db D hA] at hs1
  subst hs1
  cases D1 with
  | none => exact ⟨_, rfl⟩
  | some d =>
    refine ⟨.otaExitAlready, ?_⟩
    have habs : (D.natAbs : Int) = D := Int.natAbs_of_nonneg hD.le
    have hD0 : D ≠ 0 := ne_of_gt hD
    have hb : (bigBytes D).length ≠ 0 := bigBytes_length_pos hD0
    have hAlen : A.length ≠ 0 := by rw [hA]; decide
    have hchk : CheckOTAExit obsa
        (some ((db.SetStateByteArray (OTABalance2ContractAddr (some D)) (axOf A) A).SetStateByteArray
          obsa (axOf A) (bigBytes D))) (axOf A) = (true, some D, none) := by
      rw [CheckOTAExit_eq obsa _ h32]
      simp only [get_set, and_self, if_true, bigSetBytes_bigBytes, habs, if_neg hD0, and_true]
      by_cases hne : OTABalance2ContractAddr (some D) = obsa
      · simp [hne, hb]
      · simp [hne, hAlen]
    simp only [AddOTAIfNotExit, hA1, ne_eq, not_true_eq_false, if_false,
      GetAXFromWanAddr_fst hA1, hax, BytesToHash_of_length h32, hchk]
    rfl

/-- Witness of C7 (amended): `A1` is inserted under one coin; a second insert under two
coins of an address with the same identifier and another leading byte is refused. -/
theorem AddOTAIfNotExit_exclusive_witness :
    ∃ e, AddOTAIfNotExit exBalanceStorageAddr
        (AddOTAIfNotExit exBalanceStorageAddr (some StateDB.empty) (some oneCoin) (exAddr 1)).1
        (some (2 * oneCoin)) (exAddrTagged 7 1) =
      ((AddOTAIfNotExit exBalanceStorageAddr (some StateDB.empty) (some oneCoin) (exAddr 1)).1,
        false, some e) :=
  AddOTAIfNotExit_exclusive exBalanceStorageAddr StateDB.empty oneCoin (exAddr 1)
    (some (2 * oneCoin)) (exAddrTagged 7 1) _ (by decide) (Prod.ext rfl (by decide))
    (by decide)

/-- Claim C8 fails in the code for an identifier longer than 32 bytes: `BatCheckOTAExit`
reads the balance under the first 32 bytes and the bucket entry under the last 32 bytes,
`CheckOTAExit` reads both under the last 32 bytes.  For the 33-byte identifier `exLongAX`:
in `exDB1` the single check finds the OTA while the batch check reports a zero balance; in
`exDBSkew` the batch check returns `(true, one coin, nil, nil)` while the single check
finds no OTA. -/
theorem BatCheckOTAExit_long_identifier_disagrees :
    HashLength ≤ exLongAX.length ∧
    CheckOTAExit exBalanceStorageAddr (some exDB1) exLongAX = (true, some oneCoin, none) ∧
    BatCheckOTAExit exBalanceStorageAddr (some exDB1) [exLongAX] =
      (false, none, some exLongAX, some (.balanceIsZeroOta exLongAX)) ∧
    BatCheckOTAExit exBalanceStorageAddr (some exDBSkew) [exLongAX] =
      (true, some oneCoin, none, none) ∧
    CheckOTAExit exBalanceStorageAddr (some exDBSkew) exLongAX = (false, none, none) := by
  decide

/-- Claim C9, as stated, fails for the denomination 0: after `setOTA(0, A1)` the batch
check of `[id(A1)]` returns `(false, nil, id(A1), "ota balance is 0!")`. -/
theorem setOTA_zero_BatCheckOTAExit_counterexample :
    BatCheckOTAExit exBalanceStorageAddr
      (setOTAs exBalanceStorageAddr (some StateDB.empty) (some 0) [exAddr 1])
      ([exAddr 1].map (fun A => (GetAXFromWanAddr A).1)) =
    (false, none, some (exAX 1), some (.balanceIsZeroOta (exAX 1))) := by
  decide

/-- Claim C9 (amended to positive denominations): for every state, every denomination
`D > 0` and every non-empty list of full addresses `A1..An` of the Full-Address width,
after `setOTA(D, Ai)` has been performed for each `i`,
`BatCheckOTAExit([id(A1), ..., id(An)])` returns `(true, D, nil, nil)`. -/
theorem setOTA_then_BatCheckOTAExit (obsa : Address) (db : StateDB) (D : Int) (As : List Bytes)
    (hD : 0 < D) (hne : As ≠ []) (hAs : ∀ A ∈ As, A.length = WAddressLength) :
    BatCheckOTAExit obsa (setOTAs obsa (some db) (some D) As)
      (As.map (fun A => (GetAXFromWanAddr A).1)) = (true, some D, none, none) := by
  obtain ⟨db1, h1, hrec, _⟩ := foldl_setOTA_recorded obsa D hD As hAs db
  unfold setOTAs
  rw [h1]
  apply BatCheckOTAExit_recorded obsa db1 D (ne_of_gt hD)
  · simpa using hne
  · intro x hx
    obtain ⟨A, hA, rfl⟩ := List.mem_map.mp hx
    exact GetAXFromWanAddr_length (hAs A hA)
  · intro x hx
    obtain ⟨A, hA, rfl⟩ := List.mem_map.mp hx
    rw [GetAXFromWanAddr_fst (hAs A hA)]
    exact hrec A hA

/-- Witness of C9 (amended): `A1` and `A2` under one coin give `(true, 10^18, nil, nil)`. -/
theorem setOTA_then_BatCheckOTAExit_witness :
    BatCheckOTAExit exBalanceStorageAddr
      (setOTAs exBalanceStorageAddr (some StateDB.empty) (some oneCoin) [exAddr 1, exAddr 2])
      ([exAddr 1, exAddr 2].map (fun A => (GetAXFromWanAddr A).1)) =
    (true, some oneCoin, none, none) :=
  setOTA_then_BatCheckOTAExit exBalanceStorageAddr StateDB.empty oneCoin [exAddr 1, exAddr 2]
    (by decide) (by decide) (by decide)

/-- Claim C10: for every state and every list of 32-byte identifiers that all resolve to
non-zero denominations which are not all equal, `BatCheckOTAExit` returns `exit = false`,
a nil balance, the error "otas have different balances!", and as offending identifier the
first identifier in list order whose denomination differs from that of the first list
element. -/
theorem BatCheckOTAExit_different_balances (obsa : Address) (db : StateDB)
    (otaAXs : List Bytes)
    (hlen : ∀ x ∈ otaAXs, x.length = HashLength)
    (hnz : ∀ x ∈ otaAXs, (GetOtaBalanceFromAX obsa (some db) x).1 ≠ some 0)
    (hdiff : ∃ x ∈ otaAXs, ∃ y ∈ otaAXs,
      (GetOtaBalanceFromAX obsa (some db) x).1 ≠ (GetOtaBalanceFromAX obsa (some db) y).1) :
    ∃ first y, otaAXs.head? = some first ∧
      otaAXs.find? (fun x => decide ((GetOtaBalanceFromAX obsa (some db) x).1 ≠
        (GetOtaBalanceFromAX obsa (some db) first).1)) = some y ∧
      BatCheckOTAExit obsa (some db) otaAXs =
        (false, none, some y, some (.differentBalances y)) := by
  cases otaAXs with
  | nil => obtain ⟨x, hx, _⟩ := hdiff; simp at hx
  | cons first rest =>
    have hf : first.length = HashLength := hlen first (List.mem_cons_self _ _)
    have hfnz := hnz first (List.mem_cons_self _ _)
    -- some element differs from the first one
    have hex : ∃ z ∈ rest, (GetOtaBalanceFromAX obsa (some db) z).1 ≠
        (GetOtaBalanceFromAX obsa (some db) first).1 := by
      by_contra hall
      push_neg at hall
      have hall1 : ∀ z ∈ first :: rest, (GetOtaBalanceFromAX obsa (some db) z).1 =
          (GetOtaBalanceFromAX obsa (some db) first).1 := by
        intro z hz
        rcases List.mem_cons.mp hz with rfl | hz
        · rfl
        · exact hall z hz
      obtain ⟨x, hx, y, hy, hxy⟩ := hdiff
      exact hxy ((hall1 x hx).trans (hall1 y hy).symm)
    obtain ⟨z, hz, hzne⟩ := hex
    have hfind : ∃ y, rest.find? (fun x => decide ((GetOtaBalanceFromAX obsa (some db) x).1 ≠
        (GetOtaBalanceFromAX obsa (some db) first).1)) = some y := by
      cases hfd : rest.find? (fun x => decide ((GetOtaBalanceFromAX obsa (some db) x).1 ≠
        (GetOtaBalanceFromAX obsa (some db) first).1)) with
      | some y => exact ⟨y, rfl⟩
      | none =>
        rw [List.find?_eq_none] at hfd
        have := hfd z hz
        simp at this
        exact absurd this hzne
    obtain ⟨y, hy⟩ := hfind
    refine ⟨first, y, rfl, ?_, ?_⟩
    · rw [List.find?_cons]
      simp only [ne_eq, not_true_eq_false, decide_False]
      exact hy
    · simp only [BatCheckOTAExit, List.length_cons, Nat.add_one_ne_zero, if_false]
      rw [batBalanceLoop_none obsa db first rest hf hfnz]
      have hb : (GetOtaBalanceFromAX obsa (some db) first).1 =
          some (bigSetBytes (db.GetStateByteArray obsa first)) := by
        rw [GetOtaBalanceFromAX_eq obsa db hf]
      rw [hb] at hy ⊢
      rw [batBalanceLoop_some obsa db _ rest
        (fun y hy => hlen y (List.mem_cons_of_mem _ hy))
        (fun y hy => hnz y (List.mem_cons_of_mem _ hy))]
      simp only [batLoopSpec, hy]

/-- Witness of C10: `A1` under one coin and `A4` under two coins; the batch check of
`[id(A1), id(A4)]` fails at an identifier found by the search for the first differing
balance. -/
theorem BatCheckOTAExit_different_balances_witness :
    ∃ first y, [exAX 1, exAX 4].head? = some first ∧
      [exAX 1, exAX 4].find? (fun x =>
        decide ((GetOtaBalanceFromAX exBalanceStorageAddr (some exDBMixed) x).1 ≠
          (GetOtaBalanceFromAX exBalanceStorageAddr (some exDBMixed) first).1)) = some y ∧
      BatCheckOTAExit exBalanceStorageAddr (some exDBMixed) [exAX 1, exAX 4] =
        (false, none, some y, some (.differentBalances y)) :=
  BatCheckOTAExit_different_balances exBalanceStorageAddr exDBMixed [exAX 1, exAX 4]
    (by decide) (by decide) ⟨exAX 1, by decide, exAX 4, by decide, by decide⟩

/-! ## Existence check and image registry: claims C11, C15 -/

theorem setOTAEach_no_entry (obsa : Address) (x : Bytes) (ops : List (Option Int × Bytes))
    (h : ∀ op ∈ ops, (GetAXFromWanAddr op.2).1 ≠ x) :
    ∀ db : StateDB, (∀ a, db.GetStateByteArray a x = []) →
      ∃ db1, setOTAEach obsa (some db) ops = some db1 ∧ ∀ a, db1.GetStateByteArray a x = [] := by
  induction ops with
  | nil => intro db hdb; exact ⟨db, rfl, hdb⟩
  | cons op rest ih =>
    intro db hdb
    obtain ⟨balance, A⟩ := op
    have hrest : ∀ op ∈ rest, (GetAXFromWanAddr op.2).1 ≠ x :=
      fun op hop => h op (List.mem_cons_of_mem _ hop)
    have hA := h (balance, A) (List.mem_cons_self _ _)
    simp only at hA
    have hstep : ∃ db0, (setOTA obsa (some db) balance A).1 = some db0 ∧
        ∀ a, db0.GetStateByteArray a x = [] := by
      cases balance with
      | none => exact ⟨db, rfl, hdb⟩
      | some D =>
        by_cases hw : A.length = WAddressLength
        · rw [GetAXFromWanAddr_fst hw] at hA
          have hx : ¬ x = axOf A := fun e => hA e.symm
          rw [setOTA_eq obsa db D hw]
          refine ⟨_, rfl, ?_⟩
          intro a
          simp only [get_set, hx, and_false, if_false]
          exact hdb a
        · refine ⟨db, ?_, hdb⟩
          simp [setOTA, hw]
    obtain ⟨db0, h0, hdb0⟩ := hstep
    obtain ⟨db1, h1, hdb1⟩ := ih hrest db0 hdb0
    refine ⟨db1, ?_, hdb1⟩
    unfold setOTAEach at h1 ⊢
    rw [List.foldl_cons, h0]
    exact h1

/-- Claim C11: for every state and every 32-byte identifier `x`, with the index entry of
`x` read as the unsigned big-endian value of the bytes stored under `x` in the index
store: `CheckOTAExit(x)` returns `(true, D, nil)` exactly when the index entry of `x` is a
non-zero denomination `D` and the bucket `OTABalance2ContractAddr(D)` holds a non-empty
entry under `x`; in every other case it returns `(false, nil, nil)`; in particular it
returns `(false, nil, nil)` in every state reached from the empty database by `setOTA`
calls none of which adds an address with the identifier `x`. -/
theorem CheckOTAExit_characterisation (obsa : Address) (db : StateDB) (x : Bytes)
    (hx : x.length = HashLength) :
    (∀ D : Int, CheckOTAExit obsa (some db) x = (true, some D, none) ↔
      (bigSetBytes (db.GetStateByteArray obsa x) = D ∧ D ≠ 0 ∧
        (db.GetStateByteArray (OTABalance2ContractAddr (some D)) x).length ≠ 0)) ∧
    ((¬ ∃ D : Int, bigSetBytes (db.GetStateByteArray obsa x) = D ∧ D ≠ 0 ∧
        (db.GetStateByteArray (OTABalance2ContractAddr (some D)) x).length ≠ 0) →
      CheckOTAExit obsa (some db) x = (false, none, none)) ∧
    (∀ ops : List (Option Int × Bytes), (∀ op ∈ ops, (GetAXFromWanAddr op.2).1 ≠ x) →
      CheckOTAExit obsa (setOTAEach obsa (some StateDB.empty) ops) x = (false, none, none)) := by
  have hchk := CheckOTAExit_eq obsa db hx
  refine ⟨?_, ?_, ?_⟩
  · intro D
    rw [hchk]
    by_cases h0 : bigSetBytes (db.GetStateByteArray obsa x) = 0
    · rw [if_pos h0]
      constructor
      · intro h; simp at h
      · rintro ⟨h1, h2, _⟩
        exact absurd (h1 ▸ h0) h2
    · rw [if_neg h0]
      by_cases h1 : (db.GetStateByteArray (OTABalance2ContractAddr
          (some (bigSetBytes (db.GetStateByteArray obsa x)))) x).length ≠ 0
      · rw [if_pos h1]
        constructor
        · intro h
          simp only [Prod.mk.injEq, Option.some.injEq, and_true, true_and] at h
          subst h
          exact ⟨rfl, h0, h1⟩
        · rintro ⟨h2, _, _⟩
          subst h2
          rfl
      · rw [if_neg h1]
        constructor
        · intro h; simp at h
        · rintro ⟨h2, _, h4⟩
          subst h2
          exact absurd h4 h1
  · intro hnot
    rw [hchk]
    by_cases h0 : bigSetBytes (db.GetStateByteArray obsa x) = 0
    · rw [if_pos h0]
    · rw [if_neg h0]
      by_cases h1 : (db.GetStateByteArray (OTABalance2ContractAddr
          (some (bigSetBytes (db.GetStateByteArray obsa x)))) x).length ≠ 0
      · exact absurd ⟨_, rfl, h0, h1⟩ hnot
      · rw [if_neg h1]
  · intro ops hops
    obtain ⟨db1, h1, hdb1⟩ := setOTAEach_no_entry obsa x ops hops StateDB.empty (fun _ => rfl)
    rw [h1, CheckOTAExit_eq obsa db1 hx, hdb1 obsa]
    simp [bigSetBytes, beValue]

/-- Witness of C11: in the database holding `A1`, `A2`, `A3` under one coin the identifier
of `A1` is found with `(true, 10^18, nil)`; after `setOTA` of `A1` and `A2` the
identifier of `A9`, never added, gives `(false, nil, nil)`. -/
theorem CheckOTAExit_characterisation_witness :
    CheckOTAExit exBalanceStorageAddr (some exDB3) (exAX 1) = (true, some oneCoin, none) ∧
    CheckOTAExit exBalanceStorageAddr
      (setOTAEach exBalanceStorageAddr (some StateDB.empty)
        [(some oneCoin, exAddr 1), (some oneCoin, exAddr 2)]) (exAX 9) = (false, none, none) :=
  ⟨((CheckOTAExit_characterisation exBalanceStorageAddr exDB3 (exAX 1) (by decide)).1
      oneCoin).mpr ⟨by decide, by decide, by decide⟩,
    (CheckOTAExit_characterisation exBalanceStorageAddr StateDB.empty (exAX 9)
      (by decide)).2.2 [(some oneCoin, exAddr 1), (some oneCoin, exAddr 2)] (by decide)⟩

/-- Claim C15: for every state (also one where the image is already registered with
another payload), every non-empty image and every non-empty payload,
`AddOTAImage(image, payload)` returns nil and afterwards `CheckOTAImageExit(image)` returns
`(true, payload, nil)`.  The hash `crypto.Keccak256Hash` is any function. -/
theorem AddOTAImage_CheckOTAImageExit (Keccak256Hash : Bytes → Hash) (oisa : Address)
    (db : StateDB) (otaImage value : Bytes) (hi : otaImage.length ≠ 0)
    (hv : value.length ≠ 0) :
    (AddOTAImage Keccak256Hash oisa (some db) otaImage value).2 = none ∧
    CheckOTAImageExit Keccak256Hash oisa
      (AddOTAImage Keccak256Hash oisa (some db) otaImage value).1 otaImage =
        (true, some value, none) := by
  simp [AddOTAImage, CheckOTAImageExit, hi, hv, get_set]

/-- Witness of C15: an image registered twice, with two payloads; the second one is read. -/
theorem AddOTAImage_CheckOTAImageExit_witness :
    (AddOTAImage exHash exImageStorageAddr
      (some (stateOf (AddOTAImage exHash exImageStorageAddr (some StateDB.empty)
        [1, 2, 3] [7]).1)) [1, 2, 3] [8, 9]).2 = none ∧
    CheckOTAImageExit exHash exImageStorageAddr
      (AddOTAImage exHash exImageStorageAddr
        (some (stateOf (AddOTAImage exHash exImageStorageAddr (some StateDB.empty)
          [1, 2, 3] [7]).1)) [1, 2, 3] [8, 9]).1 [1, 2, 3] = (true, some [8, 9], none) :=
  AddOTAImage_CheckOTAImageExit exHash exImageStorageAddr
    (stateOf (AddOTAImage exHash exImageStorageAddr (some StateDB.empty) [1, 2, 3] [7]).1)
    [1, 2, 3] [8, 9] (by decide) (by decide)

/-! ## What one callback invocation does -/

theorem randomSel_outcome (rand : Nat → Nat) (N : Int) (s : SamplerState) (v : Bytes) :
    (randomSel rand N s v).1.err = s.err ∧
    (randomSel rand N s v).1.mptEleCount = s.mptEleCount ∧
    (((randomSel rand N s v).1.otaWanAddrs = s.otaWanAddrs ∧
        (randomSel rand N s v).1.i = s.i ∧ (randomSel rand N s v).2 = true) ∨
     ((randomSel rand N s v).1.otaWanAddrs = s.otaWanAddrs ++ [v] ∧
        (randomSel rand N s v).1.i = s.i + 1 ∧
        (randomSel rand N s v).2 = decide ((((s.i + 1 : Nat)) : Int) < N))) := by
  rcases randomSel_cases rand N s v with ⟨_, heq⟩ | ⟨_, heq⟩
  · rw [heq]; exact ⟨rfl, rfl, Or.inl ⟨rfl, rfl, rfl⟩⟩
  · rw [heq]; exact ⟨rfl, rfl, Or.inr ⟨rfl, rfl, rfl⟩⟩

theorem visit_bad (rand : Nat → Nat) (otaAX : Bytes) (N : Int) (balance : Int) (p : Nat)
    (s : SamplerState) (k : Hash) (v : Bytes) (hv : v.length ≠ WAddressLength) :
    visit rand otaAX N balance p s k v =
      ({ s with err := some (.invalidOTAAddress balance v) }, false) := by
  unfold visit
  rw [if_pos hv]

theorem visit_outcome (rand : Nat → Nat) (otaAX : Bytes) (N : Int) (balance : Int) (p : Nat)
    (s : SamplerState) (k : Hash) (v : Bytes) (hv : v.length = WAddressLength) :
    (visit rand otaAX N balance p s k v).1.err = s.err ∧
    s.mptEleCount ≤ (visit rand otaAX N balance p s k v).1.mptEleCount ∧
    (p = 0 → (visit rand otaAX N balance p s k v).1.mptEleCount = s.mptEleCount + 1) ∧
    (((visit rand otaAX N balance p s k v).1.otaWanAddrs = s.otaWanAddrs ∧
        (visit rand otaAX N balance p s k v).1.i = s.i ∧
        (visit rand otaAX N balance p s k v).2 = true) ∨
     ((visit rand otaAX N balance p s k v).1.otaWanAddrs = s.otaWanAddrs ++ [v] ∧
        (visit rand otaAX N balance p s k v).1.i = s.i + 1 ∧
        (visit rand otaAX N balance p s k v).2 = decide ((((s.i + 1 : Nat)) : Int) < N))) := by
  have hr := fun s1 => randomSel_outcome rand N s1 v
  have hskip : ∀ q, q ≠ 0 →
      ((s, true) : SamplerState × Bool).1.err = s.err ∧
      s.mptEleCount ≤ ((s, true) : SamplerState × Bool).1.mptEleCount ∧
      (q = 0 → ((s, true) : SamplerState × Bool).1.mptEleCount = s.mptEleCount + 1) ∧
      ((((s, true) : SamplerState × Bool).1.otaWanAddrs = s.otaWanAddrs ∧
          ((s, true) : SamplerState × Bool).1.i = s.i ∧
          ((s, true) : SamplerState × Bool).2 = true) ∨
       (((s, true) : SamplerState × Bool).1.otaWanAddrs = s.otaWanAddrs ++ [v] ∧
          ((s, true) : SamplerState × Bool).1.i = s.i + 1 ∧
          ((s, true) : SamplerState × Bool).2 = decide ((((s.i + 1 : Nat)) : Int) < N))) :=
    fun q hq => ⟨rfl, le_refl _, fun h => absurd h hq, Or.inl ⟨rfl, rfl, rfl⟩⟩
  have hsel : ∀ q, q ≠ 0 →
      (randomSel rand N s v).1.err = s.err ∧
      s.mptEleCount ≤ (randomSel rand N s v).1.mptEleCount ∧
      (q = 0 → (randomSel rand N s v).1.mptEleCount = s.mptEleCount + 1) ∧
      (((randomSel rand N s v).1.otaWanAddrs = s.otaWanAddrs ∧
          (randomSel rand N s v).1.i = s.i ∧ (randomSel rand N s v).2 = true) ∨
       ((randomSel rand N s v).1.otaWanAddrs = s.otaWanAddrs ++ [v] ∧
          (randomSel rand N s v).1.i = s.i + 1 ∧
          (randomSel rand N s v).2 = decide ((((s.i + 1 : Nat)) : Int) < N))) := by
    intro q hq
    obtain ⟨h1, h2, h3⟩ := hr s
    exact ⟨h1, by rw [h2], fun h => absurd h hq, h3⟩
  unfold visit
  rw [if_neg (by simp [hv])]
  split
  · next hp =>
    simp only
    split
    · exact ⟨rfl, Nat.le_succ _, fun _ => rfl, Or.inl ⟨rfl, rfl, rfl⟩⟩
    · obtain ⟨h1, h2, h3⟩ := hr { s with mptEleCount := s.mptEleCount + 1 }
      exact ⟨h1, by rw [h2]; exact Nat.le_succ _, fun _ => h2, h3⟩
  · next hp =>
    split
    · split
      · split
        · exact ⟨rfl, le_refl _, fun h => absurd h hp, Or.inr ⟨rfl, rfl, rfl⟩⟩
        · exact hskip p hp
      · split
        · split
          · exact hskip p hp
          · exact hsel p hp
        · exact hskip p hp
    · split
      · exact hsel p hp
      · split
        · split
          · exact hskip p hp
          · exact hsel p hp
        · exact hskip p hp

/-! ## The size of the result: claim C19 -/

theorem pass_count (rand : Nat → Nat) (otaAX : Bytes) (N : Int) (balance : Int) (p : Nat)
    (l : List (Hash × Bytes)) (s : SamplerState) (hlen : s.i = s.otaWanAddrs.length)
    (hi : (s.i : Int) < N) :
    (ForEachStorageByteArray (visit rand otaAX N balance p) l s).i =
      (ForEachStorageByteArray (visit rand otaAX N balance p) l s).otaWanAddrs.length ∧
    ((ForEachStorageByteArray (visit rand otaAX N balance p) l s).i : Int) ≤ N := by
  have key := forEach_rem (visit rand otaAX N balance p)
    (fun _ s => s.i = s.otaWanAddrs.length ∧ (s.i : Int) < N)
    (fun s => s.i = s.otaWanAddrs.length ∧ (s.i : Int) ≤ N)
    ?_ ?_ l s ⟨hlen, hi⟩
  · rcases key with ⟨h1, h2⟩ | ⟨h1, h2⟩
    · exact ⟨h1, le_of_lt h2⟩
    · exact ⟨h1, h2⟩
  · intro k v rest s ⟨h1, h2⟩ hc
    by_cases hv : v.length = WAddressLength
    · obtain ⟨_, _, _, h⟩ := visit_outcome rand otaAX N balance p s k v hv
      rcases h with ⟨g1, g2, _⟩ | ⟨g1, g2, g3⟩
      · rw [g1, g2]; exact ⟨h1, h2⟩
      · rw [hc] at g3
        have g4 : (((s.i + 1 : Nat)) : Int) < N := by simpa using g3.symm
        rw [g1, g2]
        exact ⟨by simp [h1], g4⟩
    · rw [visit_bad rand otaAX N balance p s k v hv] at hc
      exact absurd hc (by simp)
  · intro k v rest s ⟨h1, h2⟩ hc
    by_cases hv : v.length = WAddressLength
    · obtain ⟨_, _, _, h⟩ := visit_outcome rand otaAX N balance p s k v hv
      rcases h with ⟨g1, g2, _⟩ | ⟨g1, g2, _⟩
      · rw [g1, g2]; exact ⟨h1, le_of_lt h2⟩
      · rw [g1, g2]
        refine ⟨by simp [h1], ?_⟩
        push_cast
        omega
    · rw [visit_bad rand otaAX N balance p s k v hv]
      exact ⟨h1, le_of_lt h2⟩

theorem passLoop_count (rand : Nat → Nat) (ents : Nat → List (Hash × Bytes)) (otaAX : Bytes)
    (N : Int) (balance : Int) (addrs : List Bytes) (b : Option Int) :
    ∀ (fuel p : Nat) (s : SamplerState), s.i = s.otaWanAddrs.length → (s.i : Int) < N →
      passLoop rand ents otaAX N balance fuel p s = some (some addrs, b, none) →
      (addrs.length : Int) = N := by
  intro fuel
  induction fuel with
  | zero => intro p s _ _ h; simp [passLoop] at h
  | succ fuel ih =>
    intro p s hlen hi h
    obtain ⟨g1, g2⟩ := pass_count rand otaAX N balance p (ents p) s hlen hi
    rw [passLoop] at h
    split at h
    · simp at h
    · split at h
      · simp at h
      · split at h
        · next hge =>
          simp only [Option.some.injEq, Prod.mk.injEq, and_true] at h
          obtain ⟨h1, _⟩ := h
          subst h1
          rw [← g1]
          omega
        · next hlt => exact ih _ _ g1 (by omega) h

/-- Claim C19: for every state, target, count `N ≥ 1` and sequence of skip-distances,
whenever `GetOTASet` succeeds the returned list has exactly `N` entries, whatever the size
of the bucket and whatever is enumerated on each pass. -/
theorem GetOTASet_exact_count (fuel : Nat) (obsa : Address) (rand : Nat → Nat)
    (entries : Address → Nat → List (Hash × Bytes)) (db : StateDB) (otaAX : Bytes)
    (setNum : Int) (addrs : List Bytes) (b : Option Int) (hN : 1 ≤ setNum)
    (h : GetOTASet fuel obsa rand entries (some db) otaAX setNum = some (some addrs, b, none)) :
    (addrs.length : Int) = setNum := by
  have hax : otaAX.length = HashLength := by
    by_contra hne
    simp [GetOTASet, hne] at h
  by_cases hD : bigSetBytes (db.GetStateByteArray obsa otaAX) = 0
  · simp [GetOTASet, hax, GetOtaBalanceFromAX_eq obsa db hax, hD] at h
  · rw [GetOTASet_eq_passLoop fuel obsa rand entries db otaAX setNum _
      (GetOtaBalanceFromAX_eq obsa db hax) hD] at h
    exact passLoop_count rand _ otaAX setNum _ addrs b fuel 0 (initialState rand) rfl
      (by show ((0 : Nat) : Int) < setNum; omega) h

/-- Witness of C19: five decoys asked for `A1` out of the bucket `{A1, A2, A3}`, five
returned. -/
theorem GetOTASet_exact_count_witness :
    GetOTASet 10 exBalanceStorageAddr randZero exEntries3 (some exDB3) (exAX 1) 5 =
      some (some [exAddr 2, exAddr 3, exAddr 1, exAddr 1, exAddr 2], some oneCoin, none) ∧
    (([exAddr 2, exAddr 3, exAddr 1, exAddr 1, exAddr 2] : List Bytes).length : Int) = 5 :=
  ⟨exRun5, GetOTASet_exact_count 10 exBalanceStorageAddr randZero exEntries3 exDB3 (exAX 1) 5
    [exAddr 2, exAddr 3, exAddr 1, exAddr 1, exAddr 2] (some oneCoin) (by decide) exRun5⟩

/-! ## The errors of the sampler: claims C16, C17 -/

theorem visit_counted (rand : Nat → Nat) (otaAX : Bytes) (N : Int) (balance : Int) (p : Nat)
    (s : SamplerState) (k : Hash) (v : Bytes) (hs : Counted s ∨ (p = 0 ∧ ErrIsInvalid s)) :
    Counted (visit rand otaAX N balance p s k v).1 := by
  by_cases hv : v.length = WAddressLength
  · obtain ⟨h1, h2, h3, _⟩ := visit_outcome rand otaAX N balance p s k v hv
    rcases hs with ⟨he, hc⟩ | ⟨hp, he⟩
    · refine ⟨?_, ?_⟩
      · unfold ErrIsInvalid; rw [h1]; exact he
      · rcases hc with hc | hc
        · exact Or.inl (le_trans hc h2)
        · exact Or.inr (by rw [h1]; exact hc)
    · refine ⟨?_, Or.inl ?_⟩
      · unfold ErrIsInvalid; rw [h1]; exact he
      · rw [h3 hp]; exact Nat.succ_pos _
  · rw [visit_bad rand otaAX N balance p s k v hv]
    exact ⟨Or.inr ⟨balance, v, rfl⟩, Or.inr (by simp)⟩

theorem pass_counted (rand : Nat → Nat) (otaAX : Bytes) (N : Int) (balance : Int) (p : Nat)
    (l : List (Hash × Bytes)) (s : SamplerState)
    (hs : Counted s ∨ (p = 0 ∧ l ≠ [] ∧ ErrIsInvalid s)) :
    Counted (ForEachStorageByteArray (visit rand otaAX N balance p) l s) := by
  rcases hs with hs | ⟨hp, hl, he⟩
  · exact forEach_inv _ Counted l
      (fun s k v _ h => visit_counted rand otaAX N balance p s k v (Or.inl h)) s hs
  · cases l with
    | nil => exact absurd rfl hl
    | cons e rest =>
      obtain ⟨k, v⟩ := e
      have h1 := visit_counted rand otaAX N balance p s k v (Or.inr ⟨hp, he⟩)
      unfold ForEachStorageByteArray
      rcases hcb : visit rand otaAX N balance p s k v with ⟨s1, c⟩
      rw [hcb] at h1
      cases c with
      | true =>
        exact forEach_inv _ Counted rest
          (fun s k v _ h => visit_counted rand otaAX N balance p s k v (Or.inl h)) s1 h1
      | false => exact h1

theorem passLoop_counted (rand : Nat → Nat) (ents : Nat → List (Hash × Bytes)) (otaAX : Bytes)
    (N : Int) (balance : Int) (r : SetResult) (hne : ents 0 ≠ []) :
    ∀ (fuel p : Nat) (s : SamplerState), (Counted s ∨ (p = 0 ∧ ErrIsInvalid s)) →
      passLoop rand ents otaAX N balance fuel p s = some r →
      ∀ b, r.2.2 ≠ some (.noOtaAddressExit b) := by
  intro fuel
  induction fuel with
  | zero => intro p s _ h; simp [passLoop] at h
  | succ fuel ih =>
    intro p s hs h b
    have hc : Counted (ForEachStorageByteArray (visit rand otaAX N balance p) (ents p) s) := by
      apply pass_counted
      rcases hs with hs | ⟨hp, he⟩
      · exact Or.inl hs
      · exact Or.inr ⟨hp, by rw [hp]; exact hne, he⟩
    rw [passLoop] at h
    split at h
    · next herr =>
      simp only [Option.some.injEq] at h
      subst h
      rcases hc.1 with h1 | ⟨b1, v1, h1⟩
      · exact absurd h1 herr
      · simp only
        rw [h1]
        simp
    · next herr =>
      split at h
      · next hz =>
        rcases hc.2 with h1 | h1
        · omega
        · exact absurd h1 herr
      · split at h
        · simp only [Option.some.injEq] at h
          subst h
          simp
        · exact ih _ _ (Or.inl hc) h b

/-- Claim C16: for every state, every target that resolves to a non-zero denomination `D`
(its identifier is then 32 bytes long), every count and every sequence of skip-distances:
if the bucket of `D` enumerates no entry, `GetOTASet` returns the error "no ota address
exit!" with no decoys; and if `GetOTASet` returns that error, the bucket enumerates no
entry. -/
theorem GetOTASet_no_ota_iff_empty (obsa : Address) (rand : Nat → Nat)
    (entries : Address → Nat → List (Hash × Bytes)) (db : StateDB) (otaAX : Bytes) (D : Int)
    (setNum : Int)
    (hbal : GetOtaBalanceFromAX obsa (some db) otaAX = (some D, none)) (hD : D ≠ 0) :
    (entries (OTABalance2ContractAddr (some D)) 0 = [] →
      ∀ fuel, 1 ≤ fuel → GetOTASet fuel obsa rand entries (some db) otaAX setNum =
        some (none, some D, some (.noOtaAddressExit D))) ∧
    (∀ fuel r b, GetOTASet fuel obsa rand entries (some db) otaAX setNum = some r →
      r.2.2 = some (.noOtaAddressExit b) →
      entries (OTABalance2ContractAddr (some D)) 0 = []) := by
  refine ⟨?_, ?_⟩
  · intro hempty fuel hfuel
    obtain ⟨f, rfl⟩ : ∃ f, fuel = f + 1 := ⟨fuel - 1, by omega⟩
    rw [GetOTASet_eq_passLoop _ obsa rand entries db otaAX setNum D hbal hD, passLoop, hempty]
    simp [ForEachStorageByteArray, initialState]
  · intro fuel r b h hr
    by_contra hne
    rw [GetOTASet_eq_passLoop _ obsa rand entries db otaAX setNum D hbal hD] at h
    exact passLoop_counted rand _ otaAX setNum D r hne fuel 0 (initialState rand)
      (Or.inr ⟨rfl, Or.inl rfl⟩) h b hr

/-- Witness of C16: the target `A1` of the half-written record `exDBHalf`, whose bucket
yields nothing. -/
theorem GetOTASet_no_ota_iff_empty_witness :
    GetOTASet 1 exBalanceStorageAddr randZero exEntriesNone (some exDBHalf) (exAX 1) 2 =
      some (none, some oneCoin, some (.noOtaAddressExit oneCoin)) :=
  (GetOTASet_no_ota_iff_empty exBalanceStorageAddr randZero exEntriesNone exDBHalf (exAX 1)
    oneCoin 2 (by decide) (by decide)).1 rfl 1 (le_refl 1)

theorem visited_bad_err (rand : Nat → Nat) (otaAX : Bytes) (N : Int) (balance : Int) (p : Nat)
    (l : List (Hash × Bytes)) :
    ∀ s : SamplerState,
      (∃ e ∈ visited (visit rand otaAX N balance p) l s, e.2.length ≠ WAddressLength) →
      ∃ v, v.length ≠ WAddressLength ∧
        (ForEachStorageByteArray (visit rand otaAX N balance p) l s).err =
          some (.invalidOTAAddress balance v) := by
  induction l with
  | nil => intro s ⟨e, he, _⟩; simp [visited] at he
  | cons e0 rest ih =>
    intro s ⟨e, he, hbad⟩
    obtain ⟨k, v⟩ := e0
    by_cases hv : v.length = WAddressLength
    · unfold visited at he
      unfold ForEachStorageByteArray
      rcases hcb : visit rand otaAX N balance p s k v with ⟨s1, c⟩
      rw [hcb] at he
      cases c with
      | true =>
        simp only [List.mem_cons] at he
        rcases he with rfl | he
        · exact absurd hv hbad
        · exact ih s1 ⟨e, he, hbad⟩
      | false =>
        simp only [List.mem_singleton] at he
        subst he
        exact absurd hv hbad
    · refine ⟨v, hv, ?_⟩
      unfold ForEachStorageByteArray
      rw [visit_bad rand otaAX N balance p s k v hv]

theorem pass_zero_reaches_bad (rand : Nat → Nat) (otaAX : Bytes) (N : Int) (balance : Int)
    (l : List (Hash × Bytes)) :
    ∀ s : SamplerState, (∃ e ∈ l, e.2.length ≠ WAddressLength) →
      (s.i : Int) + (l.length : Int) ≤ N →
      ∃ v, v.length ≠ WAddressLength ∧
        (ForEachStorageByteArray (visit rand otaAX N balance 0) l s).err =
          some (.invalidOTAAddress balance v) := by
  induction l with
  | nil => intro s ⟨e, he, _⟩; simp at he
  | cons e0 rest ih =>
    intro s ⟨e, he, hbad⟩ hle
    obtain ⟨k, v⟩ := e0
    by_cases hv : v.length = WAddressLength
    · have herest : e ∈ rest := by
        rcases List.mem_cons.mp he with rfl | h
        · exact absurd hv hbad
        · exact h
      have hpos : 1 ≤ rest.length := List.length_pos_of_mem herest
      simp only [List.length_cons] at hle
      push_cast at hle
      obtain ⟨_, _, _, h⟩ := visit_outcome rand otaAX N balance 0 s k v hv
      unfold ForEachStorageByteArray
      rcases hcb : visit rand otaAX N balance 0 s k v with ⟨s1, c⟩
      rw [hcb] at h
      simp only at h
      have hc : c = true ∧ (s1.i : Int) + (rest.length : Int) ≤ N := by
        rcases h with ⟨_, g2, g3⟩ | ⟨_, g2, g3⟩
        · exact ⟨g3, by rw [g2]; omega⟩
        · refine ⟨?_, by rw [g2]; push_cast; omega⟩
          rw [g3]
          simp only [decide_eq_true_eq]
          push_cast
          omega
      obtain ⟨hc1, hc2⟩ := hc
      subst hc1
      exact ih s1 ⟨e, herest, hbad⟩ hc2
    · refine ⟨v, hv, ?_⟩
      unfold ForEachStorageByteArray
      rw [visit_bad rand otaAX N balance 0 s k v hv]

theorem passLoop_err (rand : Nat → Nat) (ents : Nat → List (Hash × Bytes)) (otaAX : Bytes)
    (N : Int) (balance : Int) (fuel p : Nat) (s : SamplerState) (e : OTAError)
    (h : (ForEachStorageByteArray (visit rand otaAX N balance p) (ents p) s).err = some e) :
    passLoop rand ents otaAX N balance (fuel + 1) p s = some (none, none, some e) := by
  rw [passLoop, if_pos (by rw [h]; simp), h]

/-- Claim C17: for every state, every target with a non-zero denomination `D`, every count
and every sequence of skip-distances: (1) in every pass, from every sampler state, if the
enumeration callback is invoked on an entry whose length is not the Full-Address width,
the pass loop returns the error "invalid OTA address!" with nil decoys and a nil balance;
(2) in particular `GetOTASet` returns that error whenever the bucket contains such an
entry and the count is at least the number of bucket entries. -/
theorem GetOTASet_malformed_entry (obsa : Address) (rand : Nat → Nat)
    (entries : Address → Nat → List (Hash × Bytes)) (db : StateDB) (otaAX : Bytes) (D : Int)
    (setNum : Int)
    (hbal : GetOtaBalanceFromAX obsa (some db) otaAX = (some D, none)) (hD : D ≠ 0) :
    (∀ (fuel p : Nat) (s : SamplerState),
      (∃ e ∈ visited (visit rand otaAX setNum D p)
        (entries (OTABalance2ContractAddr (some D)) p) s, e.2.length ≠ WAddressLength) →
      ∃ v, v.length ≠ WAddressLength ∧
        passLoop rand (entries (OTABalance2ContractAddr (some D))) otaAX setNum D (fuel + 1) p s =
          some (none, none, some (.invalidOTAAddress D v))) ∧
    ((∃ e ∈ entries (OTABalance2ContractAddr (some D)) 0, e.2.length ≠ WAddressLength) →
      ((entries (OTABalance2ContractAddr (some D)) 0).length : Int) ≤ setNum →
      ∃ v, v.length ≠ WAddressLength ∧ ∀ fuel, 1 ≤ fuel →
        GetOTASet fuel obsa rand entries (some db) otaAX setNum =
          some (none, none, some (.invalidOTAAddress D v))) := by
  refine ⟨?_, ?_⟩
  · intro fuel p s hvis
    obtain ⟨v, hv, herr⟩ := visited_bad_err rand otaAX setNum D p _ s hvis
    exact ⟨v, hv, passLoop_err rand _ otaAX setNum D fuel p s _ herr⟩
  · intro hbad hle
    obtain ⟨v, hv, herr⟩ := pass_zero_reaches_bad rand otaAX setNum D _ (initialState rand) hbad
      (by show ((0 : Nat) : Int) + _ ≤ setNum; omega)
    refine ⟨v, hv, ?_⟩
    intro fuel hfuel
    obtain ⟨f, rfl⟩ : ∃ f, fuel = f + 1 := ⟨fuel - 1, by omega⟩
    rw [GetOTASet_eq_passLoop _ obsa rand entries db otaAX setNum D hbal hD]
    exact passLoop_err rand _ otaAX setNum D f 0 _ _ herr

/-- Witness of C17: the bucket of `exDBShort` holds `A1` and a 3-byte entry; two decoys
are asked for `A1`. -/
theorem GetOTASet_malformed_entry_witness :
    ∃ v, v.length ≠ WAddressLength ∧
      GetOTASet 1 exBalanceStorageAddr randZero exEntriesShort (some exDBShort) (exAX 1) 2 =
        some (none, none, some (.invalidOTAAddress oneCoin v)) :=
  ((GetOTASet_malformed_entry exBalanceStorageAddr randZero exEntriesShort exDBShort (exAX 1)
    oneCoin 2 (by decide) (by decide)).2
      ⟨(exAX 9, [1, 2, 3]), by decide, by decide⟩ (by decide)).imp
    (fun _ h => ⟨h.1, h.2 1 (le_refl 1)⟩)

/-! ## The invariant I1: claims C12, C20 -/

theorem I1_empty (obsa : Address) : I1 obsa StateDB.empty := by
  intro D k _ _ h
  exact absurd rfl h

theorem setOTA_I1 (obsa : Address) (db : StateDB) (D : Int) (A : Bytes) (hI : I1 obsa db)
    (hD : 0 < D)
    (hfresh : ∀ D1 : Int, OTABalance2ContractAddr (some D1) ≠ obsa →
      OTABalance2ContractAddr (some D1) ≠ OTABalance2ContractAddr (some D) →
      (db.GetStateByteArray (OTABalance2ContractAddr (some D1)) (axOf A)).length = 0) :
    I1 obsa ((db.SetStateByteArray (OTABalance2ContractAddr (some D)) (axOf A) A).SetStateByteArray
      obsa (axOf A) (bigBytes D)) := by
  have habs : (D.natAbs : Int) = D := Int.natAbs_of_nonneg hD.le
  have hD0 : D ≠ 0 := ne_of_gt hD
  intro D2 k hk hne hent
  rw [GetOtaBalanceFromAX_eq obsa _ hk]
  simp only [get_set, hne, false_and, if_false] at hent
  by_cases hka : k = axOf A
  · subst hka
    refine ⟨D, ?_, hD0, ?_⟩
    · simp [get_set, bigSetBytes_bigBytes, habs]
    · by_contra hb
      have hb1 : OTABalance2ContractAddr (some D2) ≠ OTABalance2ContractAddr (some D) :=
        fun h => hb h.symm
      rw [if_neg (by simp [hb1])] at hent
      exact hent (hfresh D2 hne hb1)
  · rw [if_neg (by simp [hka])] at hent
    obtain ⟨D1, h1, h2, h3⟩ := hI D2 k hk hne hent
    rw [GetOtaBalanceFromAX_eq obsa db hk] at h1
    refine ⟨D1, ?_, h2, h3⟩
    simpa [get_set, hka] using h1

theorem AddOTAIfNotExit_eq (obsa : Address) (db : StateDB) (D : Int) {A : Bytes}
    (hA : A.length = WAddressLength) :
    AddOTAIfNotExit obsa (some db) (some D) A =
      if (CheckOTAExit obsa (some db) (axOf A)).1 = true then
        (some db, false, some .otaExitAlready)
      else
        (some ((db.SetStateByteArray (OTABalance2ContractAddr (some D)) (axOf A)
          A).SetStateByteArray obsa (axOf A) (bigBytes D)), true, none) := by
  have h32 := axOf_length hA
  have hchk := CheckOTAExit_eq obsa db h32
  simp only [AddOTAIfNotExit, hA, ne_eq, not_true_eq_false, if_false,
    GetAXFromWanAddr_fst hA, BytesToHash_of_length h32, setOTA_eq obsa db D hA]
  rw [hchk]
  by_cases h0 : bigSetBytes (db.GetStateByteArray obsa (axOf A)) = 0
  · simp [h0]
  · by_cases h1 : (db.GetStateByteArray (OTABalance2ContractAddr
        (some (bigSetBytes (db.GetStateByteArray obsa (axOf A))))) (axOf A)).length ≠ 0
    · simp only [if_neg h0, if_pos h1]
    · simp only [if_neg h0, if_neg h1]

/-- Claim C12, as stated, fails in two ways.  With the denomination 0: the empty database
satisfies I1, and after `setOTA(0, A1)` the bucket of 0 holds `A1` while the index entry of
`id(A1)` reads 0.  With an overwrite: the database holding `A1` under one coin satisfies
I1, and after `setOTA(2 * 10^18, A1)` the bucket of one coin still holds `A1` while the
index entry names two coins. -/
theorem setOTA_breaks_I1_counterexample :
    (I1 exBalanceStorageAddr StateDB.empty ∧
      ¬ I1 exBalanceStorageAddr
        (stateOf (setOTA exBalanceStorageAddr (some StateDB.empty) (some 0) (exAddr 1)).1)) ∧
    (I1 exBalanceStorageAddr exDB1 ∧ (0 : Int) < 2 * oneCoin ∧
      ¬ I1 exBalanceStorageAddr
        (stateOf (setOTA exBalanceStorageAddr (some exDB1) (some (2 * oneCoin)) (exAddr 1)).1))
    := by
  refine ⟨⟨I1_empty _, ?_⟩, ?_, by decide, ?_⟩
  · intro h
    obtain ⟨D1, h1, h2, _⟩ := h 0 (exAX 1) (by decide) (by decide) (by decide)
    have h3 : (GetOtaBalanceFromAX exBalanceStorageAddr
        (some (stateOf (setOTA exBalanceStorageAddr (some StateDB.empty) (some 0)
          (exAddr 1)).1)) (exAX 1)).1 = some 0 := by decide
    rw [h3] at h1
    exact h2 (Option.some.inj h1).symm
  · have h := setOTA_I1 exBalanceStorageAddr StateDB.empty oneCoin (exAddr 1) (I1_empty _)
      (by decide) (fun _ _ _ => rfl)
    have he : exDB1 = (StateDB.empty.SetStateByteArray (OTABalance2ContractAddr (some oneCoin))
        (axOf (exAddr 1)) (exAddr 1)).SetStateByteArray exBalanceStorageAddr (axOf (exAddr 1))
        (bigBytes oneCoin) := by
      unfold exDB1
      rw [setOTA_eq exBalanceStorageAddr StateDB.empty oneCoin (by decide)]
      rfl
    rw [he]
    exact h
  · intro h
    obtain ⟨D1, h1, _, h3⟩ := h oneCoin (exAX 1) (by decide) (by decide) (by decide)
    have h4 : (GetOtaBalanceFromAX exBalanceStorageAddr
        (some (stateOf (setOTA exBalanceStorageAddr (some exDB1) (some (2 * oneCoin))
          (exAddr 1)).1)) (exAX 1)).1 = some (2 * oneCoin) := by decide
    rw [h4] at h1
    have h5 : D1 = 2 * oneCoin := (Option.some.inj h1).symm
    subst h5
    exact absurd h3 (by decide)

/-- Claim C12 (amended to positive denominations and identifiers without an entry in
another bucket): for every state satisfying I1, every denomination `D > 0` and every full
address `A` of the Full-Address width such that no denomination bucket other than that of
`D` holds a non-empty entry under the identifier of `A`, `setOTA(D, A)` returns no error
and the state after it satisfies I1. -/
theorem setOTA_keeps_I1 (obsa : Address) (db : StateDB) (D : Int) (A : Bytes) (hI : I1 obsa db)
    (hD : 0 < D) (hA : A.length = WAddressLength)
    (hfresh : ∀ D1 : Int, OTABalance2ContractAddr (some D1) ≠ obsa →
      OTABalance2ContractAddr (some D1) ≠ OTABalance2ContractAddr (some D) →
      (db.GetStateByteArray (OTABalance2ContractAddr (some D1))
        (GetAXFromWanAddr A).1).length = 0) :
    ∃ db1, setOTA obsa (some db) (some D) A = (some db1, none) ∧ I1 obsa db1 := by
  rw [GetAXFromWanAddr_fst hA] at hfresh
  exact ⟨_, setOTA_eq obsa db D hA, setOTA_I1 obsa db D A hI hD hfresh⟩

/-- Witness of C12 (amended): `A1` added under one coin to the empty database. -/
theorem setOTA_keeps_I1_witness :
    ∃ db1, setOTA exBalanceStorageAddr (some StateDB.empty) (some oneCoin) (exAddr 1) =
      (some db1, none) ∧ I1 exBalanceStorageAddr db1 :=
  setOTA_keeps_I1 exBalanceStorageAddr StateDB.empty oneCoin (exAddr 1) (I1_empty _)
    (by decide) (by decide) (fun _ _ _ => rfl)

/-- Claim C20: for every state satisfying I1, every denomination `D > 0` and every full
address `A` of the Full-Address width, the state after `AddOTAIfNotExit(D, A)` satisfies
I1, whether the call inserts or returns the already-exists error, and the entries of every
identifier other than that of `A` are unchanged, in every bucket and in the index store. -/
theorem AddOTAIfNotExit_keeps_I1 (obsa : Address) (db : StateDB) (D : Int) (A : Bytes)
    (hI : I1 obsa db) (hD : 0 < D) (hA : A.length = WAddressLength) :
    ∃ db1, (AddOTAIfNotExit obsa (some db) (some D) A).1 = some db1 ∧ I1 obsa db1 ∧
      ∀ (a : Address) (k : Hash), k ≠ (GetAXFromWanAddr A).1 →
        db1.GetStateByteArray a k = db.GetStateByteArray a k := by
  have h32 := axOf_length hA
  rw [AddOTAIfNotExit_eq obsa db D hA, GetAXFromWanAddr_fst hA]
  by_cases hex : (CheckOTAExit obsa (some db) (axOf A)).1 = true
  · rw [if_pos hex]
    exact ⟨db, rfl, hI, fun _ _ _ => rfl⟩
  · rw [if_neg hex]
    refine ⟨_, rfl, ?_, ?_⟩
    · apply setOTA_I1 obsa db D A hI hD
      intro D1 hne _
      by_contra hent
      obtain ⟨D2, h1, h2, h3⟩ := hI D1 (axOf A) h32 hne hent
      rw [GetOtaBalanceFromAX_eq obsa db h32] at h1
      simp only [Option.some.injEq] at h1
      apply hex
      rw [CheckOTAExit_eq obsa db h32, h1, if_neg h2, h3, if_pos hent]
    · intro a k hk
      simp [get_set, hk]

/-- Witness of C20: `A1` inserted under one coin into the empty database. -/
theorem AddOTAIfNotExit_keeps_I1_witness :
    ∃ db1, (AddOTAIfNotExit exBalanceStorageAddr (some StateDB.empty) (some oneCoin)
        (exAddr 1)).1 = some db1 ∧ I1 exBalanceStorageAddr db1 ∧
      ∀ (a : Address) (k : Hash), k ≠ (GetAXFromWanAddr (exAddr 1)).1 →
        db1.GetStateByteArray a k = StateDB.empty.GetStateByteArray a k :=
  AddOTAIfNotExit_keeps_I1 exBalanceStorageAddr StateDB.empty oneCoin (exAddr 1) (I1_empty _)
    (by decide) (by decide)

/-! ## The denomination codec: claims C13, C14 -/

theorem fromHexChar_digitChar (d : Nat) (h : d < 10) :
    fromHexChar (Nat.digitChar d) = some d := by
  interval_cases d <;> rfl

theorem digitChar_toNat (d : Nat) (h : d < 10) : (Nat.digitChar d).toNat - '0'.toNat = d := by
  interval_cases d <;> rfl

theorem digitChar_ne_x (d : Nat) (h : d < 10) :
    Nat.digitChar d ≠ 'x' ∧ Nat.digitChar d ≠ 'X' := by
  interval_cases d <;> exact ⟨by decide, by decide⟩

theorem decDigitsLE_lt (fuel n : Nat) : ∀ d ∈ decDigitsLE fuel n, d < 10 := by
  induction fuel generalizing n with
  | zero => intro d hd; simp [decDigitsLE] at hd
  | succ fuel ih =>
    intro d hd
    unfold decDigitsLE at hd
    split at hd
    · simp at hd
    · rcases List.mem_cons.mp hd with rfl | hd
      · exact Nat.mod_lt _ (by decide)
      · exact ih _ d hd

theorem decDigits_lt (n : Nat) : ∀ d ∈ decDigits n, d < 10 := by
  intro d hd
  unfold decDigits at hd
  split at hd
  · simp at hd; omega
  · exact decDigitsLE_lt n n d (List.mem_reverse.mp hd)

theorem bigString_of_nonneg (n : Int) (h : 0 ≤ n) :
    bigString n = (decDigits n.natAbs).map Nat.digitChar := by
  unfold bigString decDigits
  rw [if_neg (by omega)]
  by_cases h0 : n.natAbs = 0
  · simp [h0]
    rfl
  · simp [h0]

theorem Hex2Bytes_digits : ∀ ds : List Nat, (∀ d ∈ ds, d < 10) →
    Hex2Bytes (ds.map Nat.digitChar) = packHex ds
  | [], _ => rfl
  | [_], _ => rfl
  | a :: b :: rest, h => by
    have ha := fromHexChar_digitChar a (h a (by simp))
    have hb := fromHexChar_digitChar b (h b (by simp))
    have ih := Hex2Bytes_digits rest (fun d hd => h d (by simp [hd]))
    simp only [List.map_cons, Hex2Bytes, packHex, ha, hb, ih]

theorem FromHex_digits (ds : List Nat) (h : ∀ d ∈ ds, d < 10) (h2 : 2 ≤ ds.length) :
    FromHex (ds.map Nat.digitChar) =
      packHex (if ds.length % 2 = 1 then 0 :: ds else ds) := by
  have hpre : (match ds.map Nat.digitChar with
      | '0' :: 'x' :: t => t
      | '0' :: 'X' :: t => t
      | _ => ds.map Nat.digitChar) = ds.map Nat.digitChar := by
    split
    · next t heq =>
      exfalso
      cases ds with
      | nil => simp at heq
      | cons a t1 =>
        cases t1 with
        | nil => simp at heq
        | cons b rest =>
          simp only [List.map_cons, List.cons.injEq] at heq
          exact (digitChar_ne_x b (h b (by simp))).1 heq.2.1
    · next t heq =>
      exfalso
      cases ds with
      | nil => simp at heq
      | cons a t1 =>
        cases t1 with
        | nil => simp at heq
        | cons b rest =>
          simp only [List.map_cons, List.cons.injEq] at heq
          exact (digitChar_ne_x b (h b (by simp))).2 heq.2.1
    · rfl
  unfold FromHex
  rw [if_pos (by rw [List.length_map]; omega)]
  simp only [hpre, List.length_map]
  by_cases hodd : ds.length % 2 = 1
  · rw [if_pos hodd, if_pos hodd]
    have := Hex2Bytes_digits (0 :: ds) (by
      intro d hd
      rcases List.mem_cons.mp hd with rfl | hd
      · decide
      · exact h d hd)
    simpa using this
  · rw [if_neg hodd, if_neg hodd]
    exact Hex2Bytes_digits ds h

theorem packHex_length : ∀ ds : List Nat, (packHex ds).length = ds.length / 2
  | [] => rfl
  | [_] => by simp [packHex]
  | a :: b :: rest => by
    simp only [packHex, List.length_cons, packHex_length rest]
    omega

theorem hexRender_packHex : ∀ ds : List Nat, (∀ d ∈ ds, d < 10) → ds.length % 2 = 0 →
    hexRender (packHex ds) = ds.map Nat.digitChar
  | [], _, _ => rfl
  | [_], _, h => by simp at h
  | a :: b :: rest, h, hlen => by
    have ha : a < 10 := h a (by simp)
    have hb : b < 10 := h b (by simp)
    have ih := hexRender_packHex rest (fun d hd => h d (by simp [hd]))
      (by simp only [List.length_cons] at hlen; omega)
    have h1 : (16 * a + b) % 256 / 16 = a := by omega
    have h2 : (16 * a + b) % 256 % 16 = b := by omega
    simp only [packHex, hexRender, List.map_cons, h1, h2, ih]

theorem hexRender_append (a b : Bytes) : hexRender (a ++ b) = hexRender a ++ hexRender b := by
  induction a with
  | nil => rfl
  | cons x rest ih => simp [hexRender, ih]

theorem hexRender_zeros (k : Nat) :
    hexRender (List.replicate k zeroByte) = List.replicate (2 * k) '0' := by
  induction k with
  | zero => rfl
  | succ k ih =>
    rw [List.replicate_succ, hexRender, ih, show 2 * (k + 1) = (2 * k + 1) + 1 by omega,
      List.replicate_succ, List.replicate_succ]
    rfl

theorem leftPadCrop_length (n : Nat) (b : Bytes) : (leftPadCrop n b).length = n := by
  unfold leftPadCrop
  split
  · simp; omega
  · simp; omega

theorem hexRender_address_zero :
    hexRender (OTABalance2ContractAddr (some 0)) =
      List.replicate (40 - (bigString 0).length) '0' ++ bigString 0 := by
  decide

theorem hexRender_address_long (n : Int) (h : 0 ≤ n) (hlen2 : 2 ≤ (bigString n).length)
    (hlen : (bigString n).length ≤ 40) :
    hexRender (OTABalance2ContractAddr (some n)) =
      List.replicate (40 - (bigString n).length) '0' ++ bigString n := by
  have hds := decDigits_lt n.natAbs
  rw [bigString_of_nonneg n h] at hlen hlen2 ⊢
  rw [List.length_map] at hlen hlen2
  simp only [OTABalance2ContractAddr, HexToAddress, BytesToAddress, bigString_of_nonneg n h,
    FromHex_digits _ hds hlen2, List.length_map]
  by_cases hodd : (decDigits n.natAbs).length % 2 = 1
  · rw [if_pos hodd]
    have hl : (packHex (0 :: decDigits n.natAbs)).length =
        ((decDigits n.natAbs).length + 1) / 2 := by
      rw [packHex_length]; rfl
    unfold leftPadCrop
    rw [if_neg (by rw [hl]; simp only [AddressLength]; omega), hexRender_append, hexRender_zeros,
      hexRender_packHex _ (by
        intro d hd
        rcases List.mem_cons.mp hd with rfl | hd
        · decide
        · exact hds d hd) (by simp only [List.length_cons]; omega), hl]
    have hk : 2 * (AddressLength - ((decDigits n.natAbs).length + 1) / 2) + 1 =
        40 - (decDigits n.natAbs).length := by
      simp only [AddressLength]; omega
    rw [← hk, List.replicate_succ']
    simp
    rfl
  · rw [if_neg hodd]
    have hl := packHex_length (decDigits n.natAbs)
    unfold leftPadCrop
    rw [if_neg (by rw [hl]; simp only [AddressLength]; omega), hexRender_append, hexRender_zeros,
      hexRender_packHex _ hds (by omega), hl]
    have hk : 2 * (AddressLength - (decDigits n.natAbs).length / 2) =
        40 - (decDigits n.natAbs).length := by
      simp only [AddressLength]; omega
    rw [hk]

theorem foldl_dec_zeros (k : Nat) :
    (List.replicate k '0').foldl (fun acc c => acc * 10 + (c.toNat - '0'.toNat)) 0 = 0 := by
  induction k with
  | zero => rfl
  | succ k ih => rw [List.replicate_succ, List.foldl_cons]; exact ih

theorem foldl_dec_digits (ds : List Nat) (h : ∀ d ∈ ds, d < 10) (acc : Nat) :
    (ds.map Nat.digitChar).foldl (fun acc c => acc * 10 + (c.toNat - '0'.toNat)) acc =
      ds.foldl (fun acc d => acc * 10 + d) acc := by
  induction ds generalizing acc with
  | nil => rfl
  | cons d rest ih =>
    simp only [List.map_cons, List.foldl_cons, digitChar_toNat d (h d (by simp))]
    exact ih (fun x hx => h x (by simp [hx])) _

theorem foldl_reverse_decLE (l : List Nat) :
    l.reverse.foldl (fun acc d => acc * 10 + d) 0 = decLE l := by
  induction l with
  | nil => rfl
  | cons d rest ih =>
    rw [List.reverse_cons, List.foldl_append, ih]
    simp only [List.foldl_cons, List.foldl_nil, decLE]
    omega

theorem decLE_decDigitsLE (fuel n : Nat) (h : n ≤ fuel) : decLE (decDigitsLE fuel n) = n := by
  induction fuel generalizing n with
  | zero =>
    have : n = 0 := by omega
    subst this
    simp [decDigitsLE, decLE]
  | succ fuel ih =>
    unfold decDigitsLE
    split
    · next h0 => simp [decLE, h0]
    · next h0 =>
      simp only [decLE]
      rw [ih (n / 10) (by omega)]
      omega

theorem foldl_decDigits (n : Nat) : (decDigits n).foldl (fun acc d => acc * 10 + d) 0 = n := by
  unfold decDigits
  split
  · next h0 => simp [h0]
  · rw [foldl_reverse_decLE, decLE_decDigitsLE n n (le_refl _)]

theorem decValue_padded (n : Int) (h : 0 ≤ n) (k : Nat) :
    decValue (List.replicate k '0' ++ bigString n) = n.natAbs := by
  unfold decValue
  rw [List.foldl_append, foldl_dec_zeros, bigString_of_nonneg n h,
    foldl_dec_digits _ (decDigits_lt _), foldl_decDigits]

theorem hexRender_address (n : Int) (h : 0 ≤ n)
    (hz : n = 0 ∨ 2 ≤ (bigString n).length) (hlen : (bigString n).length ≤ 40) :
    hexRender (OTABalance2ContractAddr (some n)) =
      List.replicate (40 - (bigString n).length) '0' ++ bigString n := by
  rcases hz with rfl | hz
  · exact hexRender_address_zero
  · exact hexRender_address_long n h hz hlen

/-- Claim C13, as stated, fails for one-digit denominations: the decimal strings of 1 and
2 have one character, `common.FromHex` decodes such a string to nil, and both denominations
are mapped to the zero address. -/
theorem OTABalance2ContractAddr_one_digit_counterexample :
    (0 : Int) ≤ 1 ∧ (0 : Int) ≤ 2 ∧ (bigString 1).length ≤ 40 ∧ (bigString 2).length ≤ 40 ∧
    (1 : Int) ≠ 2 ∧
    OTABalance2ContractAddr (some 1) = OTABalance2ContractAddr (some 2) ∧
    OTABalance2ContractAddr (some 1) = zeroAddress := by
  decide

/-- Claim C13 (amended to denominations that are 0 or have at least two digits): for every
two distinct non-negative denominations `d1` and `d2`, each either 0 or of two to 40
decimal digits, `OTABalance2ContractAddr(d1)` differs from `OTABalance2ContractAddr(d2)`. -/
theorem OTABalance2ContractAddr_injective (d1 d2 : Int) (h1 : 0 ≤ d1) (h2 : 0 ≤ d2)
    (hz1 : d1 = 0 ∨ 2 ≤ (bigString d1).length) (hz2 : d2 = 0 ∨ 2 ≤ (bigString d2).length)
    (hl1 : (bigString d1).length ≤ 40) (hl2 : (bigString d2).length ≤ 40) (hne : d1 ≠ d2) :
    OTABalance2ContractAddr (some d1) ≠ OTABalance2ContractAddr (some d2) := by
  intro heq
  have hr := congrArg hexRender heq
  rw [hexRender_address d1 h1 hz1 hl1, hexRender_address d2 h2 hz2 hl2] at hr
  have hv := congrArg decValue hr
  rw [decValue_padded d1 h1, decValue_padded d2 h2] at hv
  apply hne
  omega

/-- Witness of C13 (amended): one coin and two coins have different buckets. -/
theorem OTABalance2ContractAddr_injective_witness :
    OTABalance2ContractAddr (some oneCoin) ≠ OTABalance2ContractAddr (some (2 * oneCoin)) :=
  OTABalance2ContractAddr_injective oneCoin (2 * oneCoin) (by decide) (by decide)
    (Or.inr (by decide)) (Or.inr (by decide)) (by decide) (by decide) (by decide)

/-- Claim C14, as stated, fails for one-digit balances other than 0: the decimal string of
5 has one character, `common.FromHex` decodes it to nil, and 5 is mapped to the zero
address, whose rendering is forty digits 0 and not the padded string ending in 5. -/
theorem OTABalance2ContractAddr_five_counterexample :
    (0 : Int) ≤ 5 ∧ (bigString 5).length ≤ 40 ∧
    OTABalance2ContractAddr (some 5) = zeroAddress ∧
    hexRender (OTABalance2ContractAddr (some 5)) ≠
      List.replicate (40 - (bigString 5).length) '0' ++ bigString 5 := by
  decide

/-- Claim C14 (amended to balances that are 0 or have at least two digits): for every
non-negative balance that is 0 or has two to 40 decimal digits,
`OTABalance2ContractAddr(balance)` is the 20-byte address whose 40-digit hexadecimal
rendering is the decimal string of the balance left-padded with the digit 0. -/
theorem OTABalance2ContractAddr_decimal_as_hex (n : Int) (h : 0 ≤ n)
    (hz : n = 0 ∨ 2 ≤ (bigString n).length) (hlen : (bigString n).length ≤ 40) :
    (OTABalance2ContractAddr (some n)).length = AddressLength ∧
    hexRender (OTABalance2ContractAddr (some n)) =
      List.replicate (40 - (bigString n).length) '0' ++ bigString n :=
  ⟨leftPadCrop_length _ _, hexRender_address n h hz hlen⟩

/-- Witness of C14 (amended), the example of the doc comment: 1000000000000000000 is
mapped to 0x0000000000000000000001000000000000000000. -/
theorem OTABalance2ContractAddr_decimal_as_hex_witness :
    ((OTABalance2ContractAddr (some oneCoin)).length = AddressLength ∧
      hexRender (OTABalance2ContractAddr (some oneCoin)) =
        List.replicate (40 - (bigString oneCoin).length) '0' ++ bigString oneCoin) ∧
    List.replicate (40 - (bigString oneCoin).length) '0' ++ bigString oneCoin =
      "0000000000000000000001000000000000000000".toList :=
  ⟨OTABalance2ContractAddr_decimal_as_hex oneCoin (by decide) (Or.inr (by decide)) (by decide),
    by decide⟩

/-! ## The skip-sampling policy of pass 0: claim C18 -/

theorem nextPos_of_mod_zero (t d : Nat) (hd : 1 ≤ d) (h : (t + 1) % d = 0) :
    nextPos t d = t + 1 := by
  have hr : t % d < d := Nat.mod_lt _ hd
  have ht := Nat.div_add_mod t d
  have hlast : t % d + 1 = d := by
    by_contra hne
    have hlt : t % d + 1 < d := by omega
    have h2 : t + 1 = d * (t / d) + (t % d + 1) := by omega
    rw [h2, Nat.mul_add_mod, Nat.mod_eq_of_lt hlt] at h
    omega
  unfold nextPos
  rw [Nat.succ_mul, Nat.mul_comm (t / d) d]
  omega

theorem nextPos_of_mod_ne_zero (t d : Nat) (hd : 1 ≤ d) (h : (t + 1) % d ≠ 0) :
    nextPos (t + 1) d = nextPos t d ∧ t + 1 < nextPos t d := by
  have hr : t % d < d := Nat.mod_lt _ hd
  have ht := Nat.div_add_mod t d
  have hm := succ_mod_of_ne_zero t d hd h
  have hlt : (t + 1) % d < d := Nat.mod_lt _ hd
  have ht1 := Nat.div_add_mod (t + 1) d
  have hdiv : (t + 1) / d = t / d := by
    have h3 : d * ((t + 1) / d) = d * (t / d) := by omega
    exact Nat.eq_of_mul_eq_mul_left hd h3
  unfold nextPos
  rw [hdiv]
  refine ⟨rfl, ?_⟩
  rw [Nat.succ_mul, Nat.mul_comm (t / d) d]
  omega

theorem pickMultiples_skip (rand : Nat → Nat) (m t d j : Nat) (v : Bytes) (L : List Bytes)
    (hd : 1 ≤ d) (h : (t + 1) % d ≠ 0) :
    pickMultiples rand (m + 1) t d j (v :: L) = pickMultiples rand (m + 1) (t + 1) d j L := by
  obtain ⟨h1, h2⟩ := nextPos_of_mod_ne_zero t d hd h
  rw [pickMultiples, pickMultiples, h1]
  have h3 : nextPos t d - t - 1 = (nextPos t d - (t + 1) - 1) + 1 := by omega
  rw [h3, List.drop_succ_cons]

theorem pickMultiples_select (rand : Nat → Nat) (m t d j : Nat) (v : Bytes) (L : List Bytes)
    (hd : 1 ≤ d) (h : (t + 1) % d = 0) :
    pickMultiples rand (m + 1) t d j (v :: L) =
      v :: pickMultiples rand m (t + 1) (rand j + 1) (j + 1) L := by
  have h1 := nextPos_of_mod_zero t d hd h
  rw [pickMultiples, h1]
  have h3 : t + 1 - t - 1 = 0 := by omega
  rw [h3, List.drop_zero]

theorem pass_zero_selection (rand : Nat → Nat) (otaAX : Bytes) (n : Nat) (balance : Int)
    (l : List (Hash × Bytes)) :
    ∀ s : SamplerState, (∀ e ∈ l, e.2.length = WAddressLength) → s.i < n → 1 ≤ s.rnd →
      (ForEachStorageByteArray (visit rand otaAX (n : Int) balance 0) l s).otaWanAddrs =
        s.otaWanAddrs ++
          pickMultiples rand (n - s.i) s.loopTimes s.rnd s.draws (nonTarget otaAX l) := by
  induction l with
  | nil =>
    intro s _ hi _
    obtain ⟨m, hm⟩ : ∃ m, n - s.i = m + 1 := ⟨n - s.i - 1, by omega⟩
    rw [hm]
    simp [ForEachStorageByteArray, nonTarget, pickMultiples]
  | cons e rest ih =>
    intro s hl hi hrnd
    obtain ⟨k, v⟩ := e
    have hv : v.length = WAddressLength := hl (k, v) (List.mem_cons_self _ _)
    have hrest : ∀ e ∈ rest, e.2.length = WAddressLength :=
      fun e he => hl e (List.mem_cons_of_mem _ he)
    obtain ⟨m, hm⟩ : ∃ m, n - s.i = m + 1 := ⟨n - s.i - 1, by omega⟩
    unfold ForEachStorageByteArray
    rw [visit_zero rand otaAX n balance s k v hv]
    by_cases hself : isSelf otaAX v = true
    · rw [if_pos hself]
      have hnt : nonTarget otaAX ((k, v) :: rest) = nonTarget otaAX rest := by
        simp [nonTarget, hself]
      rw [hnt]
      exact ih { s with mptEleCount := s.mptEleCount + 1 } hrest hi hrnd
    · rw [if_neg hself]
      have hnt : nonTarget otaAX ((k, v) :: rest) = v :: nonTarget otaAX rest := by
        simp [nonTarget, hself]
      rw [hnt, hm]
      rcases randomSel_cases rand (n : Int) { s with mptEleCount := s.mptEleCount + 1 } v
        with ⟨hne, heq⟩ | ⟨hz, heq⟩
      · rw [heq]
        simp only
        rw [pickMultiples_skip rand m s.loopTimes s.rnd s.draws v _ hrnd hne, ← hm]
        exact ih _ hrest hi hrnd
      · rw [heq, pickMultiples_select rand m s.loopTimes s.rnd s.draws v _ hrnd hz]
        by_cases hlt : s.i + 1 < n
        · have hdec : decide ((((s.i + 1 : Nat)) : Int) < (n : Int)) = true := by
            simp only [decide_eq_true_eq]; exact_mod_cast hlt
          simp only [hdec]
          have hm1 : m = n - (s.i + 1) := by omega
          rw [hm1]
          refine (ih _ hrest ?_ ?_).trans ?_
          · exact hlt
          · exact Nat.succ_pos _
          · simp
        · have hdec : decide ((((s.i + 1 : Nat)) : Int) < (n : Int)) = false := by
            simp only [decide_eq_false_iff_not]; exact_mod_cast hlt
          simp only [hdec]
          have hm0 : m = 0 := by omega
          rw [hm0]
          simp [pickMultiples]

/-- Claim C18, as stated, fails: with the skip-distances 3, 5 and the count 2, pass 0 over
`A1, ..., A9` for the target `A1` selects the non-target members at positions 3 and 5 (`A4`
and `A6`), not at positions 3 and 3 + 5 (`A4` and `A9`) as counter-resetting skip-sampling
does. -/
theorem pass_zero_not_resetting_counterexample :
    (ForEachStorageByteArray (visit randThreeFive (exAX 1) 2 oneCoin 0) exList9
      (initialState randThreeFive)).otaWanAddrs = [exAddr 4, exAddr 6] ∧
    pickReset randThreeFive 2 (randThreeFive 0 + 1) 1 (nonTarget (exAX 1) exList9) =
      [exAddr 4, exAddr 9] ∧
    (ForEachStorageByteArray (visit randThreeFive (exAX 1) 2 oneCoin 0) exList9
      (initialState randThreeFive)).otaWanAddrs ≠
        pickReset randThreeFive 2 (randThreeFive 0 + 1) 1 (nonTarget (exAX 1) exList9) := by
  decide

/-- Claim C18 (amended to a counter that is never reset): for every enumeration of entries
of the Full-Address width, every count `N ≥ 1` and every sequence of drawn skip-distances
`d1 = rand 0 + 1, d2 = rand 1 + 1, ...`, the members selected in pass 0 are exactly the
non-target members at the positions `p1 < p2 < ...` of the non-target enumeration, where
`p1 = d1` and each next position is the least multiple of the newly drawn distance above
the last one, stopping after `N` selections. -/
theorem pass_zero_selects_multiples (rand : Nat → Nat) (otaAX : Bytes) (setNum : Int)
    (balance : Int) (l : List (Hash × Bytes)) (hN : 1 ≤ setNum)
    (hl : ∀ e ∈ l, e.2.length = WAddressLength) :
    (ForEachStorageByteArray (visit rand otaAX setNum balance 0) l
      (initialState rand)).otaWanAddrs =
        pickMultiples rand setNum.toNat 0 (rand 0 + 1) 1 (nonTarget otaAX l) := by
  have hcast : ((setNum.toNat : Nat) : Int) = setNum := Int.toNat_of_nonneg (by omega)
  have h := pass_zero_selection rand otaAX setNum.toNat balance l (initialState rand) hl
    (by show 0 < setNum.toNat; omega) (Nat.succ_pos _)
  rw [hcast] at h
  rw [h]
  simp [initialState]

/-- Witness of C18 (amended): the walk over `A1, ..., A9` with the distances 3, 5. -/
theorem pass_zero_selects_multiples_witness :
    (ForEachStorageByteArray (visit randThreeFive (exAX 1) 2 oneCoin 0) exList9
      (initialState randThreeFive)).otaWanAddrs =
        pickMultiples randThreeFive (2 : Int).toNat 0 (randThreeFive 0 + 1) 1
          (nonTarget (exAX 1) exList9) :=
  pass_zero_selects_multiples randThreeFive (exAX 1) 2 oneCoin exList9 (by decide) (by decide)

end OTAStorage
